import Mathlib

/-!
Verification development for the LightJSON library (src/json.hpp).

The C++ source is shallowly embedded:
* `JSON` mirrors the tagged union `class JSON`; byte strings (`std::string`)
  become `List Nat` of byte values 0..255, `std::vector<JSON>` becomes the
  (isomorphic) mutual inductive `JArr`, and `std::map<std::string, JSON>`
  becomes `JObj`, a key-sorted association list.
* the `double` payload is modelled by the exact rational value of the
  binary64 number (every finite double is a rational); the library performs
  no floating-point arithmetic, so only reading and printing doubles occur.
* exceptions become `Except Err`; `std::stoi` / `std::stod` failures and
  out-of-bounds buffer reads (undefined behaviour in the C++) are separate
  `Err` constructors.
* the recursive-descent parser is embedded with an explicit fuel parameter
  so that every function is structurally recursive and kernel-computable.
  `Err.fuel` is a model artifact that no theorem's run ever produces.
-/

/-- bytes of a Lean string literal, used to transcribe C++ string literals. -/
def strOf (s : String) : List Nat := s.data.map Char.toNat

/-- C `isspace` on the ASCII range: space, \t, \n, \v, \f, \r. -/
def isSpaceB (c : Nat) : Bool := c = 32 || (9 ≤ c && c ≤ 13)

/-- ASCII decimal digit test, mirroring `ch >= '0' && ch <= '9'`. -/
def isDigitB (c : Nat) : Bool := 48 ≤ c && c ≤ 57

/-- value of a byte read through a signed `char` (the dominant x86-64 ABI):
bytes 128..255 are negative. -/
def signedVal (b : Nat) : Int := if b < 128 then (b : Int) else (b : Int) - 256

/-- lexicographic byte comparison, `std::string::operator<`. -/
def strLtB : List Nat → List Nat → Bool
  | [], [] => false
  | [], _ :: _ => true
  | _ :: _, [] => false
  | a :: as, b :: bs => if a < b then true else if b < a then false else strLtB as bs

mutual
/-- the tagged value type `class JSON` (src/json.hpp lines 26-322).  Each
constructor is one `Type` tag together with its owned payload. -/
inductive JSON where
  | null
  | boolean (b : Bool)
  | integer (i : Int)
  | double (d : ℚ)
  | str (s : List Nat)
  | arr (a : JArr)
  | obj (o : JObj)

/-- payload of the `Array` tag: `std::vector<JSON>`. -/
inductive JArr where
  | nil
  | cons (hd : JSON) (tl : JArr)

/-- payload of the `Object` tag: `std::map<std::string, JSON>`, kept as its
in-order (key-sorted) entry sequence. -/
inductive JObj where
  | nil
  | cons (key : List Nat) (val : JSON) (tl : JObj)
end

namespace JArr

/-- vector length. -/
def length : JArr → Nat
  | .nil => 0
  | .cons _ t => 1 + length t

/-- `push_back`. -/
def push : JArr → JSON → JArr
  | .nil, x => .cons x .nil
  | .cons h t, x => .cons h (push t x)

/-- does some element satisfy `p` (the `hasComplexChildren` scan shape). -/
def any (p : JSON → Bool) : JArr → Bool
  | .nil => false
  | .cons h t => p h || any p t

end JArr

namespace JObj

/-- `std::map::find`-style lookup (the list is key-sorted, lookup is by key
equality). -/
def find : JObj → List Nat → Option JSON
  | .nil, _ => none
  | .cons k v t, key => if k = key then some v else find t key

/-- insert-or-assign while keeping the entries sorted by `strLtB`; this is the
net effect of `(*object)[key] = value` on a `std::map`. -/
def insert (key : List Nat) (val : JSON) : JObj → JObj
  | .nil => .cons key val .nil
  | .cons k v t =>
    if strLtB key k then .cons key val (.cons k v t)
    else if strLtB k key then .cons k v (insert key val t)
    else .cons key val t

/-- number of entries. -/
def size : JObj → Nat
  | .nil => 0
  | .cons _ _ t => 1 + size t

end JObj

/-- the `JSON::Type` tag enumeration (lines 28-36). -/
inductive JType where
  | Null
  | Boolean
  | Integer
  | Double
  | String
  | Array
  | Object
deriving DecidableEq

/-- JSON::getType (line 64): the active tag. -/
def getType : JSON → JType
  | .null => .Null
  | .boolean _ => .Boolean
  | .integer _ => .Integer
  | .double _ => .Double
  | .str _ => .String
  | .arr _ => .Array
  | .obj _ => .Object

/-- error channel of the embedding.  The C++ library throws
`std::runtime_error` for every library-raised failure; the constructors keep
the spec's taxonomy apart, and separate the failures the library does not
raise itself: `std::stoi` / `std::stod` exceptions escaping `parseNumber`,
out-of-bounds reads (undefined behaviour), and fuel exhaustion (model
artifact only). -/
inductive Err where
  | typeMismatch (msg : List Nat)
  | keyNotFound
  | indexOutOfRange (msg : List Nat)
  | syntaxError (msg : List Nat) (line col : Nat)
  | stoiInvalid
  | stoiRange
  | stodInvalid
  | oob
  | fuel

/-- JSONTypeTraits<bool>::get (lines 324-331). -/
def getBoolTrait : JSON → Except Err Bool
  | .boolean b => .ok b
  | _ => .error (.typeMismatch (strOf "Not a boolean"))

/-- JSONTypeTraits<int>::get (lines 334-341).  This explicit full
specialization is what overload resolution selects for `get<int>()`; it
takes precedence over the arithmetic partial specialization below. -/
def getIntTrait : JSON → Except Err Int
  | .integer i => .ok i
  | _ => .error (.typeMismatch (strOf "Not an integer"))

/-- JSONTypeTraits<double>::get (lines 344-351). -/
def getDoubleTrait : JSON → Except Err ℚ
  | .double d => .ok d
  | _ => .error (.typeMismatch (strOf "Not a double"))

/-- JSONTypeTraits<std::string>::get (lines 354-361). -/
def getStringTrait : JSON → Except Err (List Nat)
  | .str s => .ok s
  | _ => .error (.typeMismatch (strOf "Not a string"))

/-- JSONTypeTraits for arithmetic `T` (lines 390-399), the SFINAE partial
specialization: `static_cast<T>` of the stored payload is passed in as the
two conversion functions.  It applies only to arithmetic types that do not
have an explicit full specialization (so not to `bool`, `int`, `double`). -/
def getArithTrait (castInt : Int → α) (castDouble : ℚ → α) : JSON → Except Err α
  | .integer i => .ok (castInt i)
  | .double d => .ok (castDouble d)
  | _ => .error (.typeMismatch (strOf "Not a numeric type"))

/-- `get<long>()` through the arithmetic path: `static_cast<long>` of an
`int` is the identity and of a `double` truncates toward zero (defined
whenever the value fits in the target type, which is the case for every
value considered in the theorems below). -/
def getLongTrait : JSON → Except Err Int :=
  getArithTrait (fun i => i) (fun q => q.num.tdiv (q.den : Int))

/-- message text of the TypeMismatch thrown by both keyed `operator[]`
overloads (lines 148-151 and 159-162). -/
def notObjectMsg (key : List Nat) : List Nat :=
  strOf "Field \"" ++ key ++ strOf "\" is not an object."

/-- mutable keyed access `JSON::operator[](const std::string&)` (lines
143-156), as a state transformer: the result is the pair of the value the
returned reference denotes and the (possibly promoted) object the original
value has become.  A `Null` value is promoted in place to an empty object;
an `Object` inserts a default `Null` entry when the key is absent
(`std::map::operator[]`); any other tag throws before mutating. -/
def subscriptMut (v : JSON) (key : List Nat) : Except Err (JSON × JSON) :=
  match v with
  | .null =>
    let o := JObj.insert key .null .nil
    .ok (.null, .obj o)
  | .obj o =>
    match o.find key with
    | some e => .ok (e, .obj o)
    | none => .ok (.null, .obj (o.insert key .null))
  | _ => .error (.typeMismatch (notObjectMsg key))

/-- const keyed access `JSON::operator[](const std::string&) const` (lines
158-166): `object->at(key)`; `std::map::at` throws (`keyNotFound` in the
spec's taxonomy) when the key is absent. -/
def subscriptConst (v : JSON) (key : List Nat) : Except Err JSON :=
  match v with
  | .obj o =>
    match o.find key with
    | some e => .ok e
    | none => .error .keyNotFound
  | _ => .error (.typeMismatch (notObjectMsg key))

/-- net effect on `v` of the C++ statement `v[k₁][k₂]…[kₙ] = x`: each keyed
access applies the mutable `operator[]` semantics of lines 143-156 to the
entry reached so far, and the final assignment overwrites the reached entry
(release old payload, install `x`). -/
def assignPath (v : JSON) (keys : List (List Nat)) (x : JSON) : Except Err JSON :=
  match keys with
  | [] => .ok x
  | k :: ks =>
    match v with
    | .null => do
      let e ← assignPath .null ks x
      .ok (.obj (JObj.insert k e .nil))
    | .obj o => do
      let cur := (o.find k).getD .null
      let e ← assignPath cur ks x
      .ok (.obj (o.insert k e))
    | _ => .error (.typeMismatch (notObjectMsg k))

example : assignPath .null [strOf "a", strOf "b"] (.integer 5)
    = .ok (.obj (.cons (strOf "a") (.obj (.cons (strOf "b") (.integer 5) .nil)) .nil)) := rfl

/-! ### Serializer (JSON::dump and helpers, lines 184-321)

`std::ostringstream` is modelled by the pair of the emitted byte list and the
one piece of persistent formatting state the code touches: once
`dumpString` emits a `\u` escape it leaves `std::hex` set on the stream, so
every later integer of the same `dump` call is printed in hexadecimal.
`std::setw` resets after one output and `std::setfill('0')` is inert
without a width, so no further state is needed. -/

/-- decimal digit bytes of `n`, most significant first, by repeated division
(the fuel argument makes the recursion structural; fuel `n` suffices). -/
def natDecAux : Nat → Nat → List Nat
  | 0, _ => []
  | f + 1, n => if n = 0 then [] else natDecAux f (n / 10) ++ [48 + n % 10]

/-- decimal digit bytes of a natural number (`"0"` for zero). -/
def natDec (n : Nat) : List Nat := if n = 0 then [48] else natDecAux n n

/-- text of `oss << i` for an `int` with the default (decimal) basefield. -/
def intDec (i : Int) : List Nat :=
  if i < 0 then 45 :: natDec i.natAbs else natDec i.natAbs

/-- lowercase hexadecimal digit byte. -/
def hexDigit (n : Nat) : Nat := if n < 10 then 48 + n else 87 + n

/-- hexadecimal digit bytes of `n`, most significant first. -/
def natHexAux : Nat → Nat → List Nat
  | 0, _ => []
  | f + 1, n => if n = 0 then [] else natHexAux f (n / 16) ++ [hexDigit (n % 16)]

/-- lowercase hexadecimal digit bytes of a natural number (`"0"` for zero). -/
def natHex (n : Nat) : List Nat := if n = 0 then [48] else natHexAux n n

/-- text of `oss << std::hex << std::setw(4) << std::setfill('0') << x` for an
`int` x: the stream prints the corresponding unsigned 32-bit value in
lowercase hex, left-padded with '0' to at least four characters. -/
def hexPad4 (x : Int) : List Nat :=
  let h := natHex (x % (2 ^ 32 : Int)).toNat
  List.replicate (4 - h.length) 48 ++ h

/-- text of `oss << i` for an `int` after `std::hex` has been set: the
unsigned 32-bit value in lowercase hex, no padding (the width has reset). -/
def intHex (i : Int) : List Nat := natHex ((i % (2 ^ 32 : Int)).toNat)

/-- does `10 ^ e ≤ n / d` hold (`n`, `d` positive)? -/
def tenPowLe (n d : Nat) (e : Int) : Bool :=
  if 0 ≤ e then d * 10 ^ e.toNat ≤ n else d ≤ n * 10 ^ (-e).toNat

/-- number of decimal digits of `n` (fuelled repeated division). -/
def ndigitsAux : Nat → Nat → Nat
  | 0, _ => 0
  | f + 1, n => if n < 10 then 1 else ndigitsAux f (n / 10) + 1

/-- number of decimal digits of `n` (for positive `n`). -/
def ndigits (n : Nat) : Nat := ndigitsAux n n

/-- floor of `log10 (n / d)` for positive `n`, `d`, computed from the digit
counts and one comparison. -/
def floorLog10 (n d : Nat) : Int :=
  let c : Int := (ndigits n : Int) - (ndigits d : Int)
  if tenPowLe n d c then c else c - 1

/-- round `bigN / bigD` to the nearest integer, ties to even — the rounding
the C library applies when forming the 6 significant decimal digits. -/
def roundHalfEvenNat (bigN bigD : Nat) : Nat :=
  let q := bigN / bigD
  let r := bigN % bigD
  if 2 * r < bigD then q
  else if bigD < 2 * r then q + 1
  else if q % 2 = 0 then q else q + 1

/-- drop trailing `'0'` bytes (the `%g` suppression of trailing zeros). -/
def dropTrailZeros (ds : List Nat) : List Nat :=
  (ds.reverse.dropWhile (fun b => b = 48)).reverse

/-- exponent digits of `printf`'s `%e`/`%g`: at least two digits. -/
def expDigits (n : Nat) : List Nat :=
  let ds := natDec n
  List.replicate (2 - ds.length) 48 ++ ds

/-- placement step of `%g`: given the decimal exponent `e` and the 6
significant digit bytes `ds`, lay the number out in scientific style (for
`e < -4` or `e ≥ 6`, with a signed two-digit exponent field) or in fixed
style, suppressing trailing zeros of the fractional part. -/
def gRender (e : Int) (ds : List Nat) : List Nat :=
  if e < -4 ∨ 6 ≤ e then
    match dropTrailZeros ds with
    | [] => []
    | d1 :: rest =>
      d1 :: (if rest = [] then [] else 46 :: rest) ++
        [101, if e < 0 then 45 else 43] ++ expDigits e.natAbs
  else if 0 ≤ e then
    let ipart := ds.take (e.toNat + 1)
    let fpart := dropTrailZeros (ds.drop (e.toNat + 1))
    ipart ++ (if fpart = [] then [] else 46 :: fpart)
  else
    [48, 46] ++ List.replicate ((-e).toNat - 1) 48 ++ dropTrailZeros ds

/-- the `%g`-style text of the positive rational `n / d` with 6 significant
digits: the default `std::ostream` formatting of a `double` (precision 6),
applied to the exact rational value of the number. -/
def gFmt (n d : Nat) : List Nat :=
  let e0 := floorLog10 n d
  let bigN := if e0 ≤ 5 then n * 10 ^ (5 - e0).toNat else n
  let bigD := if e0 ≤ 5 then d else d * 10 ^ (e0 - 5).toNat
  let m0 := roundHalfEvenNat bigN bigD
  let m := if m0 = 1000000 then 100000 else m0
  let e := if m0 = 1000000 then e0 + 1 else e0
  gRender e (natDec m)

/-- text of `oss << value.doubleVal` (line 235): default `double` formatting,
`printf %g` with precision 6, evaluated on the exact rational value. -/
def dumpDouble (q : ℚ) : List Nat :=
  if q.num = 0 then [48]
  else if q.num < 0 then 45 :: gFmt q.num.natAbs q.den
  else gFmt q.num.natAbs q.den

/-- single byte of `JSON::dumpString` (lines 242-263): the escape switch on
one `char`.  The comparisons `ch < 32 || ch == 127` read the byte through a
signed `char`, so bytes 128..255 also take the `\u` branch, where
`static_cast<int>(ch)` sign-extends them.  Returns the emitted bytes and
whether the `\u` branch ran (which sets `std::hex` on the stream). -/
def dumpStringByte (b : Nat) : List Nat × Bool :=
  if b = 34 then ([92, 34], false)
  else if b = 92 then ([92, 92], false)
  else if b = 8 then ([92, 98], false)
  else if b = 12 then ([92, 102], false)
  else if b = 10 then ([92, 110], false)
  else if b = 13 then ([92, 114], false)
  else if b = 9 then ([92, 116], false)
  else if signedVal b < 32 ∨ signedVal b = 127 then
    ([92, 117] ++ hexPad4 (signedVal b), true)
  else ([b], false)

/-- body loop of `JSON::dumpString`: fold `dumpStringByte` over the bytes,
accumulating the output and the `std::hex` stream flag. -/
def dumpStringBody : List Nat → Bool → List Nat × Bool
  | [], hx => ([], hx)
  | b :: rest, hx =>
    let rb := dumpStringByte b
    let rr := dumpStringBody rest (hx || rb.2)
    (rb.1 ++ rr.1, rr.2)

/-- JSON::dumpString (lines 242-263): quote, escape each byte, quote. -/
def dumpString (s : List Nat) (hx : Bool) : List Nat × Bool :=
  let r := dumpStringBody s hx
  (34 :: r.1 ++ [34], r.2)

/-- is the value an Array or an Object (the `hasComplexChildren` test of
`dumpArray`, lines 266-272)? -/
def isContainer : JSON → Bool
  | .arr _ => true
  | .obj _ => true
  | _ => false

/-- spaces emitted by `std::string(k, ' ')`. -/
def spacesI (k : Int) : List Nat := List.replicate k.toNat 32

mutual
/-- JSON::dumpValue (lines 230-240), with the bodies of `dumpArray` (lines
265-300) and `dumpObject` (lines 302-320) inlined into the `arr` and `obj`
arms so that the mutual recursion is structural; the named wrappers
`JSON.dumpArray` / `JSON.dumpObject` below restate them.  Arguments: the
value, the `std::hex` stream flag, `level`, `indent`. -/
def dumpValue : JSON → Bool → Int → Int → List Nat × Bool
  | .null, hx, _, _ => (strOf "null", hx)
  | .boolean b, hx, _, _ => (if b then strOf "true" else strOf "false", hx)
  | .integer i, hx, _, _ => (if hx then intHex i else intDec i, hx)
  | .double q, hx, _, _ => (dumpDouble q, hx)
  | .str s, hx, _, _ => dumpString s hx
  | .arr a, hx, level, indent =>
    let pretty := a.any isContainer && decide (0 < indent)
    let r := dumpItems a hx pretty level indent
    (91 :: (if pretty then [10] else []) ++ r.1 ++
      (if pretty then spacesI level else []) ++ [93], r.2)
  | .obj o, hx, level, indent =>
    let r := dumpMembers o hx level indent
    (123 :: (if 0 < indent then [10] else []) ++ r.1 ++
      (if 0 < indent then spacesI level else []) ++ [125], r.2)

/-- element loop of `JSON::dumpArray` (lines 280-294): per element, the
optional indentation, the element at `level + indent`, a `','` between
elements (plus `' '` when compact), and a newline when pretty. -/
def dumpItems : JArr → Bool → Bool → Int → Int → List Nat × Bool
  | .nil, hx, _, _, _ => ([], hx)
  | .cons x t, hx, pretty, level, indent =>
    let pre := if pretty then spacesI (level + indent) else []
    let r1 := dumpValue x hx (level + indent) indent
    let sep := match t with
      | .nil => []
      | .cons _ _ => if pretty then [44] else [44, 32]
    let nl := if pretty then [10] else []
    let r2 := dumpItems t r1.2 pretty level indent
    (pre ++ r1.1 ++ sep ++ nl ++ r2.1, r2.2)

/-- member loop of `JSON::dumpObject` (lines 306-317): per member, the
optional indentation, the quoted key, `':'` (plus `' '` when `indent > 0`),
the value at `level + indent`, a `','` between members, and a newline when
`indent > 0`. -/
def dumpMembers : JObj → Bool → Int → Int → List Nat × Bool
  | .nil, hx, _, _ => ([], hx)
  | .cons k v t, hx, level, indent =>
    let pre := if 0 < indent then spacesI (level + indent) else []
    let rk := dumpString k hx
    let colon := 58 :: (if 0 < indent then [32] else [])
    let rv := dumpValue v rk.2 (level + indent) indent
    let sep := match t with
      | .nil => []
      | .cons _ _ _ => [44]
    let nl := if 0 < indent then [10] else []
    let rt := dumpMembers t rv.2 level indent
    (pre ++ rk.1 ++ colon ++ rv.1 ++ sep ++ nl ++ rt.1, rt.2)
end

/-- JSON::dumpArray (lines 265-300) as emitted for an `Array`-tagged value. -/
def dumpArray (a : JArr) (hx : Bool) (level indent : Int) : List Nat × Bool :=
  dumpValue (.arr a) hx level indent

/-- JSON::dumpObject (lines 302-320) as emitted for an `Object`-tagged value. -/
def dumpObject (o : JObj) (hx : Bool) (level indent : Int) : List Nat × Bool :=
  dumpValue (.obj o) hx level indent

/-- JSON::dump (lines 185-189): serialize from a fresh stream at level 0;
`indent` defaults to 4 in the C++. -/
def dump (v : JSON) (indent : Int := 4) : List Nat :=
  (dumpValue v false 0 indent).1

example : dump (.double 3) = strOf "3" := rfl
example : dump (.double (5 / 2)) = strOf "2.5" := by
  norm_num [dump, dumpValue, dumpDouble]
  rfl
example : dump (.integer (-12)) = strOf "-12" := rfl
example : dump (.str (strOf "a\nb")) = strOf "\"a\\nb\"" := rfl

/-! ### Parser (class JSONParser, lines 401-578)

The parser state carries the whole input, the byte cursor `pos` and the
1-based `line` / `col` counters.  `data[pos]` on a `std::string` yields the
stored byte for `pos < size()`, the terminating `'\0'` for `pos == size()`,
and is undefined behaviour beyond; `byteAt` returns `none` in the undefined
case and every reader turns that into `Err.oob`.  Every loop takes a fuel
argument to make the recursion structural; fuel exhaustion yields the
model-only `Err.fuel`, which no run appearing in a theorem produces. -/

/-- parser state (fields `data`, `pos`, `line`, `col`, lines 419-422). -/
structure PState where
  data : List Nat
  pos : Nat
  line : Nat
  col : Nat

/-- the byte `data[pos]` reads: the stored byte, the `'\0'` at `size()`, or
`none` for the out-of-bounds (undefined behaviour) read. -/
def byteAt (s : PState) : Option Nat :=
  if s.pos ≤ s.data.length then some (s.data.getD s.pos 0) else none

/-- one step of `JSONParser::advance` (lines 429-439): newline bumps `line`
and resets `col`, anything else bumps `col`; the cursor advances. -/
def advance1 (s : PState) : Except Err PState :=
  match byteAt s with
  | none => .error .oob
  | some c =>
    if c = 10 then .ok ⟨s.data, s.pos + 1, s.line + 1, 1⟩
    else .ok ⟨s.data, s.pos + 1, s.line, s.col + 1⟩

/-- JSONParser::advance(count) (lines 429-439). -/
def advanceN : Nat → PState → Except Err PState
  | 0, st => .ok st
  | n + 1, st => do
    let st ← advance1 st
    advanceN n st

/-- JSONParser::throwError (lines 447-452): a SyntaxError carrying the
current 1-based line and column. -/
def throwErr (st : PState) (msg : List Nat) : Except Err α :=
  .error (.syntaxError msg st.line st.col)

/-- does `strncmp(&data[pos + i], lit, lit.length) == 0` hold?  The literals
compared against (`"true"`, `"false"`, `"null"`) contain no NUL byte, so
`strncmp` returns 0 exactly when the next bytes equal the literal; the
comparison stops at the first mismatch and never reads past the
terminating `'\0'`. -/
def litMatch (st : PState) : List Nat → Nat → Bool
  | [], _ => true
  | c :: cs, i =>
    match byteAt { st with pos := st.pos + i } with
    | none => false
    | some b => b = c && litMatch st cs (i + 1)

/-- JSONParser::skipWhitespace (lines 441-445): advance while the byte is
nonzero and `isspace`. -/
def skipWS : Nat → PState → Except Err PState
  | 0, _ => .error .fuel
  | f + 1, st =>
    match byteAt st with
    | none => .error .oob
    | some c =>
      if c ≠ 0 && isSpaceB c then do
        let st ← advance1 st
        skipWS f st
      else .ok st

/-- the escape switch of `JSONParser::parseString` (lines 518-528): the
character each escape introducer maps to, `none` for the SyntaxError arm. -/
def escDecode (e : Nat) : Option Nat :=
  if e = 92 then some 92
  else if e = 34 then some 34
  else if e = 47 then some 47
  else if e = 98 then some 8
  else if e = 102 then some 12
  else if e = 110 then some 10
  else if e = 114 then some 13
  else if e = 116 then some 9
  else none

/-- character-accumulation loop of `JSONParser::parseString` (lines
515-534).  An unterminated string reaches `pos == size()`, appends the
`'\0'` there, advances past it and performs the out-of-bounds read. -/
def parseStrLoop : Nat → List Nat → PState → Except Err (JSON × PState)
  | 0, _, _ => .error .fuel
  | f + 1, acc, st =>
    match byteAt st with
    | none => .error .oob
    | some c =>
      if c = 34 then do
        let st ← advance1 st
        .ok (.str acc, st)
      else if c = 92 then do
        let st ← advance1 st
        match byteAt st with
        | none => .error .oob
        | some e =>
          match escDecode e with
          | some ch => do
            let st ← advance1 st
            parseStrLoop f (acc ++ [ch]) st
          | none => throwErr st (strOf "Invalid escape character in string")
      else do
        let st ← advance1 st
        parseStrLoop f (acc ++ [c]) st

/-- JSONParser::parseString (lines 512-537): consume the opening quote, then
run the accumulation loop. -/
def parseString (f : Nat) (st : PState) : Except Err (JSON × PState) := do
  let st ← advance1 st
  parseStrLoop f [] st

/-- JSONParser::parseBoolean (lines 539-549): `strncmp` against `"true"`
then `"false"`; anything else is a SyntaxError. -/
def parseBoolean (st : PState) : Except Err (JSON × PState) :=
  if litMatch st (strOf "true") 0 then do
    let st ← advanceN 4 st
    .ok (.boolean true, st)
  else if litMatch st (strOf "false") 0 then do
    let st ← advanceN 5 st
    .ok (.boolean false, st)
  else throwErr st (strOf "Unexpected boolean value in JSON")

/-- JSONParser::parseNull (lines 551-558). -/
def parseNull (st : PState) : Except Err (JSON × PState) :=
  if litMatch st (strOf "null") 0 then do
    let st ← advanceN 4 st
    .ok (JSON.null, st)
  else throwErr st (strOf "Unexpected null value in JSON")

/-- digit run of `JSONParser::parseNumber` (lines 565-567 and 570-572). -/
def digitRun : Nat → PState → Except Err PState
  | 0, _ => .error .fuel
  | f + 1, st =>
    match byteAt st with
    | none => .error .oob
    | some c =>
      if isDigitB c then do
        let st ← advance1 st
        digitRun f st
      else .ok st

/-- decimal value of a digit-byte list, most significant first. -/
def digitsVal (ds : List Nat) : Nat := ds.foldl (fun a d => a * 10 + (d - 48)) 0

/-- std::stoi (line 575): `strtol` base 10 — skip whitespace, optional sign,
a digit run; `std::invalid_argument` when no digits were consumed,
`std::out_of_range` when the value exceeds the 32-bit `int` range. -/
def stoiModel (s : List Nat) : Except Err Int :=
  let s1 := s.dropWhile isSpaceB
  let s2 := if s1.head? = some 45 ∨ s1.head? = some 43 then s1.tail else s1
  let ds := s2.takeWhile isDigitB
  if ds = [] then .error .stoiInvalid
  else
    let v : Int := (if s1.head? = some 45 then -1 else 1) * digitsVal ds
    if v < -(2 ^ 31) ∨ 2 ^ 31 - 1 < v then .error .stoiRange else .ok v

/-- std::stod (line 573): `strtod` on the texts `parseNumber` can produce
(optional sign, digit run, `'.'`, digit run).  The real `strtod` rounds the
decimal to the nearest binary64; the model keeps the exact rational value
(no theorem below depends on a value where the two differ).
`std::invalid_argument` when no digit was consumed. -/
def stodModel (s : List Nat) : Except Err ℚ :=
  let s1 := s.dropWhile isSpaceB
  let s2 := if s1.head? = some 45 ∨ s1.head? = some 43 then s1.tail else s1
  let ipart := s2.takeWhile isDigitB
  let s3 := s2.drop ipart.length
  let fpart : List Nat := if s3.head? = some 46 then s3.tail.takeWhile isDigitB else []
  if ipart = [] ∧ fpart = [] then .error .stodInvalid
  else
    .ok ((if s1.head? = some 45 then (-1 : ℚ) else 1) * ((digitsVal ipart : ℚ) +
      (digitsVal fpart : ℚ) / (10 : ℚ) ^ fpart.length))

/-- JSONParser::parseNumber (lines 560-577): optional `-`, digit run, and
either a fractional part ending in `std::stod` or `std::stoi` on the
consumed slice `std::string(&data[start], pos - start)`. -/
def parseNumber (f : Nat) (st : PState) : Except Err (JSON × PState) := do
  let start := st.pos
  let st ← (match byteAt st with
    | none => .error Err.oob
    | some c => if c = 45 then advance1 st else .ok st)
  let st ← digitRun f st
  match byteAt st with
  | none => .error .oob
  | some c =>
    if c = 46 then do
      let st ← advance1 st
      let st ← digitRun f st
      let q ← stodModel ((st.data.drop start).take (st.pos - start))
      .ok (.double q, st)
    else do
      let i ← stoiModel ((st.data.drop start).take (st.pos - start))
      .ok (.integer i, st)

mutual
/-- JSONParser::parseValue (lines 454-471): skip whitespace, dispatch on the
lookahead byte. -/
def parseValue : Nat → PState → Except Err (JSON × PState)
  | 0, _ => .error .fuel
  | f + 1, st => do
    let st ← skipWS (f + 1) st
    match byteAt st with
    | none => .error .oob
    | some c =>
      if c = 123 then parseObject f st
      else if c = 91 then parseArray f st
      else if c = 34 then parseString (f + 1) st
      else if c = 116 || c = 102 then parseBoolean st
      else if c = 110 then parseNull st
      else if c = 45 || isDigitB c then parseNumber (f + 1) st
      else throwErr st (strOf "Unexpected character in JSON")

/-- JSONParser::parseObject (lines 473-494): consume `{`, skip whitespace,
run the member loop. -/
def parseObject : Nat → PState → Except Err (JSON × PState)
  | 0, _ => .error .fuel
  | f + 1, st => do
    let st ← advance1 st
    let st ← skipWS (f + 1) st
    parseObjLoop f .nil st

/-- member loop of `JSONParser::parseObject` (lines 477-491): until the
lookahead is `}`: key string, `:` (else SyntaxError), value, store under
the key, then an optional `,` with whitespace — so a trailing comma before
`}` is tolerated. -/
def parseObjLoop : Nat → JObj → PState → Except Err (JSON × PState)
  | 0, _, _ => .error .fuel
  | f + 1, acc, st =>
    match byteAt st with
    | none => .error .oob
    | some c =>
      if c = 125 then do
        let st ← advance1 st
        .ok (.obj acc, st)
      else do
        let (kj, st) ← parseString (f + 1) st
        let key ← getStringTrait kj
        let st ← skipWS (f + 1) st
        match byteAt st with
        | none => .error .oob
        | some c2 =>
          if c2 ≠ 58 then throwErr st (strOf "Expected ':' in JSON object")
          else do
            let st ← advance1 st
            let (v, st) ← parseValue f st
            let acc := acc.insert key v
            let st ← skipWS (f + 1) st
            match byteAt st with
            | none => .error .oob
            | some c3 =>
              if c3 = 44 then do
                let st ← advance1 st
                let st ← skipWS (f + 1) st
                parseObjLoop f acc st
              else parseObjLoop f acc st

/-- JSONParser::parseArray (lines 496-510): consume `[`, skip whitespace,
run the element loop. -/
def parseArray : Nat → PState → Except Err (JSON × PState)
  | 0, _ => .error .fuel
  | f + 1, st => do
    let st ← advance1 st
    let st ← skipWS (f + 1) st
    parseArrLoop f .nil st

/-- element loop of `JSONParser::parseArray` (lines 500-507): until the
lookahead is `]`: an element, then an optional `,` with whitespace — so a
trailing comma before `]` is tolerated. -/
def parseArrLoop : Nat → JArr → PState → Except Err (JSON × PState)
  | 0, _, _ => .error .fuel
  | f + 1, acc, st =>
    match byteAt st with
    | none => .error .oob
    | some c =>
      if c = 93 then do
        let st ← advance1 st
        .ok (.arr acc, st)
      else do
        let (v, st) ← parseValue f st
        let acc := acc.push v
        let st ← skipWS (f + 1) st
        match byteAt st with
        | none => .error .oob
        | some c2 =>
          if c2 = 44 then do
            let st ← advance1 st
            let st ← skipWS (f + 1) st
            parseArrLoop f acc st
          else parseArrLoop f acc st
end

/-- fuel budget for a whole parse.  The C++ has no such bound; every loop
iteration advances the cursor by at least one byte, so any budget at least
linear in the input length with a sufficient constant covers every
terminating execution; the runs appearing in the theorems below are proved
to stay within this one. -/
def topFuel (s : List Nat) : Nat := 2 * s.length + 8

/-- JSONParser::parse (lines 424-427): skip whitespace, parse one value; the
final state is kept so that theorems can observe the stopping position. -/
def parseRun (s : List Nat) : Except Err (JSON × PState) := do
  let st ← skipWS (topFuel s) ⟨s, 0, 1, 1⟩
  parseValue (topFuel s) st

/-- the static `JSONParser::parse(const std::string&)` entry point (lines
407-410): the value alone, the rest of the parser state discarded. -/
def JSONParser_parse (s : List Nat) : Except Err JSON :=
  (parseRun s).map Prod.fst

example : JSONParser_parse (strOf "[1,2,]")
    = .ok (.arr (.cons (.integer 1) (.cons (.integer 2) .nil))) := rfl
example : JSONParser_parse (strOf "truex") = .ok (.boolean true) := rfl
example : JSONParser_parse (strOf "\"ab") = .error .oob := rfl
example : JSONParser_parse (strOf "-") = .error .stoiInvalid := rfl
example : JSONParser_parse (strOf "\x7b\"a\": 1,\x7d")
    = .ok (.obj (.cons (strOf "a") (.integer 1) .nil)) := rfl

/-! ### Claim theorems -/

/-- Claim C2, counterexample: `get<int>()` on a `Double`-tagged value does
not return the truncating cast (which would be 2 for the value 5/2); the
explicit `JSONTypeTraits<int>` full specialization wins overload resolution
over the arithmetic partial specialization and throws TypeMismatch
"Not an integer". -/
theorem c2_counterexample :
    getIntTrait (JSON.double (5 / 2)) = .error (.typeMismatch (strOf "Not an integer")) ∧
    getIntTrait (JSON.double (5 / 2)) ≠ .ok 2 :=
  ⟨rfl, fun h => Except.noConfusion h⟩

/-- Claim C2 (amended): `get<int>()` resolves to the explicit
`JSONTypeTraits<int>` specialization, so it returns the exact stored
integer on an `Integer` tag and fails with TypeMismatch "Not an integer"
on every other tag, `Double` included; the truncating numeric cast on a
`Double` happens only on the arithmetic-coercion path, which serves the
arithmetic types without an explicit specialization, e.g. `get<long>()`. -/
theorem c2_get_int_dispatch (v : JSON) :
    (∀ i : Int, v = .integer i → getIntTrait v = .ok i) ∧
    (getType v ≠ .Integer →
      getIntTrait v = .error (.typeMismatch (strOf "Not an integer"))) ∧
    (∀ q : ℚ, v = .double q → getLongTrait v = .ok (q.num.tdiv q.den)) := by
  refine ⟨?_, ?_, ?_⟩
  · rintro i rfl; rfl
  · intro h; cases v <;> first | rfl | exact absurd rfl h
  · rintro q rfl; rfl

/-- Claim C2 witness: the amended claim evaluated at concrete values:
`get<int>` is exact on `Integer 7`, fails on `Double 5/2`, and `get<long>`
truncates `5/2` to `2` through the arithmetic path. -/
theorem c2_get_int_dispatch_witness :
    getIntTrait (JSON.integer 7) = .ok 7 ∧
    getIntTrait (JSON.double (5 / 2)) = .error (.typeMismatch (strOf "Not an integer")) ∧
    getLongTrait (JSON.double (5 / 2)) = .ok ((5 / 2 : ℚ).num.tdiv (5 / 2 : ℚ).den) :=
  ⟨(c2_get_int_dispatch (JSON.integer 7)).1 7 rfl,
   (c2_get_int_dispatch (JSON.double (5 / 2))).2.1 (fun h => JType.noConfusion h),
   (c2_get_int_dispatch (JSON.double (5 / 2))).2.2 (5 / 2) rfl⟩

/-- Claim C3: the failure-mode inventory of the parser on the inputs the
claim singles out.  A genuinely unexpected byte does fail with a
SyntaxError carrying the 1-based line and column (conjuncts 3 and 4, the
second being the spec's own `{\n  "a": }` example at line 2, column 8).
But an unterminated string literal is an out-of-bounds read — undefined
behaviour, no SyntaxError — because the scan loop treats the `'\0'` at
`size()` as an ordinary character, appends it, advances past it and reads
beyond the buffer; and a lone `-` reaches `std::stoi("-")`, which throws
`std::invalid_argument` carrying no line/column information. -/
theorem c3_failure_modes :
    JSONParser_parse (strOf "\"ab") = .error .oob ∧
    JSONParser_parse (strOf "-") = .error .stoiInvalid ∧
    JSONParser_parse (strOf "@")
      = .error (.syntaxError (strOf "Unexpected character in JSON") 1 1) ∧
    JSONParser_parse (strOf "\x7b\n  \"a\": \x7d")
      = .error (.syntaxError (strOf "Unexpected character in JSON") 2 8) :=
  ⟨rfl, rfl, rfl, rfl⟩

/-- Claim C5: mutable keyed access.  A `Null` value is promoted in place to
an object holding a default-`Null` entry for the key; an `Object` returns
the existing entry unchanged, or inserts a default-`Null` entry when the
key is absent; every other tag fails with a TypeMismatch naming the key
and, the throw happening before any write, leaves the value unchanged (the
error branch of `subscriptMut` produces no updated value at all); and
`JSON()["a"]["b"] = 5` builds `{"a":{"b":5}}` from an initial `Null`. -/
theorem c5_subscript_mut :
    (∀ k, subscriptMut JSON.null k = .ok (.null, .obj (JObj.insert k .null .nil))) ∧
    (∀ o k e, JObj.find o k = some e → subscriptMut (JSON.obj o) k = .ok (e, .obj o)) ∧
    (∀ o k, JObj.find o k = none →
      subscriptMut (JSON.obj o) k = .ok (.null, .obj (JObj.insert k .null o))) ∧
    (∀ v k, getType v ≠ .Null → getType v ≠ .Object →
      subscriptMut v k = .error (.typeMismatch (notObjectMsg k))) ∧
    assignPath .null [strOf "a", strOf "b"] (.integer 5)
      = .ok (.obj (.cons (strOf "a") (.obj (.cons (strOf "b") (.integer 5) .nil)) .nil)) := by
  refine ⟨fun k => rfl, ?_, ?_, ?_, rfl⟩
  · intro o k e h; simp [subscriptMut, h]
  · intro o k h; simp [subscriptMut, h]
  · intro v k h1 h2
    cases v <;> first | rfl | exact absurd rfl h1 | exact absurd rfl h2

/-- Claim C5 witness: the three keyed-access behaviours at concrete values
(present key, absent key, non-object target). -/
theorem c5_subscript_mut_witness :
    subscriptMut (JSON.obj (.cons (strOf "a") (.integer 1) .nil)) (strOf "a")
      = .ok (.integer 1, .obj (.cons (strOf "a") (.integer 1) .nil)) ∧
    subscriptMut (JSON.obj .nil) (strOf "b")
      = .ok (.null, .obj (JObj.insert (strOf "b") .null .nil)) ∧
    subscriptMut (JSON.integer 3) (strOf "k")
      = .error (.typeMismatch (notObjectMsg (strOf "k"))) :=
  ⟨c5_subscript_mut.2.1 _ _ _ rfl,
   c5_subscript_mut.2.2.1 _ _ rfl,
   c5_subscript_mut.2.2.2.1 _ _ (fun h => JType.noConfusion h) (fun h => JType.noConfusion h)⟩

/-- Claim C6: const keyed access never auto-vivifies (the embedding of the
const overload is a pure function of the value, returning no modified
value at all): any tag other than `Object` fails with TypeMismatch naming
the key, an `Object` without the key fails with KeyNotFound (the
`std::map::at` throw), and otherwise the stored entry is returned. -/
theorem c6_subscript_const (v : JSON) (k : List Nat) :
    (getType v ≠ .Object → subscriptConst v k = .error (.typeMismatch (notObjectMsg k))) ∧
    (∀ o, v = .obj o → JObj.find o k = none → subscriptConst v k = .error .keyNotFound) ∧
    (∀ o e, v = .obj o → JObj.find o k = some e → subscriptConst v k = .ok e) := by
  refine ⟨?_, ?_, ?_⟩
  · intro h; cases v <;> first | rfl | exact absurd rfl h
  · rintro o rfl h; simp [subscriptConst, h]
  · rintro o e rfl h; simp [subscriptConst, h]

/-- Claim C6 witness: const access at concrete values — TypeMismatch on a
`Null` target, KeyNotFound on an object lacking the key, and the stored
entry otherwise. -/
theorem c6_subscript_const_witness :
    subscriptConst JSON.null (strOf "k") = .error (.typeMismatch (notObjectMsg (strOf "k"))) ∧
    subscriptConst (JSON.obj (.cons (strOf "a") (.integer 1) .nil)) (strOf "b")
      = .error .keyNotFound ∧
    subscriptConst (JSON.obj (.cons (strOf "a") (.integer 1) .nil)) (strOf "a")
      = .ok (.integer 1) :=
  ⟨(c6_subscript_const JSON.null (strOf "k")).1 (fun h => JType.noConfusion h),
   (c6_subscript_const _ (strOf "b")).2.1 _ rfl rfl,
   (c6_subscript_const _ (strOf "a")).2.2 _ _ rfl rfl⟩

/-- Claim C7: trailing commas.  After consuming a `,` (and whitespace) both
container loops re-check for the terminator, so a `]` or `}` lookahead ends
the loop successfully whatever was accumulated (first two conjuncts); in
particular `[1,2,]` parses as the 2-element array `[1, 2]` and
`{"a": 1,}` as the 1-member object. -/
theorem c7_trailing_comma :
    (∀ f acc st, byteAt st = some 93 →
      parseArrLoop (f + 1) acc st
        = .ok (.arr acc, ⟨st.data, st.pos + 1, st.line, st.col + 1⟩)) ∧
    (∀ f acc st, byteAt st = some 125 →
      parseObjLoop (f + 1) acc st
        = .ok (.obj acc, ⟨st.data, st.pos + 1, st.line, st.col + 1⟩)) ∧
    JSONParser_parse (strOf "[1,2,]")
      = .ok (.arr (.cons (.integer 1) (.cons (.integer 2) .nil))) ∧
    JSONParser_parse (strOf "\x7b\"a\": 1,\x7d")
      = .ok (.obj (.cons (strOf "a") (.integer 1) .nil)) := by
  refine ⟨?_, ?_, rfl, rfl⟩
  · intro f acc st h
    simp [parseArrLoop, h, advance1]
    rfl
  · intro f acc st h
    simp [parseObjLoop, h, advance1]
    rfl

/-- Claim C7 witness: the loop-exit conjuncts applied at a concrete state
whose lookahead is the terminator. -/
theorem c7_trailing_comma_witness :
    parseArrLoop 1 .nil ⟨[93], 0, 1, 1⟩ = .ok (.arr .nil, ⟨[93], 1, 1, 2⟩) ∧
    parseObjLoop 1 .nil ⟨[125], 0, 1, 1⟩ = .ok (.obj .nil, ⟨[125], 1, 1, 2⟩) :=
  ⟨c7_trailing_comma.1 0 .nil ⟨[93], 0, 1, 1⟩ rfl,
   c7_trailing_comma.2.1 0 .nil ⟨[125], 0, 1, 1⟩ rfl⟩

/-- Claim C8, counterexample: the input `truex` is not rejected — the
parser checks `strncmp(&data[pos], "true", 4)`, which only compares the
first four bytes, accepts, and the trailing `x` is never examined by the
top-level parse. -/
theorem c8_counterexample :
    JSONParser_parse (strOf "truex") = .ok (.boolean true) := rfl

/-- Claim C8 (amended): on lookahead `t`/`f`/`n` the parser accepts exactly
the inputs whose next bytes begin with the literal spellings `true`,
`false`, `null`, consuming exactly those bytes and producing the Boolean
or Null value; a spelling that does not extend one of the literals is a
SyntaxError at the dispatch position; a spelling that extends a literal,
such as `truex`, is accepted with the excess left unconsumed, where it is
ignored at top level and only surfaces as a SyntaxError at the next
dispatch point inside a container. -/
theorem c8_literal_dispatch :
    JSONParser_parse (strOf "true") = .ok (.boolean true) ∧
    JSONParser_parse (strOf "false") = .ok (.boolean false) ∧
    JSONParser_parse (strOf "null") = .ok JSON.null ∧
    JSONParser_parse (strOf "tru")
      = .error (.syntaxError (strOf "Unexpected boolean value in JSON") 1 1) ∧
    JSONParser_parse (strOf "falsx")
      = .error (.syntaxError (strOf "Unexpected boolean value in JSON") 1 1) ∧
    JSONParser_parse (strOf "nulx")
      = .error (.syntaxError (strOf "Unexpected null value in JSON") 1 1) ∧
    parseRun (strOf "truex") = .ok (.boolean true, ⟨strOf "truex", 4, 1, 5⟩) ∧
    JSONParser_parse (strOf "[truex]")
      = .error (.syntaxError (strOf "Unexpected character in JSON") 1 6) :=
  ⟨rfl, rfl, rfl, rfl, rfl, rfl, rfl, rfl⟩

/-- Claim C10: the top-level parse returns as soon as one value has been
read and never checks that the input was consumed: any input starting with
the bytes `true` (resp. `null`) parses successfully to that literal with
the cursor left at byte 4, whatever follows; in particular
`true garbage` (length 12) and `nullx` (length 5) succeed with the final
position 4 strictly inside the input. -/
theorem c10_trailing_content :
    (∀ t : List Nat, parseRun (strOf "true" ++ t)
      = .ok (.boolean true, ⟨strOf "true" ++ t, 4, 1, 5⟩)) ∧
    (∀ t : List Nat, parseRun (strOf "null" ++ t)
      = .ok (JSON.null, ⟨strOf "null" ++ t, 4, 1, 5⟩)) ∧
    parseRun (strOf "true garbage")
      = .ok (.boolean true, ⟨strOf "true garbage", 4, 1, 5⟩) ∧
    (strOf "true garbage").length = 12 ∧
    parseRun (strOf "nullx") = .ok (JSON.null, ⟨strOf "nullx", 4, 1, 5⟩) ∧
    (strOf "nullx").length = 5 :=
  ⟨fun _ => rfl, fun _ => rfl, rfl, rfl, rfl, rfl⟩

/-- lowercase hexadecimal digit byte test: `0`-`9` or `a`-`f`. -/
def isHexDigitL (d : Nat) : Bool := (48 ≤ d && d ≤ 57) || (97 ≤ d && d ≤ 102)

/-- the emitted bytes of `dumpStringBody` are the per-byte escapes in
sequence: the `std::hex` stream flag influences no part of the string
output itself. -/
theorem dumpStringBody_fst (s : List Nat) (hx : Bool) :
    (dumpStringBody s hx).1 = s.flatMap (fun b => (dumpStringByte b).1) := by
  induction s generalizing hx with
  | nil => rfl
  | cons b rest ih => simp [dumpStringBody, List.flatMap_cons, ih]

/-- Claim C4, counterexample: the byte 0x80 does not pass through the
serializer unescaped — read through a signed `char` it is negative, takes
the `\u` branch, and `static_cast<int>` sign-extends it, so the one-byte
string 0x80 dumps as `"\uffffff80"` rather than as the quoted raw byte. -/
theorem c4_counterexample :
    (dumpString [128] false).1 = strOf "\"\\uffffff80\"" ∧
    (dumpString [128] false).1 ≠ [34, 128, 34] :=
  ⟨rfl, by decide⟩

/-- Claim C4 (amended): the serializer wraps the string in quotes and maps
each byte independently (first conjunct; the stream state affects none of
the emitted string bytes).  Per byte: quote, backslash, backspace,
form-feed, newline, carriage-return and tab become their standard
two-character escapes; every other byte below 0x20 and the byte 0x7F
become `\u` followed by exactly four lowercase hex digits; bytes in
0x20..0x7E other than quote and backslash pass through unescaped; but a
byte at or above 0x80 is negative when read through a signed `char`, so it
also takes the `\u` branch and is emitted as `\u` followed by the eight
lowercase hex digits of its sign-extended 32-bit value — never as the raw
byte. -/
theorem c4_dump_string (s : List Nat) (hx : Bool) :
    (dumpString s hx).1 = 34 :: s.flatMap (fun b => (dumpStringByte b).1) ++ [34] ∧
    (dumpStringByte 34).1 = [92, 34] ∧
    (dumpStringByte 92).1 = [92, 92] ∧
    (dumpStringByte 8).1 = [92, 98] ∧
    (dumpStringByte 12).1 = [92, 102] ∧
    (dumpStringByte 10).1 = [92, 110] ∧
    (dumpStringByte 13).1 = [92, 114] ∧
    (dumpStringByte 9).1 = [92, 116] ∧
    (∀ b, b < 32 → b ∉ ([8, 9, 10, 12, 13] : List Nat) →
      (dumpStringByte b).1 = 92 :: 117 :: hexPad4 (signedVal b) ∧
      (hexPad4 (signedVal b)).length = 4 ∧
      ∀ d ∈ hexPad4 (signedVal b), isHexDigitL d) ∧
    ((dumpStringByte 127).1 = 92 :: 117 :: hexPad4 127 ∧
      (hexPad4 127).length = 4 ∧ ∀ d ∈ hexPad4 127, isHexDigitL d) ∧
    (∀ b, 32 ≤ b → b < 127 → b ≠ 34 → b ≠ 92 → (dumpStringByte b).1 = [b]) ∧
    (∀ b, 128 ≤ b → b < 256 →
      (dumpStringByte b).1 = 92 :: 117 :: natHex (2 ^ 32 - 256 + b) ∧
      (dumpStringByte b).1.length = 10 ∧
      (∀ d ∈ (dumpStringByte b).1.drop 2, isHexDigitL d) ∧
      (dumpStringByte b).1 ≠ [b]) := by
  refine ⟨?_, rfl, rfl, rfl, rfl, rfl, rfl, rfl, ?_, by decide, ?_, ?_⟩
  · simp [dumpString, dumpStringBody_fst]
  · decide
  · decide
  · decide

/-- Claim C4 witness: the amended claim applied at a concrete string and a
concrete control byte. -/
theorem c4_dump_string_witness :
    (dumpString (strOf "a\nb") true).1
      = 34 :: (strOf "a\nb").flatMap (fun b => (dumpStringByte b).1) ++ [34] ∧
    (dumpStringByte 1).1 = 92 :: 117 :: hexPad4 (signedVal 1) :=
  ⟨(c4_dump_string (strOf "a\nb") true).1,
   ((c4_dump_string [] false).2.2.2.2.2.2.2.2.1 1 (by decide) (by decide)).1⟩

/-! ### Layout facts for the serializer (claim C9 groundwork) -/

/-- list-style induction for `JArr` alone (the mutual recursor would demand
motives for the whole family). -/
@[induction_eliminator]
theorem JArr.inductionList {motive : JArr → Prop} (nil : motive .nil)
    (cons : ∀ x t, motive t → motive (.cons x t)) : ∀ a, motive a
  | .nil => nil
  | .cons x t => cons x t (JArr.inductionList nil cons t)

/-- list-style induction for `JObj` alone. -/
@[induction_eliminator]
theorem JObj.inductionListO {motive : JObj → Prop} (nil : motive .nil)
    (cons : ∀ k v t, motive t → motive (.cons k v t)) : ∀ o, motive o
  | .nil => nil
  | .cons k v t => cons k v t (JObj.inductionListO nil cons t)

theorem mem_dropWhile {p : α → Bool} : ∀ (l : List α) (b : α), b ∈ l.dropWhile p → b ∈ l := by
  intro l
  induction l with
  | nil => intro b hb; simp [List.dropWhile] at hb
  | cons a t ih =>
    intro b hb
    cases hp : p a with
    | true =>
      rw [List.dropWhile_cons_of_pos hp] at hb
      exact List.mem_cons_of_mem a (ih b hb)
    | false =>
      rwa [List.dropWhile_cons_of_neg (by simp [hp])] at hb

theorem mem_dropTrailZeros {b : Nat} {ds : List Nat} (h : b ∈ dropTrailZeros ds) :
    b ∈ ds := by
  unfold dropTrailZeros at h
  rw [List.mem_reverse] at h
  exact List.mem_reverse.mp (mem_dropWhile _ _ h)

theorem natDecAux_digits : ∀ f n, ∀ b ∈ natDecAux f n, 48 ≤ b ∧ b ≤ 57 := by
  intro f
  induction f with
  | zero => intro n b hb; simp [natDecAux] at hb
  | succ f ih =>
    intro n b hb
    by_cases h0 : n = 0
    · simp [natDecAux, h0] at hb
    · simp only [natDecAux, h0, if_false, List.mem_append, List.mem_singleton] at hb
      rcases hb with hb | hb
      · exact ih _ b hb
      · subst hb; omega

theorem natDec_digits (n : Nat) : ∀ b ∈ natDec n, 48 ≤ b ∧ b ≤ 57 := by
  intro b hb
  unfold natDec at hb
  by_cases h0 : n = 0
  · simp [h0] at hb; omega
  · simp only [h0, if_false] at hb
    exact natDecAux_digits n n b hb

theorem hexDigit_hex : ∀ m, m < 16 → isHexDigitL (hexDigit m) = true := by decide

theorem natHexAux_hex : ∀ f n, ∀ b ∈ natHexAux f n, isHexDigitL b = true := by
  intro f
  induction f with
  | zero => intro n b hb; simp [natHexAux] at hb
  | succ f ih =>
    intro n b hb
    by_cases h0 : n = 0
    · simp [natHexAux, h0] at hb
    · simp only [natHexAux, h0, if_false, List.mem_append, List.mem_singleton] at hb
      rcases hb with hb | hb
      · exact ih _ b hb
      · subst hb; exact hexDigit_hex _ (Nat.mod_lt _ (by omega))

theorem natHex_hex (n : Nat) : ∀ b ∈ natHex n, isHexDigitL b = true := by
  intro b hb
  unfold natHex at hb
  by_cases h0 : n = 0
  · simp [h0] at hb; subst hb; rfl
  · simp only [h0, if_false] at hb
    exact natHexAux_hex n n b hb

theorem isHexDigitL_ne_ten {b : Nat} (h : isHexDigitL b = true) : b ≠ 10 := by
  simp [isHexDigitL] at h; omega

theorem expDigits_digits (n : Nat) : ∀ b ∈ expDigits n, 48 ≤ b ∧ b ≤ 57 := by
  intro b hb
  unfold expDigits at hb
  simp only [List.mem_append] at hb
  rcases hb with hb | hb
  · rw [List.eq_of_mem_replicate hb]; omega
  · exact natDec_digits n b hb

/-- every byte `gRender` can emit from digit bytes: `+`, `-`, `.`, `e`, or a
decimal digit. -/
theorem gRender_bytes (e : Int) (ds : List Nat) (hdig : ∀ b ∈ ds, 48 ≤ b ∧ b ≤ 57) :
    ∀ b ∈ gRender e ds, b = 43 ∨ b = 45 ∨ b = 46 ∨ b = 101 ∨ (48 ≤ b ∧ b ≤ 57) := by
  intro b hb
  unfold gRender at hb
  split at hb
  · split at hb
    · simp at hb
    · rename_i d1 rest hmatch
      have hmem : ∀ x ∈ d1 :: rest, 48 ≤ x ∧ x ≤ 57 := by
        intro x hx
        exact hdig x (mem_dropTrailZeros (hmatch ▸ hx))
      rcases List.mem_cons.mp hb with hb | hb
      · right; right; right; right; exact hb ▸ hmem d1 (by simp)
      rcases List.mem_append.mp hb with hb | hb
      · rcases List.mem_append.mp hb with hb | hb
        · split at hb
          · simp at hb
          · rcases List.mem_cons.mp hb with hb | hb
            · right; right; left; exact hb
            · right; right; right; right
              exact hmem b (List.mem_cons_of_mem _ hb)
        · rcases List.mem_cons.mp hb with hb | hb
          · right; right; right; left; exact hb
          · have hb := List.mem_singleton.mp hb
            split at hb <;> omega
      · right; right; right; right; exact expDigits_digits _ b hb
  · split at hb
    · simp only [List.mem_append] at hb
      rcases hb with hb | hb
      · right; right; right; right
        exact hdig b (List.take_subset _ _ hb)
      · split at hb
        · simp at hb
        · rcases List.mem_cons.mp hb with hb | hb
          · right; right; left; exact hb
          · right; right; right; right
            exact hdig b (List.drop_subset _ _ (mem_dropTrailZeros hb))
    · rcases List.mem_cons.mp hb with hb | hb
      · right; right; right; right; omega
      rcases List.mem_cons.mp hb with hb | hb
      · right; right; left; exact hb
      rcases List.mem_append.mp hb with hb | hb
      · have := List.eq_of_mem_replicate hb
        right; right; right; right; omega
      · right; right; right; right; exact hdig b (mem_dropTrailZeros hb)

/-- every byte `gFmt` can emit. -/
theorem gFmt_bytes (n d : Nat) :
    ∀ b ∈ gFmt n d, b = 43 ∨ b = 45 ∨ b = 46 ∨ b = 101 ∨ (48 ≤ b ∧ b ≤ 57) := by
  intro b hb
  simp only [gFmt] at hb
  exact gRender_bytes _ _ (natDec_digits _) b hb

/-- every byte `dumpDouble` can emit. -/
theorem dumpDouble_bytes (q : ℚ) :
    ∀ b ∈ dumpDouble q, b = 43 ∨ b = 45 ∨ b = 46 ∨ b = 101 ∨ (48 ≤ b ∧ b ≤ 57) := by
  intro b hb
  unfold dumpDouble at hb
  split at hb
  · simp at hb; omega
  · split at hb
    · simp only [List.mem_cons] at hb
      rcases hb with hb | hb
      · right; left; exact hb
      · exact gFmt_bytes _ _ b hb
    · exact gFmt_bytes _ _ b hb

theorem dumpDouble_noNL (q : ℚ) : 10 ∉ dumpDouble q := by
  intro h
  rcases dumpDouble_bytes q 10 h with h | h | h | h | h <;> omega

theorem natDec_noNL (n : Nat) : 10 ∉ natDec n := by
  intro h; have := natDec_digits n 10 h; omega

theorem intDec_noNL (i : Int) : 10 ∉ intDec i := by
  intro h
  unfold intDec at h
  split at h
  · rcases List.mem_cons.mp h with h | h
    · omega
    · exact natDec_noNL _ h
  · exact natDec_noNL _ h

theorem intHex_noNL (i : Int) : 10 ∉ intHex i := by
  intro h
  exact isHexDigitL_ne_ten (natHex_hex _ 10 h) rfl

theorem hexPad4_noNL (x : Int) : 10 ∉ hexPad4 x := by
  intro h
  unfold hexPad4 at h
  simp only [List.mem_append] at h
  rcases h with h | h
  · have := List.eq_of_mem_replicate h; omega
  · exact isHexDigitL_ne_ten (natHex_hex _ 10 h) rfl

theorem dumpStringByte_noNL (b : Nat) : 10 ∉ (dumpStringByte b).1 := by
  unfold dumpStringByte
  split_ifs with h1 h2 h3 h4 h5 h6 h7 h8
  · decide
  · decide
  · decide
  · decide
  · decide
  · decide
  · decide
  · intro hmem
    simp only [List.cons_append, List.nil_append, List.mem_cons,
      List.mem_append] at hmem
    rcases hmem with h | h | h
    · omega
    · omega
    · exact hexPad4_noNL _ h
  · intro hmem
    exact h5 (List.mem_singleton.mp hmem).symm

theorem dumpString_noNL (s : List Nat) (hx : Bool) : 10 ∉ (dumpString s hx).1 := by
  intro h
  unfold dumpString at h
  simp only [dumpStringBody_fst] at h
  rcases List.mem_append.mp h with h | h
  · rcases List.mem_cons.mp h with h | h
    · omega
    · rcases List.mem_flatMap.mp h with ⟨x, _, hx2⟩
      exact dumpStringByte_noNL x hx2
  · have := List.mem_singleton.mp h
    omega

theorem dumpValue_scalar_noNL (v : JSON) (hx : Bool) (lv ind : Int)
    (h : isContainer v = false) : 10 ∉ (dumpValue v hx lv ind).1 := by
  cases v with
  | null => show 10 ∉ strOf "null"; decide
  | boolean b => cases b with
    | false => show 10 ∉ strOf "false"; decide
    | true => show 10 ∉ strOf "true"; decide
  | integer i => cases hx with
    | false => exact intDec_noNL i
    | true => exact intHex_noNL i
  | double q => exact dumpDouble_noNL q
  | str s => exact dumpString_noNL s hx
  | arr a => exact absurd h (by simp [isContainer])
  | obj o => exact absurd h (by simp [isContainer])

mutual
/-- with a non-positive indent, no value dump emits a newline byte. -/
theorem dumpValue_flat_noNL : ∀ (v : JSON) (hx : Bool) (lv ind : Int),
    ind ≤ 0 → 10 ∉ (dumpValue v hx lv ind).1
  | .null, hx, lv, ind, _ => dumpValue_scalar_noNL .null hx lv ind rfl
  | .boolean b, hx, lv, ind, _ => dumpValue_scalar_noNL (.boolean b) hx lv ind rfl
  | .integer i, hx, lv, ind, _ => dumpValue_scalar_noNL (.integer i) hx lv ind rfl
  | .double q, hx, lv, ind, _ => dumpValue_scalar_noNL (.double q) hx lv ind rfl
  | .str s, hx, lv, ind, _ => dumpValue_scalar_noNL (.str s) hx lv ind rfl
  | .arr a, hx, lv, ind, h => by
    intro hmem
    have h0 : ¬(0 < ind) := by omega
    have hp : (JArr.any isContainer a && decide (0 < ind)) = false := by simp [h0]
    simp only [dumpValue, hp, Bool.false_eq_true, if_false, List.nil_append,
      List.mem_append, List.mem_cons, List.mem_singleton, List.not_mem_nil,
      or_false, false_or] at hmem
    rcases hmem with (hmem | hmem) | hmem
    · omega
    · exact dumpItems_flat_noNL a hx lv ind h hmem
    · omega
  | .obj o, hx, lv, ind, h => by
    intro hmem
    have h0 : ¬(0 < ind) := by omega
    simp only [dumpValue, h0, if_false, List.nil_append, List.mem_append,
      List.mem_cons, List.mem_singleton, List.not_mem_nil, or_false,
      false_or] at hmem
    rcases hmem with (hmem | hmem) | hmem
    · omega
    · exact dumpMembers_flat_noNL o hx lv ind h hmem
    · omega

/-- with a non-positive indent, the array element loop emits no newline. -/
theorem dumpItems_flat_noNL : ∀ (a : JArr) (hx : Bool) (lv ind : Int),
    ind ≤ 0 → 10 ∉ (dumpItems a hx false lv ind).1
  | .nil, hx, lv, ind, _ => by simp [dumpItems]
  | .cons x t, hx, lv, ind, h => by
    intro hmem
    simp only [dumpItems, Bool.false_eq_true, if_false, List.nil_append,
      List.append_nil, List.mem_append] at hmem
    rcases hmem with (hmem | hmem) | hmem
    · exact dumpValue_flat_noNL x hx (lv + ind) ind h hmem
    · cases t <;> simp_all
    · exact dumpItems_flat_noNL t _ lv ind h hmem

/-- with a non-positive indent, the object member loop emits no newline. -/
theorem dumpMembers_flat_noNL : ∀ (o : JObj) (hx : Bool) (lv ind : Int),
    ind ≤ 0 → 10 ∉ (dumpMembers o hx lv ind).1
  | .nil, hx, lv, ind, _ => by simp [dumpMembers]
  | .cons k v t, hx, lv, ind, h => by
    intro hmem
    have h0 : ¬(0 < ind) := by omega
    simp only [dumpMembers, h0, if_false, List.nil_append, List.append_nil,
      List.mem_append, List.mem_cons, List.mem_singleton, List.not_mem_nil,
      or_false, false_or] at hmem
    rcases hmem with ((((hmem | hmem) | hmem) | hmem) | hmem)
    · exact dumpString_noNL k hx hmem
    · omega
    · exact dumpValue_flat_noNL v _ (lv + ind) ind h hmem
    · cases t <;> simp_all
    · exact dumpMembers_flat_noNL t _ lv ind h hmem
end

/-- when no element is a container, the (compact) element loop emits no
newline whatever the indent. -/
theorem dumpItems_scalars_noNL (a : JArr) : ∀ (hx : Bool) (lv ind : Int),
    JArr.any isContainer a = false → 10 ∉ (dumpItems a hx false lv ind).1 := by
  induction a with
  | nil => intro hx lv ind _; simp [dumpItems]
  | cons x t ih =>
    intro hx lv ind hany hmem
    rw [show JArr.any isContainer (.cons x t) = (isContainer x || JArr.any isContainer t)
      from rfl] at hany
    rcases Bool.or_eq_false_iff.mp hany with ⟨hx1, ht⟩
    simp only [dumpItems, Bool.false_eq_true, if_false, List.nil_append,
      List.append_nil, List.mem_append] at hmem
    rcases hmem with (hmem | hmem) | hmem
    · exact dumpValue_scalar_noNL x hx (lv + ind) ind hx1 hmem
    · cases t <;> simp_all
    · exact ih _ lv ind ht hmem

/-- newline characterization for `dumpArray`: the emitted text contains a
newline exactly when the array holds a container element and the indent is
positive — the pretty-print condition of lines 265-278. -/
theorem dumpArray_newline_iff (a : JArr) (hx : Bool) (lv ind : Int) :
    10 ∈ (dumpArray a hx lv ind).1 ↔ (0 < ind ∧ JArr.any isContainer a = true) := by
  unfold dumpArray
  by_cases hp : (JArr.any isContainer a && decide (0 < ind)) = true
  · have h2 : JArr.any isContainer a = true ∧ 0 < ind := by simpa using hp
    simp only [dumpValue, hp, if_true]
    simp [h2.1, h2.2]
  · have hp' : (JArr.any isContainer a && decide (0 < ind)) = false :=
      Bool.not_eq_true _ |>.mp hp
    constructor
    · intro hmem
      exfalso
      by_cases h0 : 0 < ind
      · have hany : JArr.any isContainer a = false := by
          rcases Bool.and_eq_false_iff.mp hp' with h | h
          · exact h
          · exact absurd (decide_eq_true h0) (by simp [h])
        simp only [dumpValue, hp', Bool.false_eq_true, if_false, List.nil_append,
          List.mem_append, List.mem_cons, List.mem_singleton, List.not_mem_nil,
          or_false, false_or] at hmem
        rcases hmem with (hmem | hmem) | hmem
        · omega
        · exact dumpItems_scalars_noNL a hx lv ind hany hmem
        · omega
      · exact dumpValue_flat_noNL (.arr a) hx lv ind (by omega) hmem
    · rintro ⟨h1, h2⟩
      exact absurd (by simp [h1, h2] : (JArr.any isContainer a && decide (0 < ind)) = true) hp

/-- newline characterization for `dumpObject`: the emitted text contains a
newline exactly when the indent is positive, whatever the members are
(lines 302-320). -/
theorem dumpObject_newline_iff (o : JObj) (hx : Bool) (lv ind : Int) :
    10 ∈ (dumpObject o hx lv ind).1 ↔ 0 < ind := by
  unfold dumpObject
  by_cases h0 : 0 < ind
  · simp only [dumpValue, h0, if_true]
    simp
  · constructor
    · intro hmem
      exact absurd hmem (dumpValue_flat_noNL (.obj o) hx lv ind (by omega))
    · intro h; exact absurd h h0

/-- one-line layout of array elements, written from the claim: each element
dumped at `level + indent`, all on one line, separated by a comma and a
space, threading the stream state left to right. -/
def itemsOneLine : JArr → Bool → Int → Int → List Nat × Bool
  | .nil, hx, _, _ => ([], hx)
  | .cons x .nil, hx, lv, ind => dumpValue x hx (lv + ind) ind
  | .cons x t, hx, lv, ind =>
    let r1 := dumpValue x hx (lv + ind) ind
    let r2 := itemsOneLine t r1.2 lv ind
    (r1.1 ++ 44 :: 32 :: r2.1, r2.2)

/-- per-line layout of object members, written from the claim: each member
on its own line — the indentation, the quoted key, a colon and a space,
the value at `level + indent`, a comma between members, and the newline. -/
def memberLines : JObj → Bool → Int → Int → List Nat × Bool
  | .nil, hx, _, _ => ([], hx)
  | .cons k v t, hx, lv, ind =>
    let rk := dumpString k hx
    let rv := dumpValue v rk.2 (lv + ind) ind
    let line := spacesI (lv + ind) ++ rk.1 ++ 58 :: 32 :: rv.1
    let rt := memberLines t rv.2 lv ind
    ((match t with
      | .nil => line ++ [10]
      | .cons _ _ _ => line ++ 44 :: [10]) ++ rt.1, rt.2)

/-- the compact element loop is exactly the one-line layout. -/
theorem dumpItems_compact_eq (a : JArr) : ∀ (hx : Bool) (lv ind : Int),
    dumpItems a hx false lv ind = itemsOneLine a hx lv ind := by
  induction a with
  | nil => intro hx lv ind; rfl
  | cons x t ih =>
    intro hx lv ind
    cases t with
    | nil =>
      simp only [dumpItems, itemsOneLine, List.append_nil, List.nil_append,
        Bool.false_eq_true, if_false]
    | cons y u =>
      show ([] ++ (dumpValue x hx (lv + ind) ind).1 ++ [44, 32] ++ [] ++
        (dumpItems (.cons y u) (dumpValue x hx (lv + ind) ind).2 false lv ind).1, _) = _
      rw [ih]
      show (_, (itemsOneLine (.cons y u) (dumpValue x hx (lv + ind) ind).2 lv ind).2) = _
      simp [itemsOneLine]

/-- with a positive indent the member loop is exactly the line-per-member
layout. -/
theorem dumpMembers_lines_eq (o : JObj) : ∀ (hx : Bool) (lv ind : Int), 0 < ind →
    dumpMembers o hx lv ind = memberLines o hx lv ind := by
  induction o with
  | nil => intro hx lv ind _; rfl
  | cons k v t ih =>
    intro hx lv ind h0
    have iht : ∀ hxx, dumpMembers t hxx lv ind = memberLines t hxx lv ind :=
      fun hxx => ih hxx lv ind h0
    cases t with
    | nil =>
      simp only [dumpMembers, memberLines, h0, if_true, List.append_nil,
        List.nil_append, List.append_assoc, List.cons_append]
    | cons k2 v2 u =>
      rw [dumpMembers.eq_3, iht]
      simp only [memberLines, h0, if_true, List.append_nil, List.nil_append,
        List.append_assoc, List.cons_append]

/-- Claim C9: the array serializer pretty-prints (equivalently: its output
contains a newline) exactly when the array has at least one Array or
Object element and the indent is positive; in every other case the output
is the bracketed one-line, comma-space-separated element list.  The object
serializer, by contrast, emits a newline exactly when the indent is
positive, whatever its members, laying out one member per indented line. -/
theorem c9_layout (a : JArr) (o : JObj) (hx : Bool) (lv ind : Int) :
    (10 ∈ (dumpArray a hx lv ind).1 ↔ (0 < ind ∧ JArr.any isContainer a = true)) ∧
    (¬(0 < ind ∧ JArr.any isContainer a = true) →
      dumpArray a hx lv ind
        = (91 :: (itemsOneLine a hx lv ind).1 ++ [93], (itemsOneLine a hx lv ind).2)) ∧
    (10 ∈ (dumpObject o hx lv ind).1 ↔ 0 < ind) ∧
    (0 < ind →
      dumpObject o hx lv ind
        = (123 :: 10 :: (memberLines o hx lv ind).1 ++ spacesI lv ++ [125],
           (memberLines o hx lv ind).2)) := by
  refine ⟨dumpArray_newline_iff a hx lv ind, ?_, dumpObject_newline_iff o hx lv ind, ?_⟩
  · intro h
    have hp : (JArr.any isContainer a && decide (0 < ind)) = false := by
      cases hA : JArr.any isContainer a with
      | false => simp
      | true =>
        have : ¬(0 < ind) := fun h0 => h ⟨h0, hA⟩
        simp [this]
    unfold dumpArray
    simp only [dumpValue, hp, Bool.false_eq_true, if_false, List.nil_append,
      List.append_nil, dumpItems_compact_eq, List.cons_append, List.append_assoc]
  · intro h0
    have hm : ∀ (oo : JObj) (hxx : Bool),
        dumpMembers oo hxx lv ind = memberLines oo hxx lv ind :=
      fun oo hxx => dumpMembers_lines_eq oo hxx lv ind h0
    unfold dumpObject
    simp only [dumpValue, h0, if_true, hm, List.cons_append, List.nil_append,
      List.append_assoc]

/-- Claim C9 witness: the compact equation at a 2-integer array with indent
0, and the line-per-member equation at a 1-member object with indent 4. -/
theorem c9_layout_witness :
    dumpArray (.cons (.integer 1) (.cons (.integer 2) .nil)) false 0 0
      = (91 :: (itemsOneLine (.cons (.integer 1) (.cons (.integer 2) .nil)) false 0 0).1 ++ [93],
         (itemsOneLine (.cons (.integer 1) (.cons (.integer 2) .nil)) false 0 0).2) ∧
    dumpObject (.cons (strOf "a") (.integer 1) .nil) false 0 4
      = (123 :: 10 :: (memberLines (.cons (strOf "a") (.integer 1) .nil) false 0 4).1
          ++ spacesI 0 ++ [125],
         (memberLines (.cons (strOf "a") (.integer 1) .nil) false 0 4).2) :=
  ⟨(c9_layout (.cons (.integer 1) (.cons (.integer 2) .nil)) .nil false 0 0).2.1 (by decide),
   (c9_layout .nil (.cons (strOf "a") (.integer 1) .nil) false 0 4).2.2.2 (by decide)⟩

/-! ### Round-trip groundwork (claim C1)

`good` delimits the fragment the round-trip claim is amended to: every
payload representable without loss by this serializer/parser pair — no
`Double` payloads, integers within the 32-bit `int` range, and string
payloads and keys made of printable ASCII bytes 32..126 (exactly the bytes
needing no `\u` escape).  Objects additionally carry the `std::map`
invariant: keys strictly ascending, each key below every later key. -/

/-- printable-ASCII byte string: no byte needs a `\u` escape. -/
def goodKey (k : List Nat) : Bool := k.all fun b => 32 ≤ b && b ≤ 126

mutual
/-- the round-trippable fragment of the value model. -/
def good : JSON → Bool
  | .null => true
  | .boolean _ => true
  | .integer i => decide (-(2 ^ 31) ≤ i) && decide (i < 2 ^ 31)
  | .double _ => false
  | .str s => goodKey s
  | .arr a => goodArr a
  | .obj o => goodObj o

/-- every element round-trippable. -/
def goodArr : JArr → Bool
  | .nil => true
  | .cons x t => good x && goodArr t

/-- entries round-trippable, keys printable and strictly ascending. -/
def goodObj : JObj → Bool
  | .nil => true
  | .cons k v t => goodKey k && good v && keyLtAll k t && goodObj t

/-- is `k` strictly below every key of the object? -/
def keyLtAll (k : List Nat) : JObj → Bool
  | .nil => true
  | .cons k2 _ t => strLtB k k2 && keyLtAll k t
end

/-- strict lexicographic order is asymmetric. -/
theorem strLtB_asymm : ∀ (a b : List Nat), strLtB a b = true → strLtB b a = false := by
  intro a
  induction a with
  | nil => intro b h; cases b <;> simp_all [strLtB]
  | cons x xs ih =>
    intro b h
    cases b with
    | nil => simp [strLtB] at h
    | cons y ys =>
      simp only [strLtB] at h ⊢
      by_cases h1 : x < y
      · rw [if_neg (by omega : ¬y < x), if_pos h1]
      · by_cases h2 : y < x
        · rw [if_neg h1, if_pos h2] at h
          exact absurd h (by simp)
        · rw [if_neg h1, if_neg h2] at h
          rw [if_neg h2, if_neg h1]
          exact ih ys h

namespace JObj

/-- append one entry at the end. -/
def snoc : JObj → List Nat → JSON → JObj
  | .nil, k, v => .cons k v .nil
  | .cons k1 v1 t, k, v => .cons k1 v1 (snoc t k v)

/-- is every key of the object strictly below `key`? -/
def allLt : JObj → List Nat → Bool
  | .nil, _ => true
  | .cons k _ t, key => strLtB k key && allLt t key

/-- fold the entries of `rem` into `acc` by end-insertion. -/
def catSnoc : JObj → JObj → JObj
  | acc, .nil => acc
  | acc, .cons k v t => catSnoc (acc.snoc k v) t

end JObj

/-- inserting a key above every present key appends the entry at the end —
what each `obj[key] = value` step of `parseObject` does on the key-sorted
member sequence the serializer emitted. -/
theorem insert_of_allLt (key : List Nat) (val : JSON) :
    ∀ (m : JObj), m.allLt key = true → m.insert key val = m.snoc key val := by
  intro m
  induction m with
  | nil => intro _; rfl
  | cons k1 v1 t ih =>
    intro h
    simp only [JObj.allLt, Bool.and_eq_true] at h
    simp only [JObj.insert, JObj.snoc, strLtB_asymm k1 key h.1, Bool.false_eq_true,
      if_false, h.1, if_true, ih h.2]

theorem allLt_snoc (m : JObj) (k : List Nat) (v : JSON) (key : List Nat)
    (hm : m.allLt key = true) (hk : strLtB k key = true) :
    (m.snoc k v).allLt key = true := by
  induction m with
  | nil => simp [JObj.snoc, JObj.allLt, hk]
  | cons k1 v1 t ih =>
    simp only [JObj.allLt, Bool.and_eq_true] at hm
    simp only [JObj.snoc, JObj.allLt, hm.1, Bool.true_and]
    exact ih hm.2

/-- JArr concatenation of the accumulated prefix with the rest. -/
def JArr.append : JArr → JArr → JArr
  | .nil, b => b
  | .cons x t, b => .cons x (JArr.append t b)

theorem JArr.append_nil : ∀ a : JArr, JArr.append a .nil = a := by
  intro a
  induction a with
  | nil => rfl
  | cons x t ih => simp [JArr.append, ih]

theorem JArr.push_eq_append (a : JArr) (x : JSON) :
    a.push x = JArr.append a (.cons x .nil) := by
  induction a with
  | nil => rfl
  | cons y t ih => simp [JArr.push, JArr.append, ih]

theorem JArr.append_assoc_cons (a : JArr) (x : JSON) (b : JArr) :
    JArr.append (JArr.append a (.cons x .nil)) b = JArr.append a (.cons x b) := by
  induction a with
  | nil => rfl
  | cons y t ih => simp [JArr.append, ih]

/-- plain JObj concatenation. -/
def JObj.appendO : JObj → JObj → JObj
  | .nil, b => b
  | .cons k v t, b => .cons k v (JObj.appendO t b)

theorem JObj.appendO_nil : ∀ o : JObj, JObj.appendO o .nil = o := by
  intro o
  induction o with
  | nil => rfl
  | cons k v t ih => simp [JObj.appendO, ih]

theorem JObj.appendO_snoc (k : List Nat) (v : JSON) :
    ∀ (acc t : JObj), JObj.appendO (acc.snoc k v) t = JObj.appendO acc (.cons k v t) := by
  intro acc
  induction acc with
  | nil => intro t; rfl
  | cons k1 v1 u ih => intro t; simp [JObj.snoc, JObj.appendO, ih]

theorem JObj.catSnoc_eq_appendO : ∀ (rem acc : JObj), JObj.catSnoc acc rem = JObj.appendO acc rem := by
  intro rem
  induction rem with
  | nil => intro acc; simp [JObj.catSnoc, JObj.appendO_nil]
  | cons k v t ih =>
    intro acc
    rw [show JObj.catSnoc acc (.cons k v t) = JObj.catSnoc (acc.snoc k v) t from rfl,
      ih (acc.snoc k v), JObj.appendO_snoc]

theorem JObj.catSnoc_nil_left (o : JObj) : JObj.catSnoc .nil o = o :=
  JObj.catSnoc_eq_appendO o .nil

/-! ### Cursor lemmas: reading and advancing over known bytes -/

/-- reading at offset `i` into the known region `X` ahead of the cursor. -/
theorem byteAt_at (D X R : List Nat) (i l c : Nat) (h : i < X.length) :
    byteAt ⟨D ++ (X ++ R), D.length + i, l, c⟩ = some (X.getD i 0) := by
  unfold byteAt
  rw [if_pos (by simp only [List.length_append]; omega)]
  congr 1
  rw [List.getD_append_right D (X ++ R) 0 (D.length + i) (by omega),
    Nat.add_sub_cancel_left, List.getD_append X R 0 i h]

/-- reading the byte right at the cursor. -/
theorem byteAt_head (D R : List Nat) (b l c : Nat) :
    byteAt ⟨D ++ b :: R, D.length, l, c⟩ = some b := by
  have := byteAt_at D [b] R 0 l c (by simp)
  simpa using this

/-- reading at the very end of the input: the `'\0'` of `std::string`. -/
theorem byteAt_nul (D : List Nat) (l c : Nat) :
    byteAt ⟨D, D.length, l, c⟩ = some 0 := by
  unfold byteAt
  rw [if_pos le_rfl]
  congr 1
  exact List.getD_eq_default _ _ le_rfl

/-- advancing over the whole known region `X`. -/
theorem advanceN_ok : ∀ (X D R : List Nat) (l c : Nat),
    ∃ l2 c2, advanceN X.length ⟨D ++ (X ++ R), D.length, l, c⟩
      = .ok ⟨D ++ (X ++ R), D.length + X.length, l2, c2⟩ := by
  intro X
  induction X with
  | nil => intro D R l c; exact ⟨l, c, by simp [advanceN]⟩
  | cons b X2 ih =>
    intro D R l c
    have hdata : D ++ ((b :: X2) ++ R) = (D ++ [b]) ++ (X2 ++ R) := by simp
    have hstep : ∀ l0 c0, ∃ l1 c1,
        advance1 ⟨D ++ ((b :: X2) ++ R), D.length, l0, c0⟩
          = .ok ⟨D ++ ((b :: X2) ++ R), D.length + 1, l1, c1⟩ := by
      intro l0 c0
      unfold advance1
      rw [show D ++ ((b :: X2) ++ R) = D ++ b :: (X2 ++ R) by simp, byteAt_head]
      by_cases hb : b = 10
      · exact ⟨l0 + 1, 1, by simp [hb]⟩
      · exact ⟨l0, c0 + 1, by simp [hb]⟩
    obtain ⟨l1, c1, h1⟩ := hstep l c
    obtain ⟨l2, c2, h2⟩ := ih (D ++ [b]) R l1 c1
    refine ⟨l2, c2, ?_⟩
    rw [show (b :: X2).length = X2.length + 1 from rfl]
    rw [show advanceN (X2.length + 1) ⟨D ++ ((b :: X2) ++ R), D.length, l, c⟩
      = (advance1 ⟨D ++ ((b :: X2) ++ R), D.length, l, c⟩).bind (advanceN X2.length) from rfl]
    rw [h1]
    have hpos : D.length + 1 = (D ++ [b]).length := by simp
    rw [show (⟨D ++ ((b :: X2) ++ R), D.length + 1, l1, c1⟩ : PState)
      = ⟨(D ++ [b]) ++ (X2 ++ R), (D ++ [b]).length, l1, c1⟩ by rw [← hdata, ← hpos]]
    show advanceN X2.length _ = _
    rw [h2]
    rw [hdata]
    congr 2
    simp
    omega

/-- one step of `advance1` under a known byte. -/
theorem advance1_some (st : PState) (b : Nat) (hb : byteAt st = some b) :
    advance1 st = .ok ⟨st.data, st.pos + 1, if b = 10 then st.line + 1 else st.line,
      if b = 10 then 1 else st.col + 1⟩ := by
  unfold advance1
  rw [hb]
  by_cases h : b = 10 <;> simp [h]

/-- one step of `skipWS` under a known byte. -/
theorem skipWS_step (f : Nat) (st : PState) (b : Nat) (hb : byteAt st = some b) :
    skipWS (f + 1) st = if (decide (b ≠ 0) && isSpaceB b) = true
      then (advance1 st).bind (skipWS f) else .ok st := by
  unfold skipWS
  rw [hb]
  rfl

/-- a run of whitespace bytes the dump can emit (newlines and spaces). -/
def wsRun (W : List Nat) : Prop := ∀ b ∈ W, isSpaceB b = true ∧ b ≠ 0

/-- the byte after the region (when any) stops `skipWhitespace`. -/
def notWsHead (R : List Nat) : Prop := ∀ b, R.head? = some b → isSpaceB b = false

/-- `skipWhitespace` consumes exactly the whitespace run ahead. -/
theorem skipWS_ok : ∀ (W : List Nat) (f : Nat) (D R : List Nat) (l c : Nat),
    wsRun W → notWsHead R → W.length < f →
    ∃ l2 c2, skipWS f ⟨D ++ (W ++ R), D.length, l, c⟩
      = .ok ⟨D ++ (W ++ R), D.length + W.length, l2, c2⟩ := by
  intro W
  induction W with
  | nil =>
    intro f D R l c _ hR hf
    obtain ⟨f2, rfl⟩ : ∃ f2, f = f2 + 1 := ⟨f - 1, by omega⟩
    refine ⟨l, c, ?_⟩
    cases R with
    | nil =>
      rw [show D ++ ([] ++ ([] : List Nat)) = D by simp] at *
      rw [skipWS_step f2 _ 0 (byteAt_nul D l c)]
      simp
    | cons b R2 =>
      rw [show D ++ ([] ++ b :: R2) = D ++ b :: R2 by simp]
      rw [skipWS_step f2 _ b (byteAt_head D R2 b l c)]
      have hb : isSpaceB b = false := hR b rfl
      simp [hb]
  | cons w W2 ih =>
    intro f D R l c hW hR hf
    obtain ⟨f2, rfl⟩ : ∃ f2, f = f2 + 1 := ⟨f - 1, by omega⟩
    have hw := hW w (by simp)
    have hd1 : D ++ ((w :: W2) ++ R) = D ++ w :: (W2 ++ R) := by simp
    have hsh : D ++ w :: (W2 ++ R) = (D ++ [w]) ++ (W2 ++ R) := by simp
    obtain ⟨l2, c2, h2⟩ := ih f2 (D ++ [w]) R
      (if w = 10 then l + 1 else l) (if w = 10 then 1 else c + 1)
      (fun b hb => hW b (by simp [hb])) hR (by simp at hf ⊢; omega)
    refine ⟨l2, c2, ?_⟩
    rw [hd1, skipWS_step f2 _ w (byteAt_head D (W2 ++ R) w l c),
      if_pos (by simp [hw.1, hw.2]),
      advance1_some _ w (byteAt_head D (W2 ++ R) w l c)]
    show skipWS f2 ⟨D ++ w :: (W2 ++ R), D.length + 1, _, _⟩ = _
    rw [show (⟨D ++ w :: (W2 ++ R), D.length + 1, if w = 10 then l + 1 else l,
        if w = 10 then 1 else c + 1⟩ : PState)
      = ⟨(D ++ [w]) ++ (W2 ++ R), (D ++ [w]).length, if w = 10 then l + 1 else l,
        if w = 10 then 1 else c + 1⟩ by rw [← hsh]; simp]
    rw [h2, ← hsh]
    congr 2
    simp
    omega

/-- `strncmp` matches when the region ahead carries the literal. -/
theorem litMatch_true (D X R : List Nat) (l c : Nat) : ∀ (lit : List Nat) (i : Nat),
    i + lit.length ≤ X.length → (X.drop i).take lit.length = lit →
    litMatch ⟨D ++ (X ++ R), D.length, l, c⟩ lit i = true := by
  intro lit
  induction lit with
  | nil => intro i _ _; rfl
  | cons cl lit2 ih =>
    intro i hlen htake
    have hi : i < X.length := by simp at hlen; omega
    rw [List.drop_eq_getElem_cons hi, List.length_cons, List.take_succ_cons] at htake
    have hXi : X[i] = cl := ((List.cons.injEq _ _ _ _).mp htake).1
    have htl : (X.drop (i + 1)).take lit2.length = lit2 :=
      ((List.cons.injEq _ _ _ _).mp htake).2
    simp only [litMatch]
    rw [byteAt_at D X R i l c hi]
    have hgd : X.getD i 0 = cl := by rw [List.getD_eq_getElem _ _ hi, hXi]
    simp only [hgd]
    simp
    exact ih (i + 1) (by simp at hlen ⊢; omega) htl

/-- `strncmp` fails on the first byte when it differs. -/
theorem litMatch_false_head (D R : List Nat) (b l c : Nat) (cl : Nat) (lit2 : List Nat)
    (hne : b ≠ cl) :
    litMatch ⟨D ++ b :: R, D.length, l, c⟩ (cl :: lit2) 0 = false := by
  simp only [litMatch]
  rw [show D.length + 0 = D.length from rfl, byteAt_head]
  simp [hne]

/-- `parseNull` at the spelled-out literal. -/
theorem parseNull_ok (D R : List Nat) (l c : Nat) :
    ∃ l2 c2, parseNull ⟨D ++ (strOf "null" ++ R), D.length, l, c⟩
      = .ok (JSON.null, ⟨D ++ (strOf "null" ++ R), D.length + 4, l2, c2⟩) := by
  have hm := litMatch_true D (strOf "null") R l c (strOf "null") 0 (by decide) (by decide)
  obtain ⟨l2, c2, ha⟩ := advanceN_ok (strOf "null") D R l c
  simp only [show (strOf "null").length = 4 from rfl] at ha
  refine ⟨l2, c2, ?_⟩
  unfold parseNull
  rw [hm, if_pos rfl, ha]
  rfl

/-- `parseBoolean` at the `true` literal. -/
theorem parseBoolean_true_ok (D R : List Nat) (l c : Nat) :
    ∃ l2 c2, parseBoolean ⟨D ++ (strOf "true" ++ R), D.length, l, c⟩
      = .ok (JSON.boolean true, ⟨D ++ (strOf "true" ++ R), D.length + 4, l2, c2⟩) := by
  have hm := litMatch_true D (strOf "true") R l c (strOf "true") 0 (by decide) (by decide)
  obtain ⟨l2, c2, ha⟩ := advanceN_ok (strOf "true") D R l c
  simp only [show (strOf "true").length = 4 from rfl] at ha
  refine ⟨l2, c2, ?_⟩
  unfold parseBoolean
  rw [hm, if_pos rfl, ha]
  rfl

/-- `parseBoolean` at the `false` literal. -/
theorem parseBoolean_false_ok (D R : List Nat) (l c : Nat) :
    ∃ l2 c2, parseBoolean ⟨D ++ (strOf "false" ++ R), D.length, l, c⟩
      = .ok (JSON.boolean false, ⟨D ++ (strOf "false" ++ R), D.length + 5, l2, c2⟩) := by
  have hne : litMatch ⟨D ++ (strOf "false" ++ R), D.length, l, c⟩ (strOf "true") 0 = false := by
    rw [show D ++ (strOf "false" ++ R) = D ++ 102 :: (strOf "alse" ++ R) from rfl]
    exact litMatch_false_head D (strOf "alse" ++ R) 102 l c 116 (strOf "rue") (by decide)
  have hm := litMatch_true D (strOf "false") R l c (strOf "false") 0 (by decide) (by decide)
  obtain ⟨l2, c2, ha⟩ := advanceN_ok (strOf "false") D R l c
  simp only [show (strOf "false").length = 5 from rfl] at ha
  refine ⟨l2, c2, ?_⟩
  unfold parseBoolean
  rw [hne, hm]
  simp only [Bool.false_eq_true, if_false, if_pos rfl]
  rw [ha]
  rfl

/-- one-step unfolding of `parseValue`. -/
theorem parseValue_unfold (f : Nat) (st : PState) :
    parseValue (f + 1) st = (skipWS (f + 1) st).bind (fun st2 =>
      match byteAt st2 with
      | none => .error .oob
      | some c =>
        if c = 123 then parseObject f st2
        else if c = 91 then parseArray f st2
        else if c = 34 then parseString (f + 1) st2
        else if c = 116 || c = 102 then parseBoolean st2
        else if c = 110 then parseNull st2
        else if c = 45 || isDigitB c then parseNumber (f + 1) st2
        else throwErr st2 (strOf "Unexpected character in JSON")) := by
  unfold parseValue
  rfl

theorem natDecAux_zero : ∀ f, natDecAux f 0 = [] := by
  intro f; cases f <;> simp [natDecAux]

theorem natDec_ne_nil (n : Nat) : natDec n ≠ [] := by
  unfold natDec
  by_cases h0 : n = 0
  · simp [h0]
  · simp only [h0, if_false]
    obtain ⟨f, rfl⟩ : ∃ f, n = f + 1 := ⟨n - 1, by omega⟩
    simp [natDecAux, h0]

theorem digitsVal_append_one (xs : List Nat) (d : Nat) :
    digitsVal (xs ++ [d]) = 10 * digitsVal xs + (d - 48) := by
  unfold digitsVal
  rw [List.foldl_append]
  simp [Nat.mul_comm]

theorem digitsVal_natDecAux : ∀ (f n : Nat), 0 < n → n ≤ f →
    digitsVal (natDecAux f n) = n := by
  intro f
  induction f with
  | zero => intro n h1 h2; omega
  | succ f ih =>
    intro n h1 h2
    rw [show natDecAux (f + 1) n = natDecAux f (n / 10) ++ [48 + n % 10] by
      simp [natDecAux]; omega]
    rw [digitsVal_append_one]
    by_cases hq : n / 10 = 0
    · rw [hq, natDecAux_zero]
      show 10 * digitsVal [] + (48 + n % 10 - 48) = n
      unfold digitsVal
      simp
      omega
    · rw [ih (n / 10) (by omega) (by omega)]
      omega

theorem digitsVal_natDec (n : Nat) : digitsVal (natDec n) = n := by
  unfold natDec
  by_cases h0 : n = 0
  · subst h0; decide
  · rw [if_neg h0]
    exact digitsVal_natDecAux n n (by omega) le_rfl

/-- `std::stoi` on a bare run of decimal digits. -/
theorem stoiModel_digits (ds : List Nat) (hne : ds ≠ [])
    (hdig : ∀ b ∈ ds, 48 ≤ b ∧ b ≤ 57)
    (hr : ¬((digitsVal ds : Int) < -(2 ^ 31) ∨ (2 ^ 31 : Int) - 1 < (digitsVal ds : Int))) :
    stoiModel ds = .ok (digitsVal ds) := by
  obtain ⟨d, ds2, rfl⟩ := List.exists_cons_of_ne_nil hne
  have hd := hdig d (by simp)
  have h45 : d ≠ 45 := by omega
  have h43 : d ≠ 43 := by omega
  have htws : (d :: ds2).takeWhile isDigitB = d :: ds2 :=
    List.takeWhile_eq_self_iff.mpr (fun x hx => by
      have := hdig x hx; simp [isDigitB]; omega)
  unfold stoiModel
  rw [List.dropWhile_cons_of_neg (by simp [isSpaceB]; omega)]
  push_neg at hr
  simp [h45, h43, htws, hr.1, hr.2, one_mul]
  omega

/-- `std::stoi` recovers the integer from its decimal text, within `int`
range. -/
theorem stoiModel_intDec (i : Int) (h1 : -(2 ^ 31) ≤ i) (h2 : i < 2 ^ 31) :
    stoiModel (intDec i) = .ok i := by
  have hdig := natDec_digits i.natAbs
  by_cases hi : i < 0
  · rw [show intDec i = 45 :: natDec i.natAbs by simp [intDec, hi]]
    obtain ⟨d, ds2, hds⟩ := List.exists_cons_of_ne_nil (natDec_ne_nil i.natAbs)
    have htws : (d :: ds2).takeWhile isDigitB = d :: ds2 :=
      List.takeWhile_eq_self_iff.mpr (fun x hx => by
        have := hdig x (hds ▸ hx); simp [isDigitB]; omega)
    have hvl : ((digitsVal (d :: ds2) : Nat) : Int) = -i := by
      rw [← hds, digitsVal_natDec]; omega
    rw [hds]
    unfold stoiModel
    rw [List.dropWhile_cons_of_neg (by simp [isSpaceB])]
    simp [htws, hvl]
    omega
  · rw [show intDec i = natDec i.natAbs by simp [intDec, hi]]
    have hval : ((digitsVal (natDec i.natAbs) : Nat) : Int) = i := by
      rw [digitsVal_natDec]; omega
    rw [show (Except.ok i : Except Err Int) = .ok (digitsVal (natDec i.natAbs) : Int) by
      rw [hval]]
    apply stoiModel_digits _ (natDec_ne_nil _) hdig
    rw [digitsVal_natDec]
    omega

/-- one step of `digitRun` under a known byte. -/
theorem digitRun_step (f : Nat) (st : PState) (b : Nat) (hb : byteAt st = some b) :
    digitRun (f + 1) st = if isDigitB b
      then (advance1 st).bind (digitRun f) else .ok st := by
  unfold digitRun
  rw [hb]
  rfl

/-- the byte after a region stops the digit run. -/
def notDigitHead (R : List Nat) : Prop := ∀ b, R.head? = some b → isDigitB b = false

/-- the digit run consumes exactly the digits ahead. -/
theorem digitRun_ok : ∀ (X : List Nat) (f : Nat) (D R : List Nat) (l c : Nat),
    (∀ b ∈ X, isDigitB b = true) → notDigitHead R → X.length < f →
    ∃ l2 c2, digitRun f ⟨D ++ (X ++ R), D.length, l, c⟩
      = .ok ⟨D ++ (X ++ R), D.length + X.length, l2, c2⟩ := by
  intro X
  induction X with
  | nil =>
    intro f D R l c _ hR hf
    obtain ⟨f2, rfl⟩ : ∃ f2, f = f2 + 1 := ⟨f - 1, by omega⟩
    refine ⟨l, c, ?_⟩
    cases R with
    | nil =>
      rw [show D ++ ([] ++ ([] : List Nat)) = D by simp] at *
      rw [digitRun_step f2 _ 0 (byteAt_nul D l c)]
      simp [isDigitB]
    | cons b R2 =>
      rw [show D ++ ([] ++ b :: R2) = D ++ b :: R2 by simp]
      rw [digitRun_step f2 _ b (byteAt_head D R2 b l c)]
      have hb : isDigitB b = false := hR b rfl
      simp [hb]
  | cons w W2 ih =>
    intro f D R l c hW hR hf
    obtain ⟨f2, rfl⟩ : ∃ f2, f = f2 + 1 := ⟨f - 1, by omega⟩
    have hw := hW w (by simp)
    have hd1 : D ++ ((w :: W2) ++ R) = D ++ w :: (W2 ++ R) := by simp
    have hsh : D ++ w :: (W2 ++ R) = (D ++ [w]) ++ (W2 ++ R) := by simp
    obtain ⟨l2, c2, h2⟩ := ih f2 (D ++ [w]) R
      (if w = 10 then l + 1 else l) (if w = 10 then 1 else c + 1)
      (fun b hb => hW b (by simp [hb])) hR (by simp at hf ⊢; omega)
    refine ⟨l2, c2, ?_⟩
    rw [hd1, digitRun_step f2 _ w (byteAt_head D (W2 ++ R) w l c),
      if_pos hw, advance1_some _ w (byteAt_head D (W2 ++ R) w l c)]
    show digitRun f2 ⟨D ++ w :: (W2 ++ R), D.length + 1, _, _⟩ = _
    rw [show (⟨D ++ w :: (W2 ++ R), D.length + 1, if w = 10 then l + 1 else l,
        if w = 10 then 1 else c + 1⟩ : PState)
      = ⟨(D ++ [w]) ++ (W2 ++ R), (D ++ [w]).length, if w = 10 then l + 1 else l,
        if w = 10 then 1 else c + 1⟩ by rw [← hsh]; simp]
    rw [h2, ← hsh]
    congr 2
    simp
    omega

/-- one step of `parseNumber` under a known first byte. -/
theorem parseNumber_eq (f : Nat) (st : PState) (b : Nat) (hb : byteAt st = some b) :
    parseNumber f st = ((if b = 45 then advance1 st else .ok st).bind fun st1 =>
      (digitRun f st1).bind fun st2 =>
      match byteAt st2 with
      | none => .error .oob
      | some c =>
        if c = 46 then
          (advance1 st2).bind fun st3 =>
          (digitRun f st3).bind fun st4 =>
          (stodModel ((st4.data.drop st.pos).take (st4.pos - st.pos))).bind fun q =>
          .ok (.double q, st4)
        else
          (stoiModel ((st2.data.drop st.pos).take (st2.pos - st.pos))).bind fun i =>
          .ok (.integer i, st2)) := by
  unfold parseNumber
  rw [hb]
  rfl

/-- the byte at the boundary after a known prefix: the head of the rest, or
the terminating `'\0'`. -/
theorem byteAt_after (P R : List Nat) (l c : Nat) :
    byteAt ⟨P ++ R, P.length, l, c⟩ = some (R.getD 0 0) := by
  cases R with
  | nil =>
    rw [show P ++ ([] : List Nat) = P by simp]
    exact byteAt_nul P l c
  | cons b R2 => exact byteAt_head P R2 b l c

/-- `parseNumber` at the decimal text of an in-range integer: consumes
exactly the digits (and optional sign) and recovers the value. -/
theorem parseNumber_intDec_ok (i : Int) (h1 : -(2 ^ 31) ≤ i) (h2 : i < 2 ^ 31)
    (D R : List Nat) (l c f : Nat)
    (hR : ∀ b, R.head? = some b → isDigitB b = false ∧ b ≠ 46)
    (hf : (intDec i).length < f) :
    ∃ l2 c2, parseNumber f ⟨D ++ (intDec i ++ R), D.length, l, c⟩
      = .ok (.integer i, ⟨D ++ (intDec i ++ R), D.length + (intDec i).length, l2, c2⟩) := by
  have hstoi := stoiModel_intDec i h1 h2
  have hR46 : (R.getD 0 0) ≠ 46 := by
    cases R with
    | nil => simp
    | cons b R2 => exact (hR b rfl).2
  by_cases hi : i < 0
  · have hX : intDec i = 45 :: natDec i.natAbs := by simp [intDec, hi]
    have hd1 : D ++ (intDec i ++ R) = D ++ 45 :: (natDec i.natAbs ++ R) := by
      rw [hX]; simp
    have hb : byteAt ⟨D ++ (intDec i ++ R), D.length, l, c⟩ = some 45 := by
      rw [hd1]; exact byteAt_head D (natDec i.natAbs ++ R) 45 l c
    rw [parseNumber_eq f _ 45 hb, if_pos rfl, advance1_some _ 45 hb]
    simp only [Except.bind, show ((45 : Nat) = 10) = False by simp, if_false]
    obtain ⟨l2, c2, hrun⟩ := digitRun_ok (natDec i.natAbs) f (D ++ [45]) R l (c + 1)
      (fun b hb2 => by have := natDec_digits i.natAbs b hb2; simp [isDigitB]; omega)
      (fun b hb2 => (hR b hb2).1) (by rw [hX] at hf; simp at hf ⊢; omega)
    rw [show (⟨D ++ (intDec i ++ R), D.length + 1, l, c + 1⟩ : PState)
      = ⟨(D ++ [45]) ++ (natDec i.natAbs ++ R), (D ++ [45]).length, l, c + 1⟩ by
        simp [hd1]]
    rw [hrun]
    simp only [Except.bind]
    have hbnd : byteAt ⟨(D ++ [45]) ++ (natDec i.natAbs ++ R),
        (D ++ [45]).length + (natDec i.natAbs).length, l2, c2⟩ = some (R.getD 0 0) := by
      have hshape : (⟨(D ++ [45]) ++ (natDec i.natAbs ++ R),
          (D ++ [45]).length + (natDec i.natAbs).length, l2, c2⟩ : PState)
        = ⟨((D ++ [45]) ++ natDec i.natAbs) ++ R,
            ((D ++ [45]) ++ natDec i.natAbs).length, l2, c2⟩ := by simp; omega
      rw [hshape]
      exact byteAt_after _ R l2 c2
    rw [hbnd]
    refine ⟨l2, c2, ?_⟩
    have hslice : (((D ++ [45]) ++ (natDec i.natAbs ++ R)).drop D.length).take
        ((D ++ [45]).length + (natDec i.natAbs).length - D.length) = intDec i := by
      rw [show (D ++ [45]) ++ (natDec i.natAbs ++ R) = D ++ (intDec i ++ R) by
        rw [hX]; simp]
      rw [List.drop_left D (intDec i ++ R)]
      have harith : (D ++ [45]).length + (natDec i.natAbs).length - D.length
          = (intDec i).length := by rw [hX]; simp; omega
      rw [harith]
      exact List.take_left _ _
    split
    · rename_i heq; exact Option.noConfusion heq
    · rename_i c3 heq
      rw [if_neg (by rw [(Option.some.injEq _ _).mp heq] at hR46; exact hR46)]
      rw [hslice, hstoi]
      simp only [Except.bind]
      rw [hd1]
      have : (D ++ [45]).length + (natDec i.natAbs).length
          = D.length + (intDec i).length := by rw [hX]; simp; omega
      rw [this]
      congr 1
      congr 1
      simp
  · have hX : intDec i = natDec i.natAbs := by simp [intDec, hi]
    obtain ⟨d, ds2, hds⟩ := List.exists_cons_of_ne_nil (natDec_ne_nil i.natAbs)
    have hd0 := natDec_digits i.natAbs d (by rw [hds]; simp)
    have hb : byteAt ⟨D ++ (intDec i ++ R), D.length, l, c⟩ = some d := by
      rw [show D ++ (intDec i ++ R) = D ++ d :: (ds2 ++ R) by rw [hX, hds]; simp]
      exact byteAt_head D (ds2 ++ R) d l c
    rw [parseNumber_eq f _ d hb, if_neg (by omega)]
    simp only [Except.bind]
    obtain ⟨l2, c2, hrun⟩ := digitRun_ok (natDec i.natAbs) f D R l c
      (fun b hb2 => by have := natDec_digits i.natAbs b hb2; simp [isDigitB]; omega)
      (fun b hb2 => (hR b hb2).1) (by rw [hX] at hf; omega)
    rw [show (⟨D ++ (intDec i ++ R), D.length, l, c⟩ : PState)
      = ⟨D ++ (natDec i.natAbs ++ R), D.length, l, c⟩ by simp [hX]]
    rw [hrun]
    simp only [Except.bind]
    have hbnd : byteAt ⟨D ++ (natDec i.natAbs ++ R),
        D.length + (natDec i.natAbs).length, l2, c2⟩ = some (R.getD 0 0) := by
      have hshape : (⟨D ++ (natDec i.natAbs ++ R),
          D.length + (natDec i.natAbs).length, l2, c2⟩ : PState)
        = ⟨(D ++ natDec i.natAbs) ++ R, (D ++ natDec i.natAbs).length, l2, c2⟩ := by simp
      rw [hshape]
      exact byteAt_after _ R l2 c2
    rw [hbnd]
    refine ⟨l2, c2, ?_⟩
    have hslice : ((D ++ (natDec i.natAbs ++ R)).drop D.length).take
        (D.length + (natDec i.natAbs).length - D.length) = intDec i := by
      rw [List.drop_left D (natDec i.natAbs ++ R)]
      have harith : D.length + (natDec i.natAbs).length - D.length
          = (intDec i).length := by rw [hX]; omega
      rw [harith, hX]
      exact List.take_left _ _
    split
    · rename_i heq; exact Option.noConfusion heq
    · rename_i c3 heq
      rw [if_neg (by rw [(Option.some.injEq _ _).mp heq] at hR46; exact hR46)]
      rw [hslice, hstoi]
      simp only [Except.bind]
      rw [show D ++ (natDec i.natAbs ++ R) = D ++ (intDec i ++ R) by rw [hX]]
      rw [show D.length + (natDec i.natAbs).length = D.length + (intDec i).length by
        rw [hX]]

/-- per-byte escaping of the serializer on the printable fragment. -/
def escChar (b : Nat) : List Nat :=
  if b = 34 then [92, 34] else if b = 92 then [92, 92] else [b]

/-- serialized body of a printable string. -/
def escBody (s : List Nat) : List Nat := s.flatMap escChar

theorem dumpStringByte_printable (b : Nat) (h1 : 32 ≤ b) (h2 : b ≤ 126) :
    dumpStringByte b = (escChar b, false) := by
  unfold dumpStringByte escChar
  have hs : signedVal b = (b : Int) := if_pos (by omega)
  split_ifs with e1 e2 e3 e4 e5 e6 e7 e8 <;> first
    | rfl
    | omega

theorem dumpStringBody_printable (s : List Nat) (hs : goodKey s = true) (hx : Bool) :
    dumpStringBody s hx = (escBody s, hx) := by
  induction s generalizing hx with
  | nil => rfl
  | cons b s2 ih =>
    have hb : (32 ≤ b && b ≤ 126) = true := by
      have := List.all_eq_true.mp hs b (by simp)
      exact this
    have hb1 : 32 ≤ b := by simp at hb; omega
    have hb2 : b ≤ 126 := by simp at hb; omega
    have hs2 : goodKey s2 = true := by
      unfold goodKey at hs ⊢
      rw [List.all_cons] at hs
      exact (Bool.and_eq_true _ _ |>.mp hs).2
    show (let rb := dumpStringByte b
      let rr := dumpStringBody s2 (hx || rb.2)
      (rb.1 ++ rr.1, rr.2)) = (escBody (b :: s2), hx)
    rw [dumpStringByte_printable b hb1 hb2]
    simp only [Bool.or_false]
    rw [ih hs2]
    rfl

/-- `dumpString` on a printable string: the quoted escaped body, stream
state untouched. -/
theorem dumpString_printable (s : List Nat) (hs : goodKey s = true) (hx : Bool) :
    dumpString s hx = (34 :: escBody s ++ [34], hx) := by
  unfold dumpString
  rw [dumpStringBody_printable s hs hx]

/-- one step of the string loop under a known byte. -/
theorem parseStrLoop_step (f : Nat) (acc : List Nat) (st : PState) (b : Nat)
    (hb : byteAt st = some b) :
    parseStrLoop (f + 1) acc st =
      if b = 34 then (advance1 st).bind fun st2 => .ok (.str acc, st2)
      else if b = 92 then
        (advance1 st).bind fun st1 =>
        match byteAt st1 with
        | none => .error .oob
        | some e =>
          match escDecode e with
          | some ch => (advance1 st1).bind (parseStrLoop f (acc ++ [ch]))
          | none => throwErr st1 (strOf "Invalid escape character in string")
      else (advance1 st).bind (parseStrLoop f (acc ++ [b])) := by
  unfold parseStrLoop
  rw [hb]
  rfl

/-- the string loop consumes the escaped body and the closing quote,
accumulating exactly the original bytes. -/
theorem parseStrLoop_ok : ∀ (s acc : List Nat) (f : Nat) (D R : List Nat) (l c : Nat),
    goodKey s = true → (escBody s).length < f →
    ∃ l2 c2, parseStrLoop f acc ⟨D ++ ((escBody s ++ [34]) ++ R), D.length, l, c⟩
      = .ok (.str (acc ++ s), ⟨D ++ ((escBody s ++ [34]) ++ R),
          D.length + ((escBody s).length + 1), l2, c2⟩) := by
  intro s
  induction s with
  | nil =>
    intro acc f D R l c _ hf
    obtain ⟨f2, rfl⟩ : ∃ f2, f = f2 + 1 := ⟨f - 1, by omega⟩
    have hd : D ++ ((escBody [] ++ [34]) ++ R) = D ++ 34 :: R := by
      simp [escBody]
    rw [hd]
    have hb := byteAt_head D R 34 l c
    rw [parseStrLoop_step f2 acc _ 34 hb, if_pos rfl, advance1_some _ 34 hb]
    simp only [Except.bind]
    refine ⟨l, c + 1, ?_⟩
    simp [escBody]
  | cons b s2 ih =>
    intro acc f D R l c hgood hf
    obtain ⟨f2, rfl⟩ : ∃ f2, f = f2 + 1 := ⟨f - 1, by omega⟩
    have hb126 : (32 ≤ b && b ≤ 126) = true := List.all_eq_true.mp hgood b (by simp)
    have hb1 : 32 ≤ b := by simp at hb126; omega
    have hb2 : b ≤ 126 := by simp at hb126; omega
    have hg2 : goodKey s2 = true := by
      unfold goodKey at hgood ⊢
      rw [List.all_cons] at hgood
      exact ((Bool.and_eq_true _ _).mp hgood).2
    have hlen : (escBody (b :: s2)).length = (escChar b).length + (escBody s2).length := by
      simp [escBody]
    by_cases hq : b = 34 ∨ b = 92
    · -- escaped byte: two bytes 92, b in the body; escDecode maps b back to itself
      have hesc : escChar b = [92, b] := by
        rcases hq with rfl | rfl <;> rfl
      have hdec : escDecode b = some b := by
        rcases hq with rfl | rfl <;> rfl
      have hd : D ++ ((escBody (b :: s2) ++ [34]) ++ R)
          = D ++ 92 :: (b :: ((escBody s2 ++ [34]) ++ R)) := by
        show D ++ (((b :: s2).flatMap escChar ++ [34]) ++ R) = _
        rw [List.flatMap_cons, hesc]
        simp [escBody]
      rw [hd]
      have hb0 := byteAt_head D (b :: ((escBody s2 ++ [34]) ++ R)) 92 l c
      rw [parseStrLoop_step f2 acc _ 92 hb0, if_neg (by omega), if_pos rfl,
        advance1_some _ 92 hb0]
      simp only [Except.bind, show ((92 : Nat) = 10) = False by simp, if_false]
      have hsh1 : (⟨D ++ 92 :: (b :: ((escBody s2 ++ [34]) ++ R)),
          D.length + 1, l, c + 1⟩ : PState)
          = ⟨(D ++ [92]) ++ b :: ((escBody s2 ++ [34]) ++ R),
              (D ++ [92]).length, l, c + 1⟩ := by
        simp
      rw [hsh1]
      have hb1b := byteAt_head (D ++ [92]) ((escBody s2 ++ [34]) ++ R) b l (c + 1)
      simp only [hb1b, hdec]
      rw [advance1_some _ b hb1b]
      rw [if_neg (show ¬ b = 10 by omega), if_neg (show ¬ b = 10 by omega)]
      simp only [Except.bind]
      have hsh2 : (⟨(D ++ [92]) ++ b :: ((escBody s2 ++ [34]) ++ R),
          (D ++ [92]).length + 1, l, c + 1 + 1⟩ : PState)
          = ⟨(D ++ [92, b]) ++ ((escBody s2 ++ [34]) ++ R),
              (D ++ [92, b]).length, l, c + 2⟩ := by
        simp
      rw [hsh2]
      obtain ⟨l2, c2, hrec⟩ := ih (acc ++ [b]) f2 (D ++ [92, b]) R l (c + 2) hg2
        (by rw [hlen, hesc] at hf; simp at hf ⊢; omega)
      rw [hrec]
      refine ⟨l2, c2, ?_⟩
      have hdata : (D ++ [92, b]) ++ ((escBody s2 ++ [34]) ++ R)
          = D ++ ((escBody (b :: s2) ++ [34]) ++ R) := by
        show _ = D ++ (((b :: s2).flatMap escChar ++ [34]) ++ R)
        rw [List.flatMap_cons, hesc]
        simp [escBody]
      have hpos : (D ++ [92, b]).length + ((escBody s2).length + 1)
          = D.length + ((escBody (b :: s2)).length + 1) := by
        rw [hlen, hesc]
        simp
        omega
      rw [hdata, hpos]
      simp [escBody, hesc]
    · -- plain byte: passes through unescaped
      have hesc : escChar b = [b] := by
        unfold escChar
        rw [if_neg (by omega), if_neg (by omega)]
      have hd : D ++ ((escBody (b :: s2) ++ [34]) ++ R)
          = D ++ b :: ((escBody s2 ++ [34]) ++ R) := by
        show D ++ (((b :: s2).flatMap escChar ++ [34]) ++ R) = _
        rw [List.flatMap_cons, hesc]
        simp [escBody]
      rw [hd]
      have hb0 := byteAt_head D ((escBody s2 ++ [34]) ++ R) b l c
      rw [parseStrLoop_step f2 acc _ b hb0,
        if_neg (by omega), if_neg (by omega), advance1_some _ b hb0]
      rw [if_neg (show ¬ b = 10 by omega), if_neg (show ¬ b = 10 by omega)]
      simp only [Except.bind]
      have hsh1 : (⟨D ++ b :: ((escBody s2 ++ [34]) ++ R),
          D.length + 1, l, c + 1⟩ : PState)
          = ⟨(D ++ [b]) ++ ((escBody s2 ++ [34]) ++ R),
              (D ++ [b]).length, l, c + 1⟩ := by
        simp
      rw [hsh1]
      obtain ⟨l2, c2, hrec⟩ := ih (acc ++ [b]) f2 (D ++ [b]) R l (c + 1) hg2
        (by rw [hlen, hesc] at hf; simp at hf ⊢; omega)
      rw [hrec]
      refine ⟨l2, c2, ?_⟩
      have hdata : (D ++ [b]) ++ ((escBody s2 ++ [34]) ++ R)
          = D ++ ((escBody (b :: s2) ++ [34]) ++ R) := by
        show _ = D ++ (((b :: s2).flatMap escChar ++ [34]) ++ R)
        rw [List.flatMap_cons, hesc]
        simp [escBody]
      have hpos : (D ++ [b]).length + ((escBody s2).length + 1)
          = D.length + ((escBody (b :: s2)).length + 1) := by
        rw [hlen, hesc]
        simp
        omega
      rw [hdata, hpos]
      simp [escBody, hesc]

/-- JSONParser::parseString on a printable-string serialization: consumes the
opening quote, the escaped body and the closing quote and returns the original
bytes. -/
theorem parseString_ok (s : List Nat) (f : Nat) (D R : List Nat) (l c : Nat)
    (hgood : goodKey s = true) (hf : (escBody s).length < f) :
    ∃ l2 c2, parseString f ⟨D ++ ((34 :: (escBody s ++ [34])) ++ R), D.length, l, c⟩
      = .ok (.str s, ⟨D ++ ((34 :: (escBody s ++ [34])) ++ R),
          D.length + ((escBody s).length + 2), l2, c2⟩) := by
  have hd : D ++ ((34 :: (escBody s ++ [34])) ++ R)
      = D ++ 34 :: ((escBody s ++ [34]) ++ R) := by simp
  rw [hd]
  have hb := byteAt_head D ((escBody s ++ [34]) ++ R) 34 l c
  unfold parseString
  rw [advance1_some _ 34 hb]
  simp only [Except.bind, bind, if_neg (show ¬ (34 : Nat) = 10 by omega)]
  have hsh : (⟨D ++ 34 :: ((escBody s ++ [34]) ++ R), D.length + 1, l, c + 1⟩ : PState)
      = ⟨(D ++ [34]) ++ ((escBody s ++ [34]) ++ R), (D ++ [34]).length, l, c + 1⟩ := by
    simp
  rw [hsh]
  obtain ⟨l2, c2, hrec⟩ := parseStrLoop_ok s [] f (D ++ [34]) R l (c + 1) hgood hf
  rw [hrec]
  refine ⟨l2, c2, ?_⟩
  simp
  omega

mutual
/-- on the good fragment no `\u` escape is emitted, so the stream's hex flag
comes out as it went in. -/
theorem dumpValue_flag : ∀ (v : JSON) (hx : Bool) (lv ind : Int),
    good v = true → (dumpValue v hx lv ind).2 = hx
  | .null, _, _, _, _ => rfl
  | .boolean _, _, _, _, _ => rfl
  | .integer _, _, _, _, _ => rfl
  | .double _, _, _, _, h => by simp [good] at h
  | .str s, hx, _, _, h => by
    have hk : goodKey s = true := h
    show (dumpString s hx).2 = hx
    rw [dumpString_printable s hk hx]
  | .arr a, hx, lv, ind, h => by
    show (dumpItems a hx (JArr.any isContainer a && decide (0 < ind)) lv ind).2 = hx
    exact dumpItems_flag a hx _ lv ind h
  | .obj o, hx, lv, ind, h => by
    show (dumpMembers o hx lv ind).2 = hx
    exact dumpMembers_flag o hx lv ind h

/-- hex-flag threading through the array element loop. -/
theorem dumpItems_flag : ∀ (a : JArr) (hx p : Bool) (lv ind : Int),
    goodArr a = true → (dumpItems a hx p lv ind).2 = hx
  | .nil, _, _, _, _, _ => rfl
  | .cons x t, hx, p, lv, ind, h => by
    have h2 := (Bool.and_eq_true _ _).mp h
    show (dumpItems t (dumpValue x hx (lv + ind) ind).2 p lv ind).2 = hx
    rw [dumpValue_flag x hx (lv + ind) ind h2.1]
    exact dumpItems_flag t hx p lv ind h2.2

/-- hex-flag threading through the object member loop. -/
theorem dumpMembers_flag : ∀ (o : JObj) (hx : Bool) (lv ind : Int),
    goodObj o = true → (dumpMembers o hx lv ind).2 = hx
  | .nil, _, _, _, _ => rfl
  | .cons k v t, hx, lv, ind, h => by
    have h2 := (Bool.and_eq_true _ _).mp h
    have h3 := (Bool.and_eq_true _ _).mp h2.1
    have h4 := (Bool.and_eq_true _ _).mp h3.1
    show (dumpMembers t (dumpValue v (dumpString k hx).2 (lv + ind) ind).2 lv ind).2 = hx
    rw [dumpString_printable k h4.1 hx]
    show (dumpMembers t (dumpValue v hx (lv + ind) ind).2 lv ind).2 = hx
    rw [dumpValue_flag v hx (lv + ind) ind h4.2]
    exact dumpMembers_flag t hx lv ind h2.2
end

/-- the first byte of a good dump: nonempty, not whitespace, not a closing
bracket. -/
theorem dumpValue_head (v : JSON) (lv : Int) (h : good v = true) :
    ∃ b T, (dumpValue v false lv 4).1 = b :: T ∧ isSpaceB b = false
      ∧ b ≠ 93 ∧ b ≠ 125 := by
  cases v with
  | null => exact ⟨110, _, rfl, by decide, by decide, by decide⟩
  | boolean b =>
    cases b
    · exact ⟨102, _, rfl, by decide, by decide, by decide⟩
    · exact ⟨116, _, rfl, by decide, by decide, by decide⟩
  | integer i =>
    by_cases hi : i < 0
    · refine ⟨45, natDec i.natAbs, ?_, by decide, by decide, by decide⟩
      show intDec i = _
      simp [intDec, hi]
    · obtain ⟨d, ds, hds⟩ := List.exists_cons_of_ne_nil (natDec_ne_nil i.natAbs)
      have hd := natDec_digits i.natAbs d (by rw [hds]; simp)
      refine ⟨d, ds, ?_, by simp [isSpaceB]; omega, by omega, by omega⟩
      show intDec i = _
      simp [intDec, hi, hds]
  | double q => simp [good] at h
  | str s =>
    refine ⟨34, escBody s ++ [34], ?_, by decide, by decide, by decide⟩
    show (dumpString s false).1 = _
    rw [dumpString_printable s h false]
    rfl
  | arr a => exact ⟨91, _, rfl, by decide, by decide, by decide⟩
  | obj o => exact ⟨123, _, rfl, by decide, by decide, by decide⟩

/-- the indentation run is whitespace. -/
theorem wsRun_spaces (k : Int) : wsRun (spacesI k) := by
  intro b hb
  have hb2 : b = 32 := by
    rw [spacesI] at hb
    exact (List.mem_replicate.mp hb).2
  subst hb2
  exact ⟨rfl, by omega⟩

theorem wsRun_nil : wsRun [] := by intro b hb; simp at hb

theorem wsRun_nl_spaces (k : Int) : wsRun (10 :: spacesI k) := by
  intro b hb
  rcases List.mem_cons.mp hb with rfl | hb2
  · exact ⟨rfl, by omega⟩
  · exact wsRun_spaces k b hb2

/-- whitespace the parser skips between `[` and the close bracket or the
first element (the newline-plus-indent of a pretty array, nothing when
compact or empty). -/
def arrPre (p : Bool) (lv : Int) : JArr → List Nat
  | .nil => []
  | .cons _ _ => if p then 10 :: spacesI (lv + 4) else []

/-- the bytes of a dumped array from the first element (or the closing
bracket when empty) through the closing bracket. -/
def arrTail (p : Bool) (lv : Int) : JArr → List Nat
  | .nil => [93]
  | .cons x t => (dumpValue x false (lv + 4) 4).1 ++
      (match t with
       | .nil => (if p then 10 :: spacesI lv else []) ++ [93]
       | .cons _ _ => (if p then 44 :: 10 :: spacesI (lv + 4) else [44, 32])
           ++ arrTail p lv t)

/-- whitespace between `{` and the close brace or the first key. -/
def objPre (lv : Int) : JObj → List Nat
  | .nil => 10 :: spacesI lv
  | .cons _ _ _ => 10 :: spacesI (lv + 4)

/-- the bytes of a dumped object from the first key (or the closing brace
when empty) through the closing brace. -/
def objTail (lv : Int) : JObj → List Nat
  | .nil => [125]
  | .cons k v t => (34 :: (escBody k ++ [34])) ++
      58 :: 32 :: ((dumpValue v false (lv + 4) 4).1 ++
      (match t with
       | .nil => 10 :: (spacesI lv ++ [125])
       | .cons _ _ _ => 44 :: 10 :: (spacesI (lv + 4) ++ objTail lv t)))

/-- the element-loop output followed by the array close re-grouped as
element texts and separators. -/
theorem arrClose_eq (p : Bool) (lv : Int) : ∀ (t : JArr) (x : JSON),
    good x = true → goodArr t = true →
    (dumpItems (JArr.cons x t) false p lv 4).1 ++ ((if p then spacesI lv else []) ++ [93])
      = (if p then spacesI (lv + 4) else []) ++ arrTail p lv (.cons x t) := by
  intro t
  induction t with
  | nil =>
    intro x _ _
    cases p <;> simp [dumpItems, arrTail]
  | cons y u ih =>
    intro x hx hyu
    have hg := (Bool.and_eq_true _ _).mp hyu
    rw [show (dumpItems (JArr.cons x (JArr.cons y u)) false p lv 4).1
        = (if p then spacesI (lv + 4) else []) ++ (dumpValue x false (lv + 4) 4).1
          ++ (if p then [44] else [44, 32]) ++ (if p then [10] else [])
          ++ (dumpItems (JArr.cons y u) (dumpValue x false (lv + 4) 4).2 p lv 4).1
      from rfl]
    rw [dumpValue_flag x false (lv + 4) 4 hx]
    have hiht := ih y hg.1 hg.2
    rw [show arrTail p lv (.cons x (.cons y u))
        = (dumpValue x false (lv + 4) 4).1 ++
          ((if p then 44 :: 10 :: spacesI (lv + 4) else [44, 32])
            ++ arrTail p lv (.cons y u)) from rfl]
    simp only [List.append_assoc]
    rw [hiht]
    cases p <;> simp

/-- a dumped array is the bracket, the leading whitespace and the tail. -/
theorem arrOut_eq (a : JArr) (lv : Int) (h : goodArr a = true) :
    (dumpValue (.arr a) false lv 4).1
      = 91 :: (arrPre (JArr.any isContainer a) lv a
          ++ arrTail (JArr.any isContainer a) lv a) := by
  cases a with
  | nil => rfl
  | cons x t =>
    have hg := (Bool.and_eq_true _ _).mp h
    have he : (dumpValue (.arr (.cons x t)) false lv 4).1
        = ((91 :: (if (JArr.any isContainer (.cons x t) && decide ((0 : Int) < 4))
              then [10] else []))
            ++ (dumpItems (.cons x t) false
                  (JArr.any isContainer (.cons x t) && decide ((0 : Int) < 4)) lv 4).1
            ++ (if (JArr.any isContainer (.cons x t) && decide ((0 : Int) < 4))
                  then spacesI lv else [])) ++ [93] := rfl
    have hp : (JArr.any isContainer (.cons x t) && decide ((0 : Int) < 4))
        = JArr.any isContainer (.cons x t) := by simp
    rw [he, hp]
    simp only [List.append_assoc, List.cons_append]
    rw [arrClose_eq (JArr.any isContainer (.cons x t)) lv t x hg.1 hg.2]
    cases hany : JArr.any isContainer (.cons x t) <;> simp [hany, arrPre]

/-- the member-loop output followed by the object close re-grouped as
key/value texts and separators. -/
theorem objClose_eq (lv : Int) : ∀ (t : JObj) (k : List Nat) (v : JSON),
    goodKey k = true → good v = true → goodObj t = true →
    (dumpMembers (JObj.cons k v t) false lv 4).1 ++ (spacesI lv ++ [125])
      = spacesI (lv + 4) ++ objTail lv (.cons k v t) := by
  intro t
  induction t with
  | nil =>
    intro k v hk hv _
    have he : (dumpMembers (.cons k v .nil) false lv 4).1
        = spacesI (lv + 4) ++ (dumpString k false).1 ++ (58 :: [32])
          ++ (dumpValue v (dumpString k false).2 (lv + 4) 4).1 ++ [] ++ [10] ++ [] := rfl
    rw [he, dumpString_printable k hk false]
    simp [objTail]
  | cons k2 v2 u ih =>
    intro k v hk hv ht
    have h2 := (Bool.and_eq_true _ _).mp ht
    have h3 := (Bool.and_eq_true _ _).mp h2.1
    have h4 := (Bool.and_eq_true _ _).mp h3.1
    have he : (dumpMembers (.cons k v (.cons k2 v2 u)) false lv 4).1
        = spacesI (lv + 4) ++ (dumpString k false).1 ++ (58 :: [32])
          ++ (dumpValue v (dumpString k false).2 (lv + 4) 4).1 ++ [44] ++ [10]
          ++ (dumpMembers (.cons k2 v2 u)
                (dumpValue v (dumpString k false).2 (lv + 4) 4).2 lv 4).1 := rfl
    rw [he, dumpString_printable k hk false]
    have hfl : (dumpValue v ((34 :: (escBody k ++ [34]), false) : List Nat × Bool).2
        (lv + 4) 4).2 = false := dumpValue_flag v false (lv + 4) 4 hv
    rw [hfl]
    have hiht := ih k2 v2 h4.1 h4.2 h2.2
    simp only [List.append_assoc, List.cons_append]
    rw [hiht]
    simp [objTail]

/-- a dumped object is the brace, the leading whitespace and the tail. -/
theorem objOut_eq (o : JObj) (lv : Int) (h : goodObj o = true) :
    (dumpValue (.obj o) false lv 4).1 = 123 :: (objPre lv o ++ objTail lv o) := by
  cases o with
  | nil =>
    show ((123 :: [10]) ++ [] ++ spacesI lv) ++ [125] = _
    simp [objPre, objTail]
  | cons k v t =>
    have h2 := (Bool.and_eq_true _ _).mp h
    have h3 := (Bool.and_eq_true _ _).mp h2.1
    have h4 := (Bool.and_eq_true _ _).mp h3.1
    have he : (dumpValue (.obj (.cons k v t)) false lv 4).1
        = ((123 :: [10]) ++ (dumpMembers (.cons k v t) false lv 4).1
            ++ spacesI lv) ++ [125] := rfl
    rw [he]
    simp only [List.append_assoc, List.cons_append]
    rw [objClose_eq lv t k v h4.1 h4.2 h2.2]
    simp [objPre]

/-- the byte after a dumped value never extends a number token: not a digit
and not `'.'`. -/
def delimR (R : List Nat) : Prop :=
  ∀ b, R.head? = some b → isDigitB b = false ∧ b ≠ 46

theorem delimR_nil : delimR [] := by intro b hb; simp at hb

theorem delimR_cons (b : Nat) (T : List Nat) (h1 : isDigitB b = false) (h2 : b ≠ 46) :
    delimR (b :: T) := by
  intro b2 hb2
  simp at hb2
  subst hb2
  exact ⟨h1, h2⟩

/-- every key of `acc` is below every key of `t`. -/
def JObj.belowAll : JObj → JObj → Bool
  | _, .nil => true
  | acc, .cons k _ t => JObj.allLt acc k && JObj.belowAll acc t

theorem belowAll_snoc (acc : JObj) (k : List Nat) (v : JSON) :
    ∀ (t : JObj), JObj.belowAll acc t = true → keyLtAll k t = true →
    JObj.belowAll (acc.snoc k v) t = true := by
  intro t
  induction t with
  | nil => intro _ _; rfl
  | cons k2 v2 u ih =>
    intro h1 h2
    have h1' := (Bool.and_eq_true _ _).mp h1
    have h2' := (Bool.and_eq_true _ _).mp h2
    show (JObj.allLt (acc.snoc k v) k2 && JObj.belowAll (acc.snoc k v) u) = true
    rw [allLt_snoc acc k v k2 h1'.1 h2'.1, ih h1'.2 h2'.2]
    rfl

/-- `parseValue` after its whitespace skip: the dispatch on the lookahead. -/
theorem parseValue_dispatch (f : Nat) (st st2 : PState) (b : Nat)
    (hws : skipWS (f + 1) st = .ok st2) (hb : byteAt st2 = some b) :
    parseValue (f + 1) st =
      if b = 123 then parseObject f st2
      else if b = 91 then parseArray f st2
      else if b = 34 then parseString (f + 1) st2
      else if b = 116 || b = 102 then parseBoolean st2
      else if b = 110 then parseNull st2
      else if b = 45 || isDigitB b then parseNumber (f + 1) st2
      else throwErr st2 (strOf "Unexpected character in JSON") := by
  rw [parseValue_unfold, hws]
  simp only [Except.bind]
  rw [hb]

theorem notWsHead_cons (b : Nat) (T : List Nat) (h : isSpaceB b = false) :
    notWsHead (b :: T) := by
  intro b2 hb2
  simp at hb2
  subst hb2
  exact h

theorem wsRun_if (p : Bool) (k : Int) : wsRun (if p then 10 :: spacesI k else []) := by
  cases p
  · exact wsRun_nil
  · exact wsRun_nl_spaces k

theorem belowAll_nil : ∀ t : JObj, JObj.belowAll .nil t = true
  | .nil => rfl
  | .cons k v t => by
    show (JObj.allLt .nil k && JObj.belowAll .nil t) = true
    rw [belowAll_nil t]
    rfl

/-- JSONParser::parseArray unfolded one step. -/
theorem parseArray_step (f : Nat) (st : PState) :
    parseArray (f + 1) st = (advance1 st).bind fun st1 =>
      (skipWS (f + 1) st1).bind fun st2 => parseArrLoop f .nil st2 := rfl

/-- JSONParser::parseObject unfolded one step. -/
theorem parseObject_step (f : Nat) (st : PState) :
    parseObject (f + 1) st = (advance1 st).bind fun st1 =>
      (skipWS (f + 1) st1).bind fun st2 => parseObjLoop f .nil st2 := rfl

/-- the element loop at the closing bracket. -/
theorem parseArrLoop_close (f : Nat) (acc : JArr) (st : PState)
    (hb : byteAt st = some 93) :
    parseArrLoop (f + 1) acc st
      = (advance1 st).bind fun st2 => .ok (.arr acc, st2) := by
  unfold parseArrLoop
  rw [hb]
  rfl

/-- the element loop at an element: the parsed value is pushed and the loop
continues after the optional comma. -/
theorem parseArrLoop_elem (f : Nat) (acc : JArr) (st : PState) (b : Nat)
    (v : JSON) (stv : PState)
    (hb : byteAt st = some b) (hne : b ≠ 93)
    (hval : parseValue f st = .ok (v, stv)) :
    parseArrLoop (f + 1) acc st = (skipWS (f + 1) stv).bind fun st3 =>
      match byteAt st3 with
      | none => .error .oob
      | some c2 =>
        if c2 = 44 then (advance1 st3).bind fun st4 =>
          (skipWS (f + 1) st4).bind fun st5 => parseArrLoop f (acc.push v) st5
        else parseArrLoop f (acc.push v) st3 := by
  simp only [parseArrLoop, hb]
  rw [if_neg hne, hval]
  rfl

/-- the member loop at the closing brace. -/
theorem parseObjLoop_close (f : Nat) (acc : JObj) (st : PState)
    (hb : byteAt st = some 125) :
    parseObjLoop (f + 1) acc st
      = (advance1 st).bind fun st2 => .ok (.obj acc, st2) := by
  unfold parseObjLoop
  rw [hb]
  rfl

/-- the member loop at a member: key, colon and value succeed, the entry is
inserted and the loop continues after the optional comma. -/
theorem parseObjLoop_elem (f : Nat) (acc : JObj) (st : PState) (b : Nat)
    (key : List Nat) (stk st3 st4 : PState) (v : JSON) (stv : PState)
    (hb : byteAt st = some b) (hne : b ≠ 125)
    (hkey : parseString (f + 1) st = .ok (.str key, stk))
    (hsk : skipWS (f + 1) stk = .ok st3)
    (hb2 : byteAt st3 = some 58)
    (hadv : advance1 st3 = .ok st4)
    (hval : parseValue f st4 = .ok (v, stv)) :
    parseObjLoop (f + 1) acc st = (skipWS (f + 1) stv).bind fun st5 =>
      match byteAt st5 with
      | none => .error .oob
      | some c3 =>
        if c3 = 44 then (advance1 st5).bind fun st6 =>
          (skipWS (f + 1) st6).bind fun st7 => parseObjLoop f (acc.insert key v) st7
        else parseObjLoop f (acc.insert key v) st5 := by
  simp only [parseObjLoop, hb]
  rw [if_neg hne, hkey]
  simp only [bind, Except.bind, getStringTrait]
  rw [hsk]
  simp only [bind, Except.bind]
  simp only [hb2]
  rw [if_neg (show ¬(58 : Nat) ≠ 58 by simp)]
  rw [hadv]
  simp only [bind, Except.bind]
  rw [hval]

theorem PState.mk_eq (d1 d2 : List Nat) (p1 p2 l1 l2 c1 c2 : Nat)
    (hd : d1 = d2) (hp : p1 = p2) (hl : l1 = l2) (hc : c1 = c2) :
    (⟨d1, p1, l1, c1⟩ : PState) = ⟨d2, p2, l2, c2⟩ := by
  subst hd
  subst hp
  subst hl
  subst hc
  rfl

/-- the byte after the tail of a dumped array does not extend a number. -/
theorem arrTail_notWs (p : Bool) (lv : Int) (a : JArr) (h : goodArr a = true)
    (R : List Nat) : notWsHead (arrTail p lv a ++ R) := by
  cases a with
  | nil => exact notWsHead_cons 93 R (by decide)
  | cons x t =>
    obtain ⟨b, T, hbT, hnws, _, _⟩ :=
      dumpValue_head x (lv + 4) ((Bool.and_eq_true _ _).mp h).1
    cases t with
    | nil =>
      have hd : arrTail p lv (.cons x .nil) ++ R
          = b :: (T ++ (((if p then 10 :: spacesI lv else []) ++ [93]) ++ R)) := by
        show ((dumpValue x false (lv + 4) 4).1
          ++ ((if p then 10 :: spacesI lv else []) ++ [93])) ++ R = _
        rw [hbT]
        simp
      rw [hd]
      exact notWsHead_cons b _ hnws
    | cons y u =>
      have hd : arrTail p lv (.cons x (.cons y u)) ++ R
          = b :: (T ++ (((if p then 44 :: 10 :: spacesI (lv + 4) else [44, 32])
              ++ arrTail p lv (.cons y u)) ++ R)) := by
        show ((dumpValue x false (lv + 4) 4).1
          ++ ((if p then 44 :: 10 :: spacesI (lv + 4) else [44, 32])
              ++ arrTail p lv (.cons y u))) ++ R = _
        rw [hbT]
        simp
      rw [hd]
      exact notWsHead_cons b _ hnws

/-- the first byte of the tail of a dumped object stops the whitespace
skip. -/
theorem objTail_notWs (lv : Int) (o : JObj) (R : List Nat) :
    notWsHead (objTail lv o ++ R) := by
  cases o with
  | nil => exact notWsHead_cons 125 R (by decide)
  | cons k v t =>
    cases t with
    | nil => exact notWsHead_cons 34 _ (by decide)
    | cons k2 v2 u => exact notWsHead_cons 34 _ (by decide)

theorem wsRun_sep (p : Bool) (k : Int) : wsRun (if p then 10 :: spacesI k else [32]) := by
  cases p
  · intro b hb
    simp at hb
    subst hb
    exact ⟨rfl, by omega⟩
  · exact wsRun_nl_spaces k

theorem wsRun_arrPre (p : Bool) (lv : Int) (a : JArr) : wsRun (arrPre p lv a) := by
  cases a
  · exact wsRun_nil
  · exact wsRun_if p (lv + 4)

theorem wsRun_objPre (lv : Int) (o : JObj) : wsRun (objPre lv o) := by
  cases o
  · exact wsRun_nl_spaces lv
  · exact wsRun_nl_spaces (lv + 4)

theorem wsRun32 : wsRun [32] := by
  intro b hb
  simp at hb
  subst hb
  exact ⟨rfl, by omega⟩

mutual
/-- round-trip: on the good fragment, `parseValue` at a dumped value (after
any leading whitespace) returns exactly that value and stops at the first
byte after the dump. -/
theorem parseValue_dump : ∀ (v : JSON), good v = true →
    ∀ (W R D : List Nat) (l c : Nat) (lv : Int) (f : Nat),
    wsRun W → delimR R →
    2 * (W.length + (dumpValue v false lv 4).1.length) + 2 ≤ f →
    ∃ l2 c2, parseValue f ⟨D ++ (W ++ ((dumpValue v false lv 4).1 ++ R)), D.length, l, c⟩
      = .ok (v, ⟨D ++ (W ++ ((dumpValue v false lv 4).1 ++ R)),
          D.length + (W.length + (dumpValue v false lv 4).1.length), l2, c2⟩)
  | .null, _ => by
    intro W R D l c lv f hW hR hf
    have hout : (dumpValue JSON.null false lv 4).1 = strOf "null" := rfl
    rw [hout] at hf ⊢
    have hlen : (strOf "null").length = 4 := rfl
    rw [hlen] at hf
    obtain ⟨f1, rfl⟩ : ∃ f1, f = f1 + 1 := ⟨f - 1, by omega⟩
    have hnws : notWsHead (strOf "null" ++ R) := notWsHead_cons 110 _ (by decide)
    obtain ⟨lw, cw, hws⟩ := skipWS_ok W (f1 + 1) D (strOf "null" ++ R) l c hW hnws
      (by omega)
    have hst : (⟨D ++ (W ++ (strOf "null" ++ R)), D.length + W.length, lw, cw⟩ : PState)
        = ⟨(D ++ W) ++ (strOf "null" ++ R), (D ++ W).length, lw, cw⟩ := by simp
    rw [hst] at hws
    have hb : byteAt ⟨(D ++ W) ++ (strOf "null" ++ R), (D ++ W).length, lw, cw⟩
        = some 110 := byteAt_head (D ++ W) (strOf "ull" ++ R) 110 lw cw
    obtain ⟨l2, c2, hn⟩ := parseNull_ok (D ++ W) R lw cw
    refine ⟨l2, c2, ?_⟩
    rw [parseValue_dispatch f1 _ _ 110 hws hb,
      if_neg (by decide), if_neg (by decide), if_neg (by decide),
      if_neg (by decide), if_pos rfl, hn]
    rw [PState.mk_eq ((D ++ W) ++ (strOf "null" ++ R)) (D ++ (W ++ (strOf "null" ++ R)))
      ((D ++ W).length + 4) (D.length + (W.length + 4)) l2 l2 c2 c2
      (by simp) (by simp only [List.length_append]; omega) rfl rfl,
      show (strOf "null").length = 4 from rfl]
  | .boolean b, _ => by
    intro W R D l c lv f hW hR hf
    cases b
    · have hout : (dumpValue (JSON.boolean false) false lv 4).1 = strOf "false" := rfl
      rw [hout] at hf ⊢
      have hlen : (strOf "false").length = 5 := rfl
      rw [hlen] at hf
      obtain ⟨f1, rfl⟩ : ∃ f1, f = f1 + 1 := ⟨f - 1, by omega⟩
      have hnws : notWsHead (strOf "false" ++ R) := notWsHead_cons 102 _ (by decide)
      obtain ⟨lw, cw, hws⟩ := skipWS_ok W (f1 + 1) D (strOf "false" ++ R) l c hW hnws
        (by omega)
      have hst : (⟨D ++ (W ++ (strOf "false" ++ R)), D.length + W.length, lw, cw⟩ : PState)
          = ⟨(D ++ W) ++ (strOf "false" ++ R), (D ++ W).length, lw, cw⟩ := by simp
      rw [hst] at hws
      have hb : byteAt ⟨(D ++ W) ++ (strOf "false" ++ R), (D ++ W).length, lw, cw⟩
          = some 102 := byteAt_head (D ++ W) (strOf "alse" ++ R) 102 lw cw
      obtain ⟨l2, c2, hn⟩ := parseBoolean_false_ok (D ++ W) R lw cw
      refine ⟨l2, c2, ?_⟩
      rw [parseValue_dispatch f1 _ _ 102 hws hb,
        if_neg (by decide), if_neg (by decide), if_neg (by decide),
        if_pos (by decide), hn]
      rw [PState.mk_eq ((D ++ W) ++ (strOf "false" ++ R)) (D ++ (W ++ (strOf "false" ++ R)))
        ((D ++ W).length + 5) (D.length + (W.length + 5)) l2 l2 c2 c2
        (by simp) (by simp only [List.length_append]; omega) rfl rfl,
        show (strOf "false").length = 5 from rfl]
    · have hout : (dumpValue (JSON.boolean true) false lv 4).1 = strOf "true" := rfl
      rw [hout] at hf ⊢
      have hlen : (strOf "true").length = 4 := rfl
      rw [hlen] at hf
      obtain ⟨f1, rfl⟩ : ∃ f1, f = f1 + 1 := ⟨f - 1, by omega⟩
      have hnws : notWsHead (strOf "true" ++ R) := notWsHead_cons 116 _ (by decide)
      obtain ⟨lw, cw, hws⟩ := skipWS_ok W (f1 + 1) D (strOf "true" ++ R) l c hW hnws
        (by omega)
      have hst : (⟨D ++ (W ++ (strOf "true" ++ R)), D.length + W.length, lw, cw⟩ : PState)
          = ⟨(D ++ W) ++ (strOf "true" ++ R), (D ++ W).length, lw, cw⟩ := by simp
      rw [hst] at hws
      have hb : byteAt ⟨(D ++ W) ++ (strOf "true" ++ R), (D ++ W).length, lw, cw⟩
          = some 116 := byteAt_head (D ++ W) (strOf "rue" ++ R) 116 lw cw
      obtain ⟨l2, c2, hn⟩ := parseBoolean_true_ok (D ++ W) R lw cw
      refine ⟨l2, c2, ?_⟩
      rw [parseValue_dispatch f1 _ _ 116 hws hb,
        if_neg (by decide), if_neg (by decide), if_neg (by decide),
        if_pos (by decide), hn]
      rw [PState.mk_eq ((D ++ W) ++ (strOf "true" ++ R)) (D ++ (W ++ (strOf "true" ++ R)))
        ((D ++ W).length + 4) (D.length + (W.length + 4)) l2 l2 c2 c2
        (by simp) (by simp only [List.length_append]; omega) rfl rfl,
        show (strOf "true").length = 4 from rfl]
  | .integer i, h => by
    intro W R D l c lv f hW hR hf
    have hgr := (Bool.and_eq_true _ _).mp h
    have h1 : -(2 ^ 31) ≤ i := of_decide_eq_true hgr.1
    have h2 : i < 2 ^ 31 := of_decide_eq_true hgr.2
    have hout : (dumpValue (JSON.integer i) false lv 4).1 = intDec i := rfl
    rw [hout] at hf ⊢
    obtain ⟨f1, rfl⟩ : ∃ f1, f = f1 + 1 := ⟨f - 1, by omega⟩
    obtain ⟨b0, T, hbT, hnws0, _⟩ :
        ∃ b0 T, intDec i = b0 :: T ∧ isSpaceB b0 = false
          ∧ (b0 = 45 ∨ (48 ≤ b0 ∧ b0 ≤ 57)) := by
      by_cases hi : i < 0
      · exact ⟨45, natDec i.natAbs, by simp [intDec, hi], by decide, Or.inl rfl⟩
      · obtain ⟨d, ds, hds⟩ := List.exists_cons_of_ne_nil (natDec_ne_nil i.natAbs)
        have hdd := natDec_digits i.natAbs d (by rw [hds]; simp)
        exact ⟨d, ds, by simp [intDec, hi, hds], by simp [isSpaceB]; omega,
          Or.inr hdd⟩
    rename_i hcls
    have hnws : notWsHead (intDec i ++ R) := by
      rw [hbT]
      exact notWsHead_cons b0 _ hnws0
    obtain ⟨lw, cw, hws⟩ := skipWS_ok W (f1 + 1) D (intDec i ++ R) l c hW hnws
      (by omega)
    have hst : (⟨D ++ (W ++ (intDec i ++ R)), D.length + W.length, lw, cw⟩ : PState)
        = ⟨(D ++ W) ++ (intDec i ++ R), (D ++ W).length, lw, cw⟩ := by simp
    rw [hst] at hws
    have hb : byteAt ⟨(D ++ W) ++ (intDec i ++ R), (D ++ W).length, lw, cw⟩
        = some b0 := by
      rw [hbT]
      exact byteAt_head (D ++ W) (T ++ R) b0 lw cw
    obtain ⟨l2, c2, hn⟩ := parseNumber_intDec_ok i h1 h2 (D ++ W) R lw cw (f1 + 1)
      hR (by omega)
    refine ⟨l2, c2, ?_⟩
    rw [parseValue_dispatch f1 _ _ b0 hws hb,
      if_neg (by omega), if_neg (by omega), if_neg (by omega),
      if_neg (by simp; omega), if_neg (by omega),
      if_pos (by simp [isDigitB]; omega), hn]
    rw [PState.mk_eq ((D ++ W) ++ (intDec i ++ R)) (D ++ (W ++ (intDec i ++ R)))
      ((D ++ W).length + (intDec i).length) (D.length + (W.length + (intDec i).length))
      l2 l2 c2 c2
      (by simp) (by simp only [List.length_append]; omega) rfl rfl]
  | .str s, h => by
    intro W R D l c lv f hW hR hf
    have hk : goodKey s = true := h
    have hout : (dumpValue (JSON.str s) false lv 4).1 = 34 :: (escBody s ++ [34]) := by
      show (dumpString s false).1 = _
      rw [dumpString_printable s hk false]
      rfl
    rw [hout] at hf ⊢
    have hlO : (34 :: (escBody s ++ [34])).length = (escBody s).length + 2 := by simp
    rw [hlO] at hf
    obtain ⟨f1, rfl⟩ : ∃ f1, f = f1 + 1 := ⟨f - 1, by omega⟩
    have hnws : notWsHead ((34 :: (escBody s ++ [34])) ++ R) :=
      notWsHead_cons 34 _ (by decide)
    obtain ⟨lw, cw, hws⟩ := skipWS_ok W (f1 + 1) D ((34 :: (escBody s ++ [34])) ++ R)
      l c hW hnws (by omega)
    have hst : (⟨D ++ (W ++ ((34 :: (escBody s ++ [34])) ++ R)),
        D.length + W.length, lw, cw⟩ : PState)
        = ⟨(D ++ W) ++ ((34 :: (escBody s ++ [34])) ++ R), (D ++ W).length, lw, cw⟩ := by
      simp
    rw [hst] at hws
    have hb : byteAt ⟨(D ++ W) ++ ((34 :: (escBody s ++ [34])) ++ R),
        (D ++ W).length, lw, cw⟩ = some 34 := by
      have hsh : (D ++ W) ++ ((34 :: (escBody s ++ [34])) ++ R)
          = (D ++ W) ++ 34 :: ((escBody s ++ [34]) ++ R) := by simp
      rw [hsh]
      exact byteAt_head (D ++ W) ((escBody s ++ [34]) ++ R) 34 lw cw
    obtain ⟨l2, c2, hn⟩ := parseString_ok s (f1 + 1) (D ++ W) R lw cw hk (by omega)
    refine ⟨l2, c2, ?_⟩
    rw [parseValue_dispatch f1 _ _ 34 hws hb,
      if_neg (by decide), if_neg (by decide), if_pos rfl, hn]
    rw [PState.mk_eq ((D ++ W) ++ ((34 :: (escBody s ++ [34])) ++ R))
      (D ++ (W ++ ((34 :: (escBody s ++ [34])) ++ R)))
      ((D ++ W).length + ((escBody s).length + 2))
      (D.length + (W.length + (34 :: (escBody s ++ [34])).length)) l2 l2 c2 c2
      (by simp)
      (by simp only [List.length_append, List.length_cons, List.length_nil]; omega)
      rfl rfl]
  | .double q, h => by simp [good] at h
  | .arr a, h => by
    intro W R D l c lv f hW hR hf
    have ha : goodArr a = true := h
    have hout := arrOut_eq a lv ha
    rw [hout] at hf ⊢
    have hlen : (91 :: (arrPre (JArr.any isContainer a) lv a
        ++ arrTail (JArr.any isContainer a) lv a)).length
        = (arrPre (JArr.any isContainer a) lv a).length
          + (arrTail (JArr.any isContainer a) lv a).length + 1 := by
      simp
    rw [hlen] at hf
    obtain ⟨f1, rfl⟩ : ∃ f1, f = f1 + 1 := ⟨f - 1, by omega⟩
    obtain ⟨f2, rfl⟩ : ∃ f2, f1 = f2 + 1 := ⟨f1 - 1, by omega⟩
    have hnws : notWsHead ((91 :: (arrPre (JArr.any isContainer a) lv a
        ++ arrTail (JArr.any isContainer a) lv a)) ++ R) :=
      notWsHead_cons 91 _ (by decide)
    obtain ⟨lw, cw, hws⟩ := skipWS_ok W (f2 + 1 + 1) D
      ((91 :: (arrPre (JArr.any isContainer a) lv a
        ++ arrTail (JArr.any isContainer a) lv a)) ++ R) l c hW hnws (by omega)
    have hst : (⟨D ++ (W ++ ((91 :: (arrPre (JArr.any isContainer a) lv a
          ++ arrTail (JArr.any isContainer a) lv a)) ++ R)),
          D.length + W.length, lw, cw⟩ : PState)
        = ⟨(D ++ W) ++ ((91 :: (arrPre (JArr.any isContainer a) lv a
            ++ arrTail (JArr.any isContainer a) lv a)) ++ R),
            (D ++ W).length, lw, cw⟩ := by
      simp
    rw [hst] at hws
    have hb : byteAt (⟨(D ++ W) ++ ((91 :: (arrPre (JArr.any isContainer a) lv a
          ++ arrTail (JArr.any isContainer a) lv a)) ++ R),
          (D ++ W).length, lw, cw⟩ : PState) = some 91 := by
      have hsh : (D ++ W) ++ ((91 :: (arrPre (JArr.any isContainer a) lv a
          ++ arrTail (JArr.any isContainer a) lv a)) ++ R)
          = (D ++ W) ++ 91 :: ((arrPre (JArr.any isContainer a) lv a
              ++ arrTail (JArr.any isContainer a) lv a) ++ R) := by
        simp
      rw [hsh]
      exact byteAt_head (D ++ W) _ 91 lw cw
    obtain ⟨l3, c3, hws2⟩ := skipWS_ok (arrPre (JArr.any isContainer a) lv a) (f2 + 1)
      ((D ++ W) ++ [91]) (arrTail (JArr.any isContainer a) lv a ++ R) lw (cw + 1)
      (wsRun_arrPre (JArr.any isContainer a) lv a) (arrTail_notWs _ lv a ha R)
      (by omega)
    obtain ⟨l4, c4, hloop⟩ := parseArrLoop_dump a ha JArr.nil (JArr.any isContainer a) R
      (((D ++ W) ++ [91]) ++ arrPre (JArr.any isContainer a) lv a) l3 c3 lv f2 hR
      (by omega)
    refine ⟨l4, c4, ?_⟩
    rw [parseValue_dispatch (f2 + 1) _ _ 91 hws hb, if_neg (by decide), if_pos rfl,
      parseArray_step f2 _, advance1_some _ 91 hb]
    simp only [Except.bind, show ((91 : Nat) = 10) = False by simp, if_false]
    have hst3 : (⟨(D ++ W) ++ ((91 :: (arrPre (JArr.any isContainer a) lv a
          ++ arrTail (JArr.any isContainer a) lv a)) ++ R),
          (D ++ W).length + 1, lw, cw + 1⟩ : PState)
        = ⟨((D ++ W) ++ [91]) ++ (arrPre (JArr.any isContainer a) lv a
            ++ (arrTail (JArr.any isContainer a) lv a ++ R)),
            ((D ++ W) ++ [91]).length, lw, cw + 1⟩ := by
      simp [Nat.add_assoc]
    rw [hst3, hws2]
    simp only [Except.bind]
    have hst4 : (⟨((D ++ W) ++ [91]) ++ (arrPre (JArr.any isContainer a) lv a
          ++ (arrTail (JArr.any isContainer a) lv a ++ R)),
          ((D ++ W) ++ [91]).length + (arrPre (JArr.any isContainer a) lv a).length,
          l3, c3⟩ : PState)
        = ⟨(((D ++ W) ++ [91]) ++ arrPre (JArr.any isContainer a) lv a)
            ++ (arrTail (JArr.any isContainer a) lv a ++ R),
            (((D ++ W) ++ [91]) ++ arrPre (JArr.any isContainer a) lv a).length,
            l3, c3⟩ :=
      PState.mk_eq _ _ _ _ _ _ _ _ (by simp)
        (by simp only [List.length_append, List.length_cons, List.length_nil] <;> omega)
        rfl rfl
    rw [hst4, hloop, show JArr.append JArr.nil a = a from rfl]
    exact congrArg Except.ok (Prod.ext rfl (PState.mk_eq _ _ _ _ _ _ _ _
      (by simp)
      (by simp only [List.length_append, List.length_cons, List.length_nil]; omega)
      rfl rfl))
  | .obj o, h => by
    intro W R D l c lv f hW hR hf
    have ho : goodObj o = true := h
    have hout := objOut_eq o lv ho
    rw [hout] at hf ⊢
    have hlen : (123 :: (objPre lv o ++ objTail lv o)).length
        = (objPre lv o).length + (objTail lv o).length + 1 := by
      simp
    rw [hlen] at hf
    obtain ⟨f1, rfl⟩ : ∃ f1, f = f1 + 1 := ⟨f - 1, by omega⟩
    obtain ⟨f2, rfl⟩ : ∃ f2, f1 = f2 + 1 := ⟨f1 - 1, by omega⟩
    have hnws : notWsHead ((123 :: (objPre lv o ++ objTail lv o)) ++ R) :=
      notWsHead_cons 123 _ (by decide)
    obtain ⟨lw, cw, hws⟩ := skipWS_ok W (f2 + 1 + 1) D
      ((123 :: (objPre lv o ++ objTail lv o)) ++ R) l c hW hnws (by omega)
    have hst : (⟨D ++ (W ++ ((123 :: (objPre lv o ++ objTail lv o)) ++ R)),
          D.length + W.length, lw, cw⟩ : PState)
        = ⟨(D ++ W) ++ ((123 :: (objPre lv o ++ objTail lv o)) ++ R),
            (D ++ W).length, lw, cw⟩ := by
      simp
    rw [hst] at hws
    have hb : byteAt (⟨(D ++ W) ++ ((123 :: (objPre lv o ++ objTail lv o)) ++ R),
          (D ++ W).length, lw, cw⟩ : PState) = some 123 := by
      have hsh : (D ++ W) ++ ((123 :: (objPre lv o ++ objTail lv o)) ++ R)
          = (D ++ W) ++ 123 :: ((objPre lv o ++ objTail lv o) ++ R) := by
        simp
      rw [hsh]
      exact byteAt_head (D ++ W) _ 123 lw cw
    obtain ⟨l3, c3, hws2⟩ := skipWS_ok (objPre lv o) (f2 + 1)
      ((D ++ W) ++ [123]) (objTail lv o ++ R) lw (cw + 1)
      (wsRun_objPre lv o) (objTail_notWs lv o R) (by omega)
    obtain ⟨l4, c4, hloop⟩ := parseObjLoop_dump o ho JObj.nil (belowAll_nil o) R
      (((D ++ W) ++ [123]) ++ objPre lv o) l3 c3 lv f2 hR (by omega)
    refine ⟨l4, c4, ?_⟩
    rw [parseValue_dispatch (f2 + 1) _ _ 123 hws hb, if_pos rfl,
      parseObject_step f2 _, advance1_some _ 123 hb]
    simp only [Except.bind, show ((123 : Nat) = 10) = False by simp, if_false]
    have hst3 : (⟨(D ++ W) ++ ((123 :: (objPre lv o ++ objTail lv o)) ++ R),
          (D ++ W).length + 1, lw, cw + 1⟩ : PState)
        = ⟨((D ++ W) ++ [123]) ++ (objPre lv o ++ (objTail lv o ++ R)),
            ((D ++ W) ++ [123]).length, lw, cw + 1⟩ :=
      PState.mk_eq _ _ _ _ _ _ _ _ (by simp)
        (by simp only [List.length_append, List.length_cons, List.length_nil] <;> omega)
        rfl rfl
    rw [hst3, hws2]
    simp only [Except.bind]
    have hst4 : (⟨((D ++ W) ++ [123]) ++ (objPre lv o ++ (objTail lv o ++ R)),
          ((D ++ W) ++ [123]).length + (objPre lv o).length, l3, c3⟩ : PState)
        = ⟨(((D ++ W) ++ [123]) ++ objPre lv o) ++ (objTail lv o ++ R),
            (((D ++ W) ++ [123]) ++ objPre lv o).length, l3, c3⟩ :=
      PState.mk_eq _ _ _ _ _ _ _ _ (by simp)
        (by simp only [List.length_append, List.length_cons, List.length_nil] <;> omega)
        rfl rfl
    rw [hst4, hloop, show JObj.appendO JObj.nil o = o from rfl]
    exact congrArg Except.ok (Prod.ext rfl (PState.mk_eq _ _ _ _ _ _ _ _
      (by simp)
      (by simp only [List.length_append, List.length_cons, List.length_nil] <;> omega)
      rfl rfl))

/-- round-trip for the object member loop: entered at the first key (or the
closing brace), it parses the remaining members and end-inserts them into
the accumulator, whose keys all sort below the remaining keys. -/
theorem parseObjLoop_dump : ∀ (o : JObj), goodObj o = true →
    ∀ (acc : JObj), JObj.belowAll acc o = true →
    ∀ (R D : List Nat) (l c : Nat) (lv : Int) (f : Nat),
    delimR R → 2 * (objTail lv o).length + 2 ≤ f →
    ∃ l2 c2, parseObjLoop f acc ⟨D ++ (objTail lv o ++ R), D.length, l, c⟩
      = .ok (.obj (JObj.appendO acc o), ⟨D ++ (objTail lv o ++ R),
          D.length + (objTail lv o).length, l2, c2⟩)
  | .nil, _ => by
    intro acc _ R D l c lv f hR hf
    obtain ⟨f1, rfl⟩ : ∃ f1, f = f1 + 1 := ⟨f - 1, by omega⟩
    have hT : objTail lv JObj.nil = [125] := rfl
    rw [hT]
    have hb : byteAt ⟨D ++ ([125] ++ R), D.length, l, c⟩ = some 125 :=
      byteAt_head D R 125 l c
    refine ⟨l, c + 1, ?_⟩
    rw [parseObjLoop_close f1 acc _ hb, advance1_some _ 125 hb]
    simp only [Except.bind, show ((125 : Nat) = 10) = False by simp, if_false]
    rw [show JObj.appendO acc JObj.nil = acc from JObj.appendO_nil acc]
    rfl
  | .cons k v t, h => by
    intro acc hbel R D l c lv f hR hf
    have h2 := (Bool.and_eq_true _ _).mp h
    have h3 := (Bool.and_eq_true _ _).mp h2.1
    have h4 := (Bool.and_eq_true _ _).mp h3.1
    have hba := (Bool.and_eq_true _ _).mp hbel
    have hrecT := parseObjLoop_dump t h2.2
    have hvv := parseValue_dump v h4.2
    obtain ⟨f1, rfl⟩ : ∃ f1, f = f1 + 1 := ⟨f - 1, by omega⟩
    cases t with
    | nil =>
      have hT : objTail lv (.cons k v .nil)
          = (34 :: (escBody k ++ [34]))
            ++ 58 :: 32 :: ((dumpValue v false (lv + 4) 4).1
              ++ (10 :: (spacesI lv ++ [125]))) := rfl
      rw [hT] at hf ⊢
      simp only [List.length_append, List.length_cons, List.length_nil] at hf
      have hst0 : (⟨D ++ (((34 :: (escBody k ++ [34]))
            ++ 58 :: 32 :: ((dumpValue v false (lv + 4) 4).1
              ++ (10 :: (spacesI lv ++ [125])))) ++ R), D.length, l, c⟩ : PState)
          = ⟨D ++ ((34 :: (escBody k ++ [34]))
              ++ ((58 :: 32 :: ((dumpValue v false (lv + 4) 4).1
                ++ (10 :: (spacesI lv ++ [125])))) ++ R)), D.length, l, c⟩ := by
        simp
      rw [hst0]
      obtain ⟨lk, ck, hkey⟩ := parseString_ok k (f1 + 1) D
        ((58 :: 32 :: ((dumpValue v false (lv + 4) 4).1
          ++ (10 :: (spacesI lv ++ [125])))) ++ R) l c h4.1 (by omega)
      have hb0 : byteAt (⟨D ++ ((34 :: (escBody k ++ [34]))
            ++ ((58 :: 32 :: ((dumpValue v false (lv + 4) 4).1
              ++ (10 :: (spacesI lv ++ [125])))) ++ R)), D.length, l, c⟩ : PState)
          = some 34 := by
        have hsh : D ++ ((34 :: (escBody k ++ [34]))
            ++ ((58 :: 32 :: ((dumpValue v false (lv + 4) 4).1
              ++ (10 :: (spacesI lv ++ [125])))) ++ R))
            = D ++ 34 :: ((escBody k ++ [34])
              ++ ((58 :: 32 :: ((dumpValue v false (lv + 4) 4).1
                ++ (10 :: (spacesI lv ++ [125])))) ++ R)) := by
          simp
        rw [hsh]
        exact byteAt_head D _ 34 l c
      have hstk : (⟨D ++ ((34 :: (escBody k ++ [34]))
            ++ ((58 :: 32 :: ((dumpValue v false (lv + 4) 4).1
              ++ (10 :: (spacesI lv ++ [125])))) ++ R)),
            D.length + ((escBody k).length + 2), lk, ck⟩ : PState)
          = ⟨(D ++ (34 :: (escBody k ++ [34])))
              ++ ([] ++ ((58 :: 32 :: ((dumpValue v false (lv + 4) 4).1
                ++ (10 :: (spacesI lv ++ [125])))) ++ R)),
              (D ++ (34 :: (escBody k ++ [34]))).length, lk, ck⟩ :=
        PState.mk_eq _ _ _ _ _ _ _ _ (by simp)
          (by simp only [List.length_append, List.length_cons, List.length_nil] <;> omega)
          rfl rfl
      obtain ⟨l3, c3, hsk0⟩ := skipWS_ok [] (f1 + 1) (D ++ (34 :: (escBody k ++ [34])))
        ((58 :: 32 :: ((dumpValue v false (lv + 4) 4).1
          ++ (10 :: (spacesI lv ++ [125])))) ++ R) lk ck wsRun_nil
        (notWsHead_cons 58 _ (by decide)) (by simp)
      have hsk : skipWS (f1 + 1) (⟨D ++ ((34 :: (escBody k ++ [34]))
            ++ ((58 :: 32 :: ((dumpValue v false (lv + 4) 4).1
              ++ (10 :: (spacesI lv ++ [125])))) ++ R)),
            D.length + ((escBody k).length + 2), lk, ck⟩ : PState)
          = .ok ⟨(D ++ (34 :: (escBody k ++ [34])))
              ++ ([] ++ ((58 :: 32 :: ((dumpValue v false (lv + 4) 4).1
                ++ (10 :: (spacesI lv ++ [125])))) ++ R)),
              (D ++ (34 :: (escBody k ++ [34]))).length + ([] : List Nat).length,
              l3, c3⟩ := by
        rw [hstk]
        exact hsk0
      have hb58 : byteAt (⟨(D ++ (34 :: (escBody k ++ [34])))
            ++ ([] ++ ((58 :: 32 :: ((dumpValue v false (lv + 4) 4).1
              ++ (10 :: (spacesI lv ++ [125])))) ++ R)),
            (D ++ (34 :: (escBody k ++ [34]))).length + ([] : List Nat).length,
            l3, c3⟩ : PState) = some 58 :=
        byteAt_head (D ++ (34 :: (escBody k ++ [34])))
          ((32 :: ((dumpValue v false (lv + 4) 4).1
            ++ (10 :: (spacesI lv ++ [125])))) ++ R) 58 l3 c3
      have hadv : advance1 (⟨(D ++ (34 :: (escBody k ++ [34])))
            ++ ([] ++ ((58 :: 32 :: ((dumpValue v false (lv + 4) 4).1
              ++ (10 :: (spacesI lv ++ [125])))) ++ R)),
            (D ++ (34 :: (escBody k ++ [34]))).length + ([] : List Nat).length,
            l3, c3⟩ : PState)
          = .ok ⟨(D ++ (34 :: (escBody k ++ [34])))
              ++ ([] ++ ((58 :: 32 :: ((dumpValue v false (lv + 4) 4).1
                ++ (10 :: (spacesI lv ++ [125])))) ++ R)),
              (D ++ (34 :: (escBody k ++ [34]))).length + ([] : List Nat).length + 1,
              l3, c3 + 1⟩ := by
        rw [advance1_some _ 58 hb58]
        rfl
      have hMd : delimR ((10 :: (spacesI lv ++ [125])) ++ R) :=
        delimR_cons 10 _ (by decide) (by decide)
      obtain ⟨lval, cval, hval0⟩ := hvv [32] ((10 :: (spacesI lv ++ [125])) ++ R)
        ((D ++ (34 :: (escBody k ++ [34]))) ++ [58]) l3 (c3 + 1) (lv + 4) f1
        wsRun32 hMd (by simp only [List.length_cons, List.length_nil]; omega)
      have hst4c : (⟨(D ++ (34 :: (escBody k ++ [34])))
            ++ ([] ++ ((58 :: 32 :: ((dumpValue v false (lv + 4) 4).1
              ++ (10 :: (spacesI lv ++ [125])))) ++ R)),
            (D ++ (34 :: (escBody k ++ [34]))).length + ([] : List Nat).length + 1,
            l3, c3 + 1⟩ : PState)
          = ⟨((D ++ (34 :: (escBody k ++ [34]))) ++ [58])
              ++ ([32] ++ ((dumpValue v false (lv + 4) 4).1
                ++ ((10 :: (spacesI lv ++ [125])) ++ R))),
              ((D ++ (34 :: (escBody k ++ [34]))) ++ [58]).length, l3, c3 + 1⟩ :=
        PState.mk_eq _ _ _ _ _ _ _ _ (by simp)
          (by simp only [List.length_append, List.length_cons, List.length_nil] <;> omega)
          rfl rfl
      have hval : parseValue f1 (⟨(D ++ (34 :: (escBody k ++ [34])))
            ++ ([] ++ ((58 :: 32 :: ((dumpValue v false (lv + 4) 4).1
              ++ (10 :: (spacesI lv ++ [125])))) ++ R)),
            (D ++ (34 :: (escBody k ++ [34]))).length + ([] : List Nat).length + 1,
            l3, c3 + 1⟩ : PState)
          = .ok (v, ⟨((D ++ (34 :: (escBody k ++ [34]))) ++ [58])
              ++ ([32] ++ ((dumpValue v false (lv + 4) 4).1
                ++ ((10 :: (spacesI lv ++ [125])) ++ R))),
              ((D ++ (34 :: (escBody k ++ [34]))) ++ [58]).length
                + ([32].length + (dumpValue v false (lv + 4) 4).1.length),
              lval, cval⟩) := by
        rw [hst4c]
        exact hval0
      rw [parseObjLoop_elem f1 acc _ 34 k _ _ _ v _ hb0 (by decide) hkey hsk hb58
        hadv hval]
      have hstv : (⟨((D ++ (34 :: (escBody k ++ [34]))) ++ [58])
            ++ ([32] ++ ((dumpValue v false (lv + 4) 4).1
              ++ ((10 :: (spacesI lv ++ [125])) ++ R))),
            ((D ++ (34 :: (escBody k ++ [34]))) ++ [58]).length
              + ([32].length + (dumpValue v false (lv + 4) 4).1.length),
            lval, cval⟩ : PState)
          = ⟨(((D ++ (34 :: (escBody k ++ [34]))) ++ [58])
              ++ ([32] ++ (dumpValue v false (lv + 4) 4).1))
              ++ ((10 :: spacesI lv) ++ ([125] ++ R)),
              (((D ++ (34 :: (escBody k ++ [34]))) ++ [58])
                ++ ([32] ++ (dumpValue v false (lv + 4) 4).1)).length,
              lval, cval⟩ :=
        PState.mk_eq _ _ _ _ _ _ _ _ (by simp)
          (by simp only [List.length_append, List.length_cons, List.length_nil] <;> omega)
          rfl rfl
      obtain ⟨l5, c5, hws5⟩ := skipWS_ok (10 :: spacesI lv) (f1 + 1)
        (((D ++ (34 :: (escBody k ++ [34]))) ++ [58])
          ++ ([32] ++ (dumpValue v false (lv + 4) 4).1)) ([125] ++ R) lval cval
        (wsRun_nl_spaces lv) (notWsHead_cons 125 R (by decide))
        (by simp only [List.length_cons]; omega)
      rw [hstv, hws5]
      simp only [Except.bind]
      have hst6 : (⟨(((D ++ (34 :: (escBody k ++ [34]))) ++ [58])
            ++ ([32] ++ (dumpValue v false (lv + 4) 4).1))
            ++ ((10 :: spacesI lv) ++ ([125] ++ R)),
            (((D ++ (34 :: (escBody k ++ [34]))) ++ [58])
              ++ ([32] ++ (dumpValue v false (lv + 4) 4).1)).length
              + (10 :: spacesI lv).length, l5, c5⟩ : PState)
          = ⟨((((D ++ (34 :: (escBody k ++ [34]))) ++ [58])
              ++ ([32] ++ (dumpValue v false (lv + 4) 4).1)) ++ (10 :: spacesI lv))
              ++ ([125] ++ R),
              ((((D ++ (34 :: (escBody k ++ [34]))) ++ [58])
                ++ ([32] ++ (dumpValue v false (lv + 4) 4).1))
                ++ (10 :: spacesI lv)).length, l5, c5⟩ :=
        PState.mk_eq _ _ _ _ _ _ _ _ (by simp)
          (by simp only [List.length_append, List.length_cons, List.length_nil] <;> omega)
          rfl rfl
      rw [hst6]
      have hb125 : byteAt (⟨((((D ++ (34 :: (escBody k ++ [34]))) ++ [58])
            ++ ([32] ++ (dumpValue v false (lv + 4) 4).1)) ++ (10 :: spacesI lv))
            ++ ([125] ++ R),
            ((((D ++ (34 :: (escBody k ++ [34]))) ++ [58])
              ++ ([32] ++ (dumpValue v false (lv + 4) 4).1))
              ++ (10 :: spacesI lv)).length, l5, c5⟩ : PState) = some 125 :=
        byteAt_head _ R 125 l5 c5
      simp only [hb125]
      rw [if_neg (by decide : ¬(125 : Nat) = 44)]
      rw [insert_of_allLt k v acc hba.1]
      obtain ⟨l6, c6, hloop⟩ := hrecT (acc.snoc k v) rfl R
        ((((D ++ (34 :: (escBody k ++ [34]))) ++ [58])
          ++ ([32] ++ (dumpValue v false (lv + 4) 4).1)) ++ (10 :: spacesI lv))
        l5 c5 lv f1 hR
        (by have h1 : (objTail lv JObj.nil).length = 1 := rfl
            omega)
      rw [show objTail lv JObj.nil = [125] from rfl] at hloop
      refine ⟨l6, c6, ?_⟩
      rw [hloop, JObj.appendO_snoc]
      exact congrArg Except.ok (Prod.ext rfl (PState.mk_eq _ _ _ _ _ _ _ _
        (by simp)
        (by simp only [List.length_append, List.length_cons, List.length_nil] <;> omega)
        rfl rfl))
    | cons k2 v2 u =>
      have hT : objTail lv (.cons k v (.cons k2 v2 u))
          = (34 :: (escBody k ++ [34]))
            ++ 58 :: 32 :: ((dumpValue v false (lv + 4) 4).1
              ++ (44 :: 10 :: (spacesI (lv + 4) ++ objTail lv (.cons k2 v2 u)))) := rfl
      rw [hT] at hf ⊢
      simp only [List.length_append, List.length_cons, List.length_nil] at hf
      have hst0 : (⟨D ++ (((34 :: (escBody k ++ [34]))
            ++ 58 :: 32 :: ((dumpValue v false (lv + 4) 4).1
              ++ (44 :: 10 :: (spacesI (lv + 4) ++ objTail lv (.cons k2 v2 u))))) ++ R), D.length, l, c⟩ : PState)
          = ⟨D ++ ((34 :: (escBody k ++ [34]))
              ++ ((58 :: 32 :: ((dumpValue v false (lv + 4) 4).1
                ++ (44 :: 10 :: (spacesI (lv + 4) ++ objTail lv (.cons k2 v2 u))))) ++ R)), D.length, l, c⟩ := by
        simp
      rw [hst0]
      obtain ⟨lk, ck, hkey⟩ := parseString_ok k (f1 + 1) D
        ((58 :: 32 :: ((dumpValue v false (lv + 4) 4).1
          ++ (44 :: 10 :: (spacesI (lv + 4) ++ objTail lv (.cons k2 v2 u))))) ++ R) l c h4.1 (by omega)
      have hb0 : byteAt (⟨D ++ ((34 :: (escBody k ++ [34]))
            ++ ((58 :: 32 :: ((dumpValue v false (lv + 4) 4).1
              ++ (44 :: 10 :: (spacesI (lv + 4) ++ objTail lv (.cons k2 v2 u))))) ++ R)), D.length, l, c⟩ : PState)
          = some 34 := by
        have hsh : D ++ ((34 :: (escBody k ++ [34]))
            ++ ((58 :: 32 :: ((dumpValue v false (lv + 4) 4).1
              ++ (44 :: 10 :: (spacesI (lv + 4) ++ objTail lv (.cons k2 v2 u))))) ++ R))
            = D ++ 34 :: ((escBody k ++ [34])
              ++ ((58 :: 32 :: ((dumpValue v false (lv + 4) 4).1
                ++ (44 :: 10 :: (spacesI (lv + 4) ++ objTail lv (.cons k2 v2 u))))) ++ R)) := by
          simp
        rw [hsh]
        exact byteAt_head D _ 34 l c
      have hstk : (⟨D ++ ((34 :: (escBody k ++ [34]))
            ++ ((58 :: 32 :: ((dumpValue v false (lv + 4) 4).1
              ++ (44 :: 10 :: (spacesI (lv + 4) ++ objTail lv (.cons k2 v2 u))))) ++ R)),
            D.length + ((escBody k).length + 2), lk, ck⟩ : PState)
          = ⟨(D ++ (34 :: (escBody k ++ [34])))
              ++ ([] ++ ((58 :: 32 :: ((dumpValue v false (lv + 4) 4).1
                ++ (44 :: 10 :: (spacesI (lv + 4) ++ objTail lv (.cons k2 v2 u))))) ++ R)),
              (D ++ (34 :: (escBody k ++ [34]))).length, lk, ck⟩ :=
        PState.mk_eq _ _ _ _ _ _ _ _ (by simp)
          (by simp only [List.length_append, List.length_cons, List.length_nil] <;> omega)
          rfl rfl
      obtain ⟨l3, c3, hsk0⟩ := skipWS_ok [] (f1 + 1) (D ++ (34 :: (escBody k ++ [34])))
        ((58 :: 32 :: ((dumpValue v false (lv + 4) 4).1
          ++ (44 :: 10 :: (spacesI (lv + 4) ++ objTail lv (.cons k2 v2 u))))) ++ R) lk ck wsRun_nil
        (notWsHead_cons 58 _ (by decide)) (by simp)
      have hsk : skipWS (f1 + 1) (⟨D ++ ((34 :: (escBody k ++ [34]))
            ++ ((58 :: 32 :: ((dumpValue v false (lv + 4) 4).1
              ++ (44 :: 10 :: (spacesI (lv + 4) ++ objTail lv (.cons k2 v2 u))))) ++ R)),
            D.length + ((escBody k).length + 2), lk, ck⟩ : PState)
          = .ok ⟨(D ++ (34 :: (escBody k ++ [34])))
              ++ ([] ++ ((58 :: 32 :: ((dumpValue v false (lv + 4) 4).1
                ++ (44 :: 10 :: (spacesI (lv + 4) ++ objTail lv (.cons k2 v2 u))))) ++ R)),
              (D ++ (34 :: (escBody k ++ [34]))).length + ([] : List Nat).length,
              l3, c3⟩ := by
        rw [hstk]
        exact hsk0
      have hb58 : byteAt (⟨(D ++ (34 :: (escBody k ++ [34])))
            ++ ([] ++ ((58 :: 32 :: ((dumpValue v false (lv + 4) 4).1
              ++ (44 :: 10 :: (spacesI (lv + 4) ++ objTail lv (.cons k2 v2 u))))) ++ R)),
            (D ++ (34 :: (escBody k ++ [34]))).length + ([] : List Nat).length,
            l3, c3⟩ : PState) = some 58 :=
        byteAt_head (D ++ (34 :: (escBody k ++ [34])))
          ((32 :: ((dumpValue v false (lv + 4) 4).1
            ++ (44 :: 10 :: (spacesI (lv + 4) ++ objTail lv (.cons k2 v2 u))))) ++ R) 58 l3 c3
      have hadv : advance1 (⟨(D ++ (34 :: (escBody k ++ [34])))
            ++ ([] ++ ((58 :: 32 :: ((dumpValue v false (lv + 4) 4).1
              ++ (44 :: 10 :: (spacesI (lv + 4) ++ objTail lv (.cons k2 v2 u))))) ++ R)),
            (D ++ (34 :: (escBody k ++ [34]))).length + ([] : List Nat).length,
            l3, c3⟩ : PState)
          = .ok ⟨(D ++ (34 :: (escBody k ++ [34])))
              ++ ([] ++ ((58 :: 32 :: ((dumpValue v false (lv + 4) 4).1
                ++ (44 :: 10 :: (spacesI (lv + 4) ++ objTail lv (.cons k2 v2 u))))) ++ R)),
              (D ++ (34 :: (escBody k ++ [34]))).length + ([] : List Nat).length + 1,
              l3, c3 + 1⟩ := by
        rw [advance1_some _ 58 hb58]
        rfl
      have hMd : delimR ((44 :: 10 :: (spacesI (lv + 4) ++ objTail lv (.cons k2 v2 u))) ++ R) :=
        delimR_cons 44 _ (by decide) (by decide)
      obtain ⟨lval, cval, hval0⟩ := hvv [32] ((44 :: 10 :: (spacesI (lv + 4) ++ objTail lv (.cons k2 v2 u))) ++ R)
        ((D ++ (34 :: (escBody k ++ [34]))) ++ [58]) l3 (c3 + 1) (lv + 4) f1
        wsRun32 hMd (by simp only [List.length_cons, List.length_nil]; omega)
      have hst4c : (⟨(D ++ (34 :: (escBody k ++ [34])))
            ++ ([] ++ ((58 :: 32 :: ((dumpValue v false (lv + 4) 4).1
              ++ (44 :: 10 :: (spacesI (lv + 4) ++ objTail lv (.cons k2 v2 u))))) ++ R)),
            (D ++ (34 :: (escBody k ++ [34]))).length + ([] : List Nat).length + 1,
            l3, c3 + 1⟩ : PState)
          = ⟨((D ++ (34 :: (escBody k ++ [34]))) ++ [58])
              ++ ([32] ++ ((dumpValue v false (lv + 4) 4).1
                ++ ((44 :: 10 :: (spacesI (lv + 4) ++ objTail lv (.cons k2 v2 u))) ++ R))),
              ((D ++ (34 :: (escBody k ++ [34]))) ++ [58]).length, l3, c3 + 1⟩ :=
        PState.mk_eq _ _ _ _ _ _ _ _ (by simp)
          (by simp only [List.length_append, List.length_cons, List.length_nil] <;> omega)
          rfl rfl
      have hval : parseValue f1 (⟨(D ++ (34 :: (escBody k ++ [34])))
            ++ ([] ++ ((58 :: 32 :: ((dumpValue v false (lv + 4) 4).1
              ++ (44 :: 10 :: (spacesI (lv + 4) ++ objTail lv (.cons k2 v2 u))))) ++ R)),
            (D ++ (34 :: (escBody k ++ [34]))).length + ([] : List Nat).length + 1,
            l3, c3 + 1⟩ : PState)
          = .ok (v, ⟨((D ++ (34 :: (escBody k ++ [34]))) ++ [58])
              ++ ([32] ++ ((dumpValue v false (lv + 4) 4).1
                ++ ((44 :: 10 :: (spacesI (lv + 4) ++ objTail lv (.cons k2 v2 u))) ++ R))),
              ((D ++ (34 :: (escBody k ++ [34]))) ++ [58]).length
                + ([32].length + (dumpValue v false (lv + 4) 4).1.length),
              lval, cval⟩) := by
        rw [hst4c]
        exact hval0
      rw [parseObjLoop_elem f1 acc _ 34 k _ _ _ v _ hb0 (by decide) hkey hsk hb58
        hadv hval]
      have hstv : (⟨((D ++ (34 :: (escBody k ++ [34]))) ++ [58])
            ++ ([32] ++ ((dumpValue v false (lv + 4) 4).1
              ++ ((44 :: 10 :: (spacesI (lv + 4) ++ objTail lv (.cons k2 v2 u))) ++ R))),
            ((D ++ (34 :: (escBody k ++ [34]))) ++ [58]).length
              + ([32].length + (dumpValue v false (lv + 4) 4).1.length),
            lval, cval⟩ : PState)
          = ⟨(((D ++ (34 :: (escBody k ++ [34]))) ++ [58])
          ++ ([32] ++ (dumpValue v false (lv + 4) 4).1)) ++ ([] ++ ((44 :: 10 :: (spacesI (lv + 4) ++ objTail lv (.cons k2 v2 u))) ++ R)),
              (((D ++ (34 :: (escBody k ++ [34]))) ++ [58])
          ++ ([32] ++ (dumpValue v false (lv + 4) 4).1)).length, lval, cval⟩ :=
        PState.mk_eq _ _ _ _ _ _ _ _ (by simp)
          (by simp only [List.length_append, List.length_cons, List.length_nil] <;> omega)
          rfl rfl
      obtain ⟨l5, c5, hws5⟩ := skipWS_ok [] (f1 + 1)
        (((D ++ (34 :: (escBody k ++ [34]))) ++ [58])
          ++ ([32] ++ (dumpValue v false (lv + 4) 4).1)) ((44 :: 10 :: (spacesI (lv + 4) ++ objTail lv (.cons k2 v2 u))) ++ R) lval cval wsRun_nil
        (notWsHead_cons 44 _ (by decide)) (by simp)
      rw [hstv, hws5]
      simp only [Except.bind]
      have hb44 : byteAt (⟨(((D ++ (34 :: (escBody k ++ [34]))) ++ [58])
          ++ ([32] ++ (dumpValue v false (lv + 4) 4).1)) ++ ([] ++ ((44 :: 10 :: (spacesI (lv + 4) ++ objTail lv (.cons k2 v2 u))) ++ R)),
            (((D ++ (34 :: (escBody k ++ [34]))) ++ [58])
          ++ ([32] ++ (dumpValue v false (lv + 4) 4).1)).length + ([] : List Nat).length, l5, c5⟩ : PState) = some 44 :=
        byteAt_head (((D ++ (34 :: (escBody k ++ [34]))) ++ [58])
          ++ ([32] ++ (dumpValue v false (lv + 4) 4).1))
          ((10 :: (spacesI (lv + 4) ++ objTail lv (.cons k2 v2 u))) ++ R) 44 l5 c5
      simp only [hb44]
      rw [advance1_some _ 44 hb44]
      simp only [Except.bind, show ((44 : Nat) = 10) = False by simp, if_false]
      have hst7 : (⟨(((D ++ (34 :: (escBody k ++ [34]))) ++ [58])
          ++ ([32] ++ (dumpValue v false (lv + 4) 4).1)) ++ ([] ++ ((44 :: 10 :: (spacesI (lv + 4) ++ objTail lv (.cons k2 v2 u))) ++ R)),
            (((D ++ (34 :: (escBody k ++ [34]))) ++ [58])
          ++ ([32] ++ (dumpValue v false (lv + 4) 4).1)).length + ([] : List Nat).length + 1, l5, c5 + 1⟩ : PState)
          = ⟨((((D ++ (34 :: (escBody k ++ [34]))) ++ [58])
          ++ ([32] ++ (dumpValue v false (lv + 4) 4).1)) ++ [44]) ++ ((10 :: spacesI (lv + 4)) ++ (objTail lv (.cons k2 v2 u) ++ R)),
              ((((D ++ (34 :: (escBody k ++ [34]))) ++ [58])
          ++ ([32] ++ (dumpValue v false (lv + 4) 4).1)) ++ [44]).length, l5, c5 + 1⟩ :=
        PState.mk_eq _ _ _ _ _ _ _ _ (by simp)
          (by simp only [List.length_append, List.length_cons, List.length_nil] <;> omega)
          rfl rfl
      rw [hst7]
      obtain ⟨l8, c8, hws8⟩ := skipWS_ok (10 :: spacesI (lv + 4)) (f1 + 1)
        ((((D ++ (34 :: (escBody k ++ [34]))) ++ [58])
          ++ ([32] ++ (dumpValue v false (lv + 4) 4).1)) ++ [44]) (objTail lv (.cons k2 v2 u) ++ R) l5 (c5 + 1)
        (wsRun_nl_spaces (lv + 4)) (objTail_notWs lv (.cons k2 v2 u) R)
        (by simp only [List.length_cons]; omega)
      rw [hws8]
      simp only [Except.bind]
      have hst8 : (⟨((((D ++ (34 :: (escBody k ++ [34]))) ++ [58])
          ++ ([32] ++ (dumpValue v false (lv + 4) 4).1)) ++ [44]) ++ ((10 :: spacesI (lv + 4)) ++ (objTail lv (.cons k2 v2 u) ++ R)),
            ((((D ++ (34 :: (escBody k ++ [34]))) ++ [58])
          ++ ([32] ++ (dumpValue v false (lv + 4) 4).1)) ++ [44]).length + (10 :: spacesI (lv + 4)).length, l8, c8⟩ : PState)
          = ⟨(((((D ++ (34 :: (escBody k ++ [34]))) ++ [58])
          ++ ([32] ++ (dumpValue v false (lv + 4) 4).1)) ++ [44]) ++ (10 :: spacesI (lv + 4))) ++ (objTail lv (.cons k2 v2 u) ++ R),
              (((((D ++ (34 :: (escBody k ++ [34]))) ++ [58])
          ++ ([32] ++ (dumpValue v false (lv + 4) 4).1)) ++ [44]) ++ (10 :: spacesI (lv + 4))).length, l8, c8⟩ :=
        PState.mk_eq _ _ _ _ _ _ _ _ (by simp)
          (by simp only [List.length_append, List.length_cons, List.length_nil] <;> omega)
          rfl rfl
      rw [hst8]
      rw [insert_of_allLt k v acc hba.1]
      obtain ⟨l6, c6, hloop⟩ := hrecT (acc.snoc k v)
        (belowAll_snoc acc k v (.cons k2 v2 u) hba.2 h3.2) R
        (((((D ++ (34 :: (escBody k ++ [34]))) ++ [58])
          ++ ([32] ++ (dumpValue v false (lv + 4) 4).1)) ++ [44]) ++ (10 :: spacesI (lv + 4))) l8 c8 lv f1 hR (by omega)
      refine ⟨l6, c6, ?_⟩
      rw [hloop, JObj.appendO_snoc]
      exact congrArg Except.ok (Prod.ext rfl (PState.mk_eq _ _ _ _ _ _ _ _
        (by simp)
        (by simp only [List.length_append, List.length_cons, List.length_nil] <;> omega)
        rfl rfl))

/-- round-trip for the array element loop: entered at the first element (or
the closing bracket), it parses the remaining elements and appends them to
the accumulator. -/
theorem parseArrLoop_dump : ∀ (a : JArr), goodArr a = true →
    ∀ (acc : JArr) (p : Bool) (R D : List Nat) (l c : Nat) (lv : Int) (f : Nat),
    delimR R → 2 * (arrTail p lv a).length + 2 ≤ f →
    ∃ l2 c2, parseArrLoop f acc ⟨D ++ (arrTail p lv a ++ R), D.length, l, c⟩
      = .ok (.arr (JArr.append acc a), ⟨D ++ (arrTail p lv a ++ R),
          D.length + (arrTail p lv a).length, l2, c2⟩)
  | .nil, _ => by
    intro acc p R D l c lv f hR hf
    obtain ⟨f1, rfl⟩ : ∃ f1, f = f1 + 1 := ⟨f - 1, by omega⟩
    have hT : arrTail p lv JArr.nil = [93] := rfl
    rw [hT]
    have hb : byteAt ⟨D ++ ([93] ++ R), D.length, l, c⟩ = some 93 :=
      byteAt_head D R 93 l c
    refine ⟨l, c + 1, ?_⟩
    rw [parseArrLoop_close f1 acc _ hb, advance1_some _ 93 hb]
    simp only [Except.bind, show ((93 : Nat) = 10) = False by simp, if_false]
    rw [show JArr.append acc JArr.nil = acc from JArr.append_nil acc]
    rfl
  | .cons x t, h => by
    intro acc p R D l c lv f hR hf
    have hg := (Bool.and_eq_true _ _).mp h
    have hrecT := parseArrLoop_dump t hg.2
    have hvx := parseValue_dump x hg.1
    obtain ⟨b, T, hbT, hbws, hb93, _⟩ := dumpValue_head x (lv + 4) hg.1
    have hOlen : (dumpValue x false (lv + 4) 4).1.length = T.length + 1 := by
      rw [hbT]
      simp
    obtain ⟨f1, rfl⟩ : ∃ f1, f = f1 + 1 := ⟨f - 1, by omega⟩
    cases t with
    | nil =>
      have hT : arrTail p lv (.cons x .nil)
          = (dumpValue x false (lv + 4) 4).1
            ++ ((if p then 10 :: spacesI lv else []) ++ [93]) := rfl
      rw [hT] at hf ⊢
      simp only [List.length_append, List.length_cons, List.length_nil] at hf
      have hMd : delimR (((if p then 10 :: spacesI lv else []) ++ [93]) ++ R) := by
        cases p
        · exact delimR_cons 93 R (by decide) (by decide)
        · exact delimR_cons 10 _ (by decide) (by decide)
      obtain ⟨lv2, cv2, hval⟩ := hvx []
        (((if p then 10 :: spacesI lv else []) ++ [93]) ++ R)
        D l c (lv + 4) f1 wsRun_nil hMd (by simp only [List.length_nil]; omega)
      obtain ⟨l3, c3, hws⟩ := skipWS_ok (if p then 10 :: spacesI lv else []) (f1 + 1)
        (D ++ (dumpValue x false (lv + 4) 4).1) ([93] ++ R) lv2 cv2 (wsRun_if p lv)
        (notWsHead_cons 93 R (by decide)) (by omega)
      obtain ⟨l4, c4, hloop⟩ := hrecT (acc.push x) p R
        ((D ++ (dumpValue x false (lv + 4) 4).1) ++ (if p then 10 :: spacesI lv else []))
        l3 c3 lv f1 hR
        (by have h1 : (arrTail p lv JArr.nil).length = 1 := rfl
            omega)
      rw [show arrTail p lv JArr.nil = [93] from rfl] at hloop
      refine ⟨l4, c4, ?_⟩
      have hst0 : (⟨D ++ (((dumpValue x false (lv + 4) 4).1
            ++ ((if p then 10 :: spacesI lv else []) ++ [93])) ++ R), D.length, l, c⟩ : PState)
          = ⟨D ++ ([] ++ ((dumpValue x false (lv + 4) 4).1
              ++ (((if p then 10 :: spacesI lv else []) ++ [93]) ++ R))), D.length, l, c⟩ := by
        simp
      rw [hst0]
      have hb0 : byteAt (⟨D ++ ([] ++ ((dumpValue x false (lv + 4) 4).1
            ++ (((if p then 10 :: spacesI lv else []) ++ [93]) ++ R))), D.length, l, c⟩ : PState)
          = some b := by
        have hsh : D ++ ([] ++ ((dumpValue x false (lv + 4) 4).1
            ++ (((if p then 10 :: spacesI lv else []) ++ [93]) ++ R)))
            = D ++ b :: (T ++ (((if p then 10 :: spacesI lv else []) ++ [93]) ++ R)) := by
          rw [hbT]
          simp
        rw [hsh]
        exact byteAt_head D _ b l c
      rw [parseArrLoop_elem f1 acc _ b x _ hb0 hb93 hval]
      have hstv : (⟨D ++ ([] ++ ((dumpValue x false (lv + 4) 4).1
            ++ (((if p then 10 :: spacesI lv else []) ++ [93]) ++ R))),
            D.length + (([] : List Nat).length + (dumpValue x false (lv + 4) 4).1.length), lv2, cv2⟩ : PState)
          = ⟨(D ++ (dumpValue x false (lv + 4) 4).1)
              ++ ((if p then 10 :: spacesI lv else []) ++ ([93] ++ R)),
              (D ++ (dumpValue x false (lv + 4) 4).1).length, lv2, cv2⟩ := by
        simp [Nat.add_assoc]
      rw [hstv, hws]
      simp only [Except.bind]
      have hst5 : (⟨(D ++ (dumpValue x false (lv + 4) 4).1)
            ++ ((if p then 10 :: spacesI lv else []) ++ ([93] ++ R)),
            (D ++ (dumpValue x false (lv + 4) 4).1).length
              + (if p then 10 :: spacesI lv else []).length, l3, c3⟩ : PState)
          = ⟨((D ++ (dumpValue x false (lv + 4) 4).1)
              ++ (if p then 10 :: spacesI lv else [])) ++ ([93] ++ R),
              ((D ++ (dumpValue x false (lv + 4) 4).1)
                ++ (if p then 10 :: spacesI lv else [])).length, l3, c3⟩ := by
        simp [Nat.add_assoc]
      rw [hst5]
      have hb2 : byteAt (⟨((D ++ (dumpValue x false (lv + 4) 4).1)
            ++ (if p then 10 :: spacesI lv else [])) ++ ([93] ++ R),
            ((D ++ (dumpValue x false (lv + 4) 4).1)
              ++ (if p then 10 :: spacesI lv else [])).length, l3, c3⟩ : PState)
          = some 93 := byteAt_head ((D ++ (dumpValue x false (lv + 4) 4).1)
            ++ (if p then 10 :: spacesI lv else [])) R 93 l3 c3
      simp only [hb2]
      rw [if_neg (by decide : ¬(93 : Nat) = 44)]
      rw [hloop, JArr.append_nil, JArr.push_eq_append]
      rw [PState.mk_eq
        ((((D ++ (dumpValue x false (lv + 4) 4).1)
            ++ (if p then 10 :: spacesI lv else [])) ++ ([93] ++ R)))
        (D ++ (((dumpValue x false (lv + 4) 4).1
            ++ ((if p then 10 :: spacesI lv else []) ++ [93])) ++ R))
        (((D ++ (dumpValue x false (lv + 4) 4).1)
            ++ (if p then 10 :: spacesI lv else [])).length + [93].length)
        (D.length + ((dumpValue x false (lv + 4) 4).1
            ++ ((if p then 10 :: spacesI lv else []) ++ [93])).length)
        l4 l4 c4 c4
        (by simp)
        (by simp only [List.length_append, List.length_cons, List.length_nil]; omega)
        rfl rfl]
    | cons y u =>
      have hT : arrTail p lv (.cons x (.cons y u))
          = (dumpValue x false (lv + 4) 4).1
            ++ ((if p then 44 :: 10 :: spacesI (lv + 4) else [44, 32])
                ++ arrTail p lv (.cons y u)) := rfl
      rw [hT] at hf ⊢
      simp only [List.length_append, List.length_cons, List.length_nil] at hf
      have hsep : (if p then 44 :: 10 :: spacesI (lv + 4) else [44, 32]).length
          = (if p then 10 :: spacesI (lv + 4) else [32]).length + 1 := by
        cases p <;> simp
      have hMd : delimR (((if p then 44 :: 10 :: spacesI (lv + 4) else [44, 32])
          ++ arrTail p lv (.cons y u)) ++ R) := by
        cases p
        · exact delimR_cons 44 _ (by decide) (by decide)
        · exact delimR_cons 44 _ (by decide) (by decide)
      obtain ⟨lv2, cv2, hval⟩ := hvx []
        (((if p then 44 :: 10 :: spacesI (lv + 4) else [44, 32])
          ++ arrTail p lv (.cons y u)) ++ R)
        D l c (lv + 4) f1 wsRun_nil hMd (by simp only [List.length_nil]; omega)
      obtain ⟨l3, c3, hws⟩ := skipWS_ok [] (f1 + 1)
        (D ++ (dumpValue x false (lv + 4) 4).1)
        (((if p then 44 :: 10 :: spacesI (lv + 4) else [44, 32])
          ++ arrTail p lv (.cons y u)) ++ R) lv2 cv2 wsRun_nil
        (by cases p
            · exact notWsHead_cons 44 _ (by decide)
            · exact notWsHead_cons 44 _ (by decide))
        (by simp)
      obtain ⟨l7, c7, hws2⟩ := skipWS_ok (if p then 10 :: spacesI (lv + 4) else [32])
        (f1 + 1) ((D ++ (dumpValue x false (lv + 4) 4).1) ++ [44])
        (arrTail p lv (.cons y u) ++ R) l3 (c3 + 1) (wsRun_sep p (lv + 4))
        (arrTail_notWs p lv (.cons y u) hg.2 R) (by omega)
      obtain ⟨l4, c4, hloop⟩ := hrecT (acc.push x) p R
        (((D ++ (dumpValue x false (lv + 4) 4).1) ++ [44])
          ++ (if p then 10 :: spacesI (lv + 4) else [32]))
        l7 c7 lv f1 hR (by omega)
      refine ⟨l4, c4, ?_⟩
      have hst0 : (⟨D ++ (((dumpValue x false (lv + 4) 4).1
            ++ ((if p then 44 :: 10 :: spacesI (lv + 4) else [44, 32])
                ++ arrTail p lv (.cons y u))) ++ R), D.length, l, c⟩ : PState)
          = ⟨D ++ ([] ++ ((dumpValue x false (lv + 4) 4).1
              ++ (((if p then 44 :: 10 :: spacesI (lv + 4) else [44, 32])
                ++ arrTail p lv (.cons y u)) ++ R))), D.length, l, c⟩ := by
        simp
      rw [hst0]
      have hb0 : byteAt (⟨D ++ ([] ++ ((dumpValue x false (lv + 4) 4).1
            ++ (((if p then 44 :: 10 :: spacesI (lv + 4) else [44, 32])
              ++ arrTail p lv (.cons y u)) ++ R))), D.length, l, c⟩ : PState)
          = some b := by
        have hsh : D ++ ([] ++ ((dumpValue x false (lv + 4) 4).1
            ++ (((if p then 44 :: 10 :: spacesI (lv + 4) else [44, 32])
              ++ arrTail p lv (.cons y u)) ++ R)))
            = D ++ b :: (T ++ (((if p then 44 :: 10 :: spacesI (lv + 4) else [44, 32])
              ++ arrTail p lv (.cons y u)) ++ R)) := by
          rw [hbT]
          simp
        rw [hsh]
        exact byteAt_head D _ b l c
      rw [parseArrLoop_elem f1 acc _ b x _ hb0 hb93 hval]
      have hstv : (⟨D ++ ([] ++ ((dumpValue x false (lv + 4) 4).1
            ++ (((if p then 44 :: 10 :: spacesI (lv + 4) else [44, 32])
              ++ arrTail p lv (.cons y u)) ++ R))),
            D.length + (([] : List Nat).length + (dumpValue x false (lv + 4) 4).1.length), lv2, cv2⟩ : PState)
          = ⟨(D ++ (dumpValue x false (lv + 4) 4).1)
              ++ ([] ++ (((if p then 44 :: 10 :: spacesI (lv + 4) else [44, 32])
                ++ arrTail p lv (.cons y u)) ++ R)),
              (D ++ (dumpValue x false (lv + 4) 4).1).length, lv2, cv2⟩ := by
        simp [Nat.add_assoc]
      rw [hstv, hws]
      simp only [Except.bind]
      have hst5 : (⟨(D ++ (dumpValue x false (lv + 4) 4).1)
            ++ ([] ++ (((if p then 44 :: 10 :: spacesI (lv + 4) else [44, 32])
              ++ arrTail p lv (.cons y u)) ++ R)),
            (D ++ (dumpValue x false (lv + 4) 4).1).length + (([] : List Nat)).length, l3, c3⟩ : PState)
          = ⟨(D ++ (dumpValue x false (lv + 4) 4).1)
              ++ (44 :: ((if p then 10 :: spacesI (lv + 4) else [32])
                ++ (arrTail p lv (.cons y u) ++ R))),
              (D ++ (dumpValue x false (lv + 4) 4).1).length, l3, c3⟩ := by
        cases p <;> simp
      rw [hst5]
      have hb2 : byteAt (⟨(D ++ (dumpValue x false (lv + 4) 4).1)
            ++ (44 :: ((if p then 10 :: spacesI (lv + 4) else [32])
              ++ (arrTail p lv (.cons y u) ++ R))),
            (D ++ (dumpValue x false (lv + 4) 4).1).length, l3, c3⟩ : PState)
          = some 44 := byteAt_head (D ++ (dumpValue x false (lv + 4) 4).1)
            ((if p then 10 :: spacesI (lv + 4) else [32])
              ++ (arrTail p lv (.cons y u) ++ R)) 44 l3 c3
      simp only [hb2]
      rw [advance1_some _ 44 hb2]
      simp only [Except.bind, show ((44 : Nat) = 10) = False by simp, if_false]
      have hst6 : (⟨(D ++ (dumpValue x false (lv + 4) 4).1)
            ++ (44 :: ((if p then 10 :: spacesI (lv + 4) else [32])
              ++ (arrTail p lv (.cons y u) ++ R))),
            (D ++ (dumpValue x false (lv + 4) 4).1).length + 1, l3, c3 + 1⟩ : PState)
          = ⟨((D ++ (dumpValue x false (lv + 4) 4).1) ++ [44])
              ++ ((if p then 10 :: spacesI (lv + 4) else [32])
                ++ (arrTail p lv (.cons y u) ++ R)),
              ((D ++ (dumpValue x false (lv + 4) 4).1) ++ [44]).length, l3, c3 + 1⟩ := by
        simp [Nat.add_assoc]
      rw [hst6, hws2]
      simp only [Except.bind]
      have hst7 : (⟨((D ++ (dumpValue x false (lv + 4) 4).1) ++ [44])
            ++ ((if p then 10 :: spacesI (lv + 4) else [32])
              ++ (arrTail p lv (.cons y u) ++ R)),
            ((D ++ (dumpValue x false (lv + 4) 4).1) ++ [44]).length
              + (if p then 10 :: spacesI (lv + 4) else [32]).length, l7, c7⟩ : PState)
          = ⟨(((D ++ (dumpValue x false (lv + 4) 4).1) ++ [44])
              ++ (if p then 10 :: spacesI (lv + 4) else [32])) ++ (arrTail p lv (.cons y u) ++ R),
              (((D ++ (dumpValue x false (lv + 4) 4).1) ++ [44])
                ++ (if p then 10 :: spacesI (lv + 4) else [32])).length, l7, c7⟩ := by
        simp [Nat.add_assoc, Nat.add_comm]
      rw [hst7, hloop, JArr.push_eq_append, JArr.append_assoc_cons]
      exact congrArg Except.ok (Prod.ext rfl (PState.mk_eq _ _ _ _ _ _ _ _
        (by cases p <;> simp)
        (by simp only [List.length_append, List.length_cons, List.length_nil]; omega)
        rfl rfl))
end

/-- C1 counterexample: the Double payload 3 dumps as `3` (`%g` drops the
decimal point for integral values), which reparses as an Integer — the tag
is not preserved, against the claim that parsing `dump(v)` yields a value
whose tag equals `v`'s at every node. -/
theorem c1_counterexample :
    dump (JSON.double 3) = strOf "3" ∧
    JSONParser_parse (dump (JSON.double 3)) = .ok (JSON.integer 3) ∧
    getType (JSON.integer 3) ≠ getType (JSON.double 3) :=
  ⟨rfl, rfl, fun hh => by simp [getType] at hh⟩

/-- C1 (amended): for every value built from Null, Boolean, in-range
Integer, printable String, Array and Object payloads (Double excluded),
with object keys strictly ascending, parsing the default-indent dump
succeeds and returns exactly the value. -/
theorem c1_roundtrip (v : JSON) (h : good v = true) :
    JSONParser_parse (dump v) = .ok v := by
  obtain ⟨b, T, hbT, hbw, _, _⟩ := dumpValue_head v 0 h
  have hnws : notWsHead ([] ++ dump v) := by
    rw [show dump v = b :: T from hbT]
    exact notWsHead_cons b T hbw
  obtain ⟨lw, cw, hws⟩ := skipWS_ok [] (topFuel (dump v)) [] (dump v) 1 1 wsRun_nil
    hnws (by simp [topFuel])
  obtain ⟨l2, c2, hval⟩ := parseValue_dump v h [] [] [] lw cw 0 (topFuel (dump v))
    wsRun_nil delimR_nil (by simp only [topFuel, dump, List.length_nil]; omega)
  unfold JSONParser_parse parseRun
  have hst0 : (⟨dump v, 0, 1, 1⟩ : PState)
      = ⟨[] ++ ([] ++ dump v), ([] : List Nat).length, 1, 1⟩ := by simp
  rw [hst0, hws]
  simp only [bind, Except.bind, Except.map]
  have hst1 : (⟨[] ++ ([] ++ dump v),
        ([] : List Nat).length + ([] : List Nat).length, lw, cw⟩ : PState)
      = ⟨[] ++ ([] ++ ((dumpValue v false 0 4).1 ++ [])),
          ([] : List Nat).length, lw, cw⟩ := by
    simp [dump]
  rw [hst1, hval]

/-- witness for the amended C1 at a nested concrete value
`{"a": [1, "x"], "b": null}`. -/
theorem c1_roundtrip_witness :
    good (JSON.obj (JObj.cons (strOf "a")
        (JSON.arr (JArr.cons (JSON.integer 1)
          (JArr.cons (JSON.str (strOf "x")) JArr.nil)))
      (JObj.cons (strOf "b") JSON.null JObj.nil))) = true ∧
    JSONParser_parse (dump (JSON.obj (JObj.cons (strOf "a")
        (JSON.arr (JArr.cons (JSON.integer 1)
          (JArr.cons (JSON.str (strOf "x")) JArr.nil)))
      (JObj.cons (strOf "b") JSON.null JObj.nil))))
      = .ok (JSON.obj (JObj.cons (strOf "a")
        (JSON.arr (JArr.cons (JSON.integer 1)
          (JArr.cons (JSON.str (strOf "x")) JArr.nil)))
      (JObj.cons (strOf "b") JSON.null JObj.nil))) :=
  ⟨rfl, c1_roundtrip _ rfl⟩
